import Mathlib

/-!
# chrest: radiation read accessor, geometry kernel and neighbour-cell search

A shallow embedding of

* `Radiation::GetIntensity`                       (src/radiation/radiation.hpp)
* `DMPlexGetLineIntersection_2D_Internal`         (src/levelSet/lsSupport.cpp)
* `DMPlexGetLinePlaneIntersection_3D_Internal`    (src/levelSet/lsSupport.cpp)
* `DMPlexGetNeighborCells_Internal`, `DMPlexGetNeighborCells` (src/levelSet/lsSupport.cpp)

`PetscReal` is embedded as an arbitrary linearly ordered field `α` (exact arithmetic): every
definition is executable at `α = ℚ` and every theorem also holds at `α = ℝ`.  The 2D kernel is
given a second time with every operation rounded to IEEE `double` (`roundDouble`), which is how
the compiled routine computes.  `PetscInt` is `Int`.
C arrays of reals are functions `Nat → α` (index ↦ entry); a nullable output array is an
`Option (Nat → α)` with `none` the NULL pointer.
-/

namespace Chrest

set_option linter.unusedSectionVars false

/-! ## Radiation::GetIntensity -/

section Radiation

variable {α : Type} [LinearOrderedField α]

/-- Entry of the `origin` container of `Radiation`; only the member `net` is read by the accessor. -/
structure Origin (α : Type) where
  net : α

/-- The part of the `Radiation` object that `GetIntensity` touches: `origin[iCell]`.
The declaration of `origin` is not part of the header, it is taken as a map from cell index to
its record. -/
structure Radiation (α : Type) where
  origin : Int → Origin α

/-- The literal `1E10` of the accessor. -/
def satBound : α := 10 ^ 10

/-- `Radiation::GetIntensity(iCell)`: the returned value together with the object after the call.
```
if (abs(origin[iCell].net) < 1E10) return origin[iCell].net;
else if (origin[iCell].net > 1E10) return 1E10;
else if (origin[iCell].net < -1E10) return -1E10;
else return 0;
```
-/
def GetIntensity (self : Radiation α) (iCell : Int) : α × Radiation α :=
  if abs (self.origin iCell).net < satBound then ((self.origin iCell).net, self)
  else if (self.origin iCell).net > satBound then (satBound, self)
  else if (self.origin iCell).net < -satBound then (-satBound, self)
  else (0, self)

end Radiation

/-! ## Geometry kernel -/

section Geometry

variable {α : Type} [LinearOrderedField α]

/-- Outputs of the two intersection kernels: the returned `PetscErrorCode`, the `intersection`
array after the call (`none` when the caller passed NULL) and `*hasIntersection`. -/
structure IntersectionResult (α : Type) where
  ierr : Int
  intersection : Option (Nat → α)
  hasIntersection : Bool

/-- Write `v` at index `i` of a C array. -/
def arraySet (a : Nat → α) (i : Nat) (v : α) : Nat → α :=
  fun j => if j = i then v else a j

/-- `denom` of `DMPlexGetLineIntersection_2D_Internal`. -/
def lineDenom (segmentA segmentB : Nat → α) : α :=
  let p0_x := segmentA (0*2+0)
  let p0_y := segmentA (0*2+1)
  let p1_x := segmentA (1*2+0)
  let p1_y := segmentA (1*2+1)
  let p2_x := segmentB (0*2+0)
  let p2_y := segmentB (0*2+1)
  let p3_x := segmentB (1*2+0)
  let p3_y := segmentB (1*2+1)
  let s1_x := p1_x - p0_x
  let s1_y := p1_y - p0_y
  let s2_x := p3_x - p2_x
  let s2_y := p3_y - p2_y
  (-s2_x * s1_y + s1_x * s2_y)

/-- The parameter `s` (position along `segmentB`) of `DMPlexGetLineIntersection_2D_Internal`. -/
def lineS (segmentA segmentB : Nat → α) : α :=
  let p0_x := segmentA (0*2+0)
  let p0_y := segmentA (0*2+1)
  let p1_x := segmentA (1*2+0)
  let p1_y := segmentA (1*2+1)
  let p2_x := segmentB (0*2+0)
  let p2_y := segmentB (0*2+1)
  let s1_x := p1_x - p0_x
  let s1_y := p1_y - p0_y
  (-s1_y * (p0_x - p2_x) + s1_x * (p0_y - p2_y)) / lineDenom segmentA segmentB

/-- The parameter `t` (position along `segmentA`) of `DMPlexGetLineIntersection_2D_Internal`. -/
def lineT (segmentA segmentB : Nat → α) : α :=
  let p0_x := segmentA (0*2+0)
  let p0_y := segmentA (0*2+1)
  let p2_x := segmentB (0*2+0)
  let p2_y := segmentB (0*2+1)
  let p3_x := segmentB (1*2+0)
  let p3_y := segmentB (1*2+1)
  let s2_x := p3_x - p2_x
  let s2_y := p3_y - p2_y
  (s2_x * (p0_y - p2_y) - s2_y * (p0_x - p2_x)) / lineDenom segmentA segmentB

/-- `DMPlexGetLineIntersection_2D_Internal(segmentA, segmentB, intersection, hasIntersection)`.
`segmentA = {p0_x, p0_y, p1_x, p1_y}`, `segmentB = {p2_x, p2_y, p3_x, p3_y}`.  The arithmetic is
that of the ordered field `α`, without rounding: the routine evaluated in exact arithmetic.
`DMPlexGetLineIntersection_2D_Internal_double` is the same routine with every operation rounded
to `double`. -/
def DMPlexGetLineIntersection_2D_Internal (segmentA segmentB : Nat → α)
    (intersection : Option (Nat → α)) : IntersectionResult α :=
  let p0_x := segmentA (0*2+0)
  let p0_y := segmentA (0*2+1)
  let p1_x := segmentA (1*2+0)
  let p1_y := segmentA (1*2+1)
  let s1_x := p1_x - p0_x
  let s1_y := p1_y - p0_y
  let denom := lineDenom segmentA segmentB
  -- *hasIntersection = PETSC_FALSE;
  if denom ≠ 0 then
    let s := lineS segmentA segmentB
    let t := lineT segmentA segmentB
    if s ≥ 0 ∧ s ≤ 1 ∧ t ≥ 0 ∧ t ≤ 1 then
      { ierr := 0
        intersection := intersection.map
          (fun buf => arraySet (arraySet buf 0 (p0_x + (t * s1_x))) 1 (p0_y + (t * s1_y)))
        hasIntersection := true }
    else { ierr := 0, intersection := intersection, hasIntersection := false }
  else { ierr := 0, intersection := intersection, hasIntersection := false }

/-- `denom` of `DMPlexGetLinePlaneIntersection_3D_Internal`: `-s0 . (s1 x s2)`. -/
def planeDenom (segmentA segmentB segmentC : Nat → α) : α :=
  let p0_x := segmentA (0*3+0)
  let p0_y := segmentA (0*3+1)
  let p0_z := segmentA (0*3+2)
  let p1_x := segmentA (1*3+0)
  let p1_y := segmentA (1*3+1)
  let p1_z := segmentA (1*3+2)
  let q0_x := segmentB (0*3+0)
  let q0_y := segmentB (0*3+1)
  let q0_z := segmentB (0*3+2)
  let q1_x := segmentB (1*3+0)
  let q1_y := segmentB (1*3+1)
  let q1_z := segmentB (1*3+2)
  let r0_x := segmentC (0*3+0)
  let r0_y := segmentC (0*3+1)
  let r0_z := segmentC (0*3+2)
  let r1_x := segmentC (1*3+0)
  let r1_y := segmentC (1*3+1)
  let r1_z := segmentC (1*3+2)
  let s0_x := p1_x - p0_x
  let s0_y := p1_y - p0_y
  let s0_z := p1_z - p0_z
  let s1_x := q1_x - q0_x
  let s1_y := q1_y - q0_y
  let s1_z := q1_z - q0_z
  let s2_x := r1_x - r0_x
  let s2_y := r1_y - r0_y
  let s2_z := r1_z - r0_z
  let s3_x := s1_y*s2_z - s1_z*s2_y
  let s3_y := s1_z*s2_x - s1_x*s2_z
  let s3_z := s1_x*s2_y - s1_y*s2_x
  (-(s0_x*s3_x + s0_y*s3_y + s0_z*s3_z))

/-- The parameter `t` (position along `segmentA`) of
`DMPlexGetLinePlaneIntersection_3D_Internal`. -/
def planeT (segmentA segmentB segmentC : Nat → α) : α :=
  let p0_x := segmentA (0*3+0)
  let p0_y := segmentA (0*3+1)
  let p0_z := segmentA (0*3+2)
  let q0_x := segmentB (0*3+0)
  let q0_y := segmentB (0*3+1)
  let q0_z := segmentB (0*3+2)
  let q1_x := segmentB (1*3+0)
  let q1_y := segmentB (1*3+1)
  let q1_z := segmentB (1*3+2)
  let r0_x := segmentC (0*3+0)
  let r0_y := segmentC (0*3+1)
  let r0_z := segmentC (0*3+2)
  let r1_x := segmentC (1*3+0)
  let r1_y := segmentC (1*3+1)
  let r1_z := segmentC (1*3+2)
  let s1_x := q1_x - q0_x
  let s1_y := q1_y - q0_y
  let s1_z := q1_z - q0_z
  let s2_x := r1_x - r0_x
  let s2_y := r1_y - r0_y
  let s2_z := r1_z - r0_z
  let s3_x := s1_y*s2_z - s1_z*s2_y
  let s3_y := s1_z*s2_x - s1_x*s2_z
  let s3_z := s1_x*s2_y - s1_y*s2_x
  (s3_x * (p0_x - q0_x) + s3_y * (p0_y - q0_y) + s3_z * (p0_z - q0_z)) /
    planeDenom segmentA segmentB segmentC

/-- The parameter `u` (coefficient of `s1 = q1 - q0`) of
`DMPlexGetLinePlaneIntersection_3D_Internal`. -/
def planeU (segmentA segmentB segmentC : Nat → α) : α :=
  let p0_x := segmentA (0*3+0)
  let p0_y := segmentA (0*3+1)
  let p0_z := segmentA (0*3+2)
  let p1_x := segmentA (1*3+0)
  let p1_y := segmentA (1*3+1)
  let p1_z := segmentA (1*3+2)
  let q0_x := segmentB (0*3+0)
  let q0_y := segmentB (0*3+1)
  let q0_z := segmentB (0*3+2)
  let r0_x := segmentC (0*3+0)
  let r0_y := segmentC (0*3+1)
  let r0_z := segmentC (0*3+2)
  let r1_x := segmentC (1*3+0)
  let r1_y := segmentC (1*3+1)
  let r1_z := segmentC (1*3+2)
  let s0_x := p1_x - p0_x
  let s0_y := p1_y - p0_y
  let s0_z := p1_z - p0_z
  let s2_x := r1_x - r0_x
  let s2_y := r1_y - r0_y
  let s2_z := r1_z - r0_z
  let s4_x := s0_y*s2_z - s0_z*s2_y
  let s4_y := s0_z*s2_x - s0_x*s2_z
  let s4_z := s0_x*s2_y - s0_y*s2_x
  (s4_x * (p0_x - q0_x) + s4_y * (p0_y - q0_y) + s4_z * (p0_z - q0_z)) /
    planeDenom segmentA segmentB segmentC

/-- The parameter `v` (coefficient of `s2 = r1 - r0`) of
`DMPlexGetLinePlaneIntersection_3D_Internal`. -/
def planeV (segmentA segmentB segmentC : Nat → α) : α :=
  let p0_x := segmentA (0*3+0)
  let p0_y := segmentA (0*3+1)
  let p0_z := segmentA (0*3+2)
  let p1_x := segmentA (1*3+0)
  let p1_y := segmentA (1*3+1)
  let p1_z := segmentA (1*3+2)
  let q0_x := segmentB (0*3+0)
  let q0_y := segmentB (0*3+1)
  let q0_z := segmentB (0*3+2)
  let q1_x := segmentB (1*3+0)
  let q1_y := segmentB (1*3+1)
  let q1_z := segmentB (1*3+2)
  let s0_x := p1_x - p0_x
  let s0_y := p1_y - p0_y
  let s0_z := p1_z - p0_z
  let s1_x := q1_x - q0_x
  let s1_y := q1_y - q0_y
  let s1_z := q1_z - q0_z
  let s5_x := s1_y*s0_z - s1_z*s0_y
  let s5_y := s1_z*s0_x - s1_x*s0_z
  let s5_z := s1_x*s0_y - s1_y*s0_x
  (s5_x * (p0_x - q0_x) + s5_y * (p0_y - q0_y) + s5_z * (p0_z - q0_z)) /
    planeDenom segmentA segmentB segmentC

/-- `DMPlexGetLinePlaneIntersection_3D_Internal(segmentA, segmentB, segmentC, intersection,
hasIntersection)`.  `segmentA = {p0, p1}`, `segmentB = {q0, q1}`, `segmentC = {r0, r1}`, three
coordinates per point. -/
def DMPlexGetLinePlaneIntersection_3D_Internal (segmentA segmentB segmentC : Nat → α)
    (intersection : Option (Nat → α)) : IntersectionResult α :=
  let p0_x := segmentA (0*3+0)
  let p0_y := segmentA (0*3+1)
  let p0_z := segmentA (0*3+2)
  let p1_x := segmentA (1*3+0)
  let p1_y := segmentA (1*3+1)
  let p1_z := segmentA (1*3+2)
  let s0_x := p1_x - p0_x
  let s0_y := p1_y - p0_y
  let s0_z := p1_z - p0_z
  let denom := planeDenom segmentA segmentB segmentC
  -- *hasIntersection = PETSC_FALSE;
  if denom ≠ 0 then
    let t := planeT segmentA segmentB segmentC
    let u := planeU segmentA segmentB segmentC
    let v := planeV segmentA segmentB segmentC
    if t ≥ 0 ∧ t ≤ 1 ∧ u ≥ 0 ∧ u ≤ 1 ∧ v ≥ 0 ∧ v ≤ 1 then
      { ierr := 0
        intersection := intersection.map
          (fun buf => arraySet (arraySet (arraySet buf 0 (p0_x + (t * s0_x)))
            1 (p0_y + (t * s0_y))) 2 (p0_z + (t * s0_z)))
        hasIntersection := true }
    else { ierr := 0, intersection := intersection, hasIntersection := false }
  else { ierr := 0, intersection := intersection, hasIntersection := false }

/-- A C array given by its initial entries (zero beyond them). -/
def arrayOf (l : List α) : Nat → α :=
  fun i => l.getD i 0

end Geometry

/-! ## The 2D kernel in double precision -/

section DoublePrecision

/-- The power `2^e` of two as a rational number. -/
def pow2 (e : Int) : ℚ :=
  if 0 ≤ e then ((2 ^ e.toNat : Nat) : ℚ) else 1 / ((2 ^ (-e).toNat : Nat) : ℚ)

/-- The number of halvings that take `n` below 2, at most `fuel` of them. -/
def halvings : Nat → Nat → Nat
  | 0, _ => 0
  | fuel + 1, n => if n ≥ 2 then halvings fuel (n / 2) + 1 else 0

/-- The position of the leading bit of `n`: `⌊log2 n⌋` for `n >= 1`. -/
def leadingBit (n : Nat) : Nat :=
  halvings n n

/-- The binade of a positive rational `q`: the greatest `e` with `2^e <= q`. -/
def floorLog2 (q : ℚ) : Int :=
  if pow2 ((leadingBit q.num.natAbs : Int) - (leadingBit q.den : Int)) ≤ q then
    (leadingBit q.num.natAbs : Int) - (leadingBit q.den : Int)
  else (leadingBit q.num.natAbs : Int) - (leadingBit q.den : Int) - 1

/-- Rounding to the nearest integer, ties to the even one. -/
def roundHalfEven (q : ℚ) : Int :=
  if q - (Int.floor q : ℚ) < 1 / 2 then Int.floor q
  else if q - (Int.floor q : ℚ) > 1 / 2 then Int.floor q + 1
  else if Int.floor q % 2 = 0 then Int.floor q
  else Int.floor q + 1

/-- The unit in the last place of the doubles around `q`: `2^(e-52)` with `2^e <= |q| < 2^(e+1)`,
and `2^-1074` in the subnormal range. -/
def ulpDouble (q : ℚ) : ℚ :=
  pow2 (max (floorLog2 (if q < 0 then -q else q)) (-1022) - 52)

/-- The multiple of `ulpDouble q` nearest to `q`, ties to even. -/
def nearestDouble (q : ℚ) : ℚ :=
  (roundHalfEven (q / ulpDouble q) : ℚ) * ulpDouble q

/-- The result of one arithmetic operation on values of type `PetscReal` when `PetscReal` is
`double` (IEEE 754 binary64, round to nearest, ties to even): the exact result `q` rounded to
53 significant bits, with gradual underflow below `2^-1022`.  `none` when the rounded value is
not finite.  Every operation is taken to be rounded on its own (no fused multiply-add, no
extended precision). -/
def roundDouble (q : ℚ) : Option ℚ :=
  if q = 0 then some 0
  else if -pow2 1024 < nearestDouble q ∧ nearestDouble q < pow2 1024 then some (nearestDouble q)
  else none

/-- The operands `s1_x, s1_y, s2_x, s2_y` and `denom` of the kernel in double arithmetic. -/
def lineDenom_double (segmentA segmentB : Nat → ℚ) : Option (ℚ × ℚ × ℚ × ℚ × ℚ) := do
  let p0_x := segmentA (0*2+0)
  let p0_y := segmentA (0*2+1)
  let p1_x := segmentA (1*2+0)
  let p1_y := segmentA (1*2+1)
  let p2_x := segmentB (0*2+0)
  let p2_y := segmentB (0*2+1)
  let p3_x := segmentB (1*2+0)
  let p3_y := segmentB (1*2+1)
  let s1_x ← roundDouble (p1_x - p0_x)
  let s1_y ← roundDouble (p1_y - p0_y)
  let s2_x ← roundDouble (p3_x - p2_x)
  let s2_y ← roundDouble (p3_y - p2_y)
  -- denom = (-s2_x * s1_y + s1_x * s2_y)
  let d1 ← roundDouble (-s2_x * s1_y)
  let d2 ← roundDouble (s1_x * s2_y)
  let denom ← roundDouble (d1 + d2)
  pure (s1_x, s1_y, s2_x, s2_y, denom)

/-- The parameters `s` and `t` of the kernel in double arithmetic. -/
def lineST_double (segmentA segmentB : Nat → ℚ) (s1_x s1_y s2_x s2_y denom : ℚ) :
    Option (ℚ × ℚ) := do
  let p0_x := segmentA (0*2+0)
  let p0_y := segmentA (0*2+1)
  let p2_x := segmentB (0*2+0)
  let p2_y := segmentB (0*2+1)
  let dx ← roundDouble (p0_x - p2_x)
  let dy ← roundDouble (p0_y - p2_y)
  -- s = (-s1_y * (p0_x - p2_x) + s1_x * (p0_y - p2_y)) / denom
  let a1 ← roundDouble (-s1_y * dx)
  let a2 ← roundDouble (s1_x * dy)
  let sNum ← roundDouble (a1 + a2)
  let s ← roundDouble (sNum / denom)
  -- t = ( s2_x * (p0_y - p2_y) - s2_y * (p0_x - p2_x)) / denom
  let b1 ← roundDouble (s2_x * dy)
  let b2 ← roundDouble (s2_y * dx)
  let tNum ← roundDouble (b1 - b2)
  let t ← roundDouble (tNum / denom)
  pure (s, t)

/-- The point `p0 + t * s1` written by the kernel in double arithmetic. -/
def linePoint_double (segmentA : Nat → ℚ) (s1_x s1_y t : ℚ) : Option (ℚ × ℚ) := do
  let p0_x := segmentA (0*2+0)
  let p0_y := segmentA (0*2+1)
  let m1 ← roundDouble (t * s1_x)
  let i0 ← roundDouble (p0_x + m1)
  let m2 ← roundDouble (t * s1_y)
  let i1 ← roundDouble (p0_y + m2)
  pure (i0, i1)

/-- `DMPlexGetLineIntersection_2D_Internal(segmentA, segmentB, intersection, hasIntersection)`
with every subtraction, product, sum and quotient rounded to `double`.  The entries of the
arrays are finite doubles; `none` when an intermediate value is not finite. -/
def DMPlexGetLineIntersection_2D_Internal_double (segmentA segmentB : Nat → ℚ)
    (intersection : Option (Nat → ℚ)) : Option (IntersectionResult ℚ) :=
  match lineDenom_double segmentA segmentB with
  | none => none
  | some (s1_x, s1_y, s2_x, s2_y, denom) =>
    -- *hasIntersection = PETSC_FALSE;
    if denom ≠ 0 then
      match lineST_double segmentA segmentB s1_x s1_y s2_x s2_y denom with
      | none => none
      | some (s, t) =>
        if s ≥ 0 ∧ s ≤ 1 ∧ t ≥ 0 ∧ t ≤ 1 then
          match intersection with
          | none => some { ierr := 0, intersection := none, hasIntersection := true }
          | some buf =>
            match linePoint_double segmentA s1_x s1_y t with
            | none => none
            | some (i0, i1) =>
              some { ierr := 0
                     intersection := some (arraySet (arraySet buf 0 i0) 1 i1)
                     hasIntersection := true }
        else some { ierr := 0, intersection := intersection, hasIntersection := false }
    else some { ierr := 0, intersection := intersection, hasIntersection := false }

/-- The segment from (0.4, 1.8) to (0.2, 0.8), each decimal standing for the nearest double. -/
def endpointSegmentA : Nat → ℚ :=
  arrayOf [3602879701896397 / 2 ^ 53, 8106479329266893 / 2 ^ 52,
    3602879701896397 / 2 ^ 54, 3602879701896397 / 2 ^ 52]

/-- The segment from (0.3, 1.5) to (0.2, 0.8), each decimal standing for the nearest double. -/
def endpointSegmentB : Nat → ℚ :=
  arrayOf [5404319552844595 / 2 ^ 54, 3 / 2,
    3602879701896397 / 2 ^ 54, 3602879701896397 / 2 ^ 52]

/-- The segment from (0, 0) to (1, 3). -/
def parallelSegmentA : Nat → ℚ :=
  arrayOf [0, 0, 1, 3]

/-- A segment on the same line as `parallelSegmentA`, from `(3 * 2^-53, 9 * 2^-53)` to
`(1 + 2^-51, 3 + 3 * 2^-51)`. -/
def parallelSegmentB : Nat → ℚ :=
  arrayOf [3 / 2 ^ 53, 9 / 2 ^ 53, 1 + 1 / 2 ^ 51, 3 + 3 / 2 ^ 51]

end DoublePrecision


/-! ## Neighbour-cell search -/

section Neighbors

variable {α : Type} [LinearOrderedField α]

/-- The part of a PETSc `DM` (a DMPlex mesh) that the neighbour search reads through the PETSc
API.  The PETSc calls themselves are external; each is taken as the function it computes and is
assumed to succeed (error code `0`).

* `dim`                 : `DMGetDimension(dm, &dim)`
* `heightStratum h`     : `DMPlexGetHeightStratum(dm, h, &start, &end)` (height 0: cells,
                          height 1: edges in 2D / faces in 3D)
* `depthStratum d`      : `DMPlexGetDepthStratum(dm, d, &start, &end)` (depth 0: vertices)
* `closure p`           : the points `closure[0], closure[2], ...` returned by
                          `DMPlexGetTransitiveClosure(dm, p, PETSC_TRUE, ...)`
* `star p`              : the points `star[0], star[2], ...` returned by
                          `DMPlexGetTransitiveClosure(dm, p, PETSC_FALSE, ...)`
* `centroid c`          : the array `x` written by
                          `DMPlexComputeCellGeometryFVM(dm, c, NULL, x, NULL)` -/
structure DM (α : Type) where
  dim : Nat
  heightStratum : Int → Int × Int
  depthStratum : Int → Int × Int
  closure : Int → List Int
  star : Int → List Int
  centroid : Int → Nat → α

/-- `PETSC_MAX_INT` (PETSc built with 32-bit indices). -/
def PETSC_MAX_INT : Int := 2147483647

/-- The values taken by the local variable `maxDist`: a real supplied by the caller, or
`PETSC_MAX_REAL`, the largest `PetscReal`.  Since `PetscReal` is embedded as an unbounded field,
`PETSC_MAX_REAL` is kept symbolic: it is at least every distance. -/
inductive MaxDist (α : Type) where
  | real (d : α) : MaxDist α
  | PETSC_MAX_REAL : MaxDist α

/-- `PetscSqr(a)`. -/
def PetscSqr (a : α) : α := a * a

/-- The test `PetscSqrtReal(dist) <= maxDist`.  `dist` is a sum of squares; in exact arithmetic
`sqrt dist <= m` holds exactly when `0 <= m` and `dist <= m * m`, which keeps the test inside
the ordered field. -/
def sqrtLE (dist : α) : MaxDist α → Bool
  | MaxDist.real m => decide (0 ≤ m ∧ dist ≤ m * m)
  | MaxDist.PETSC_MAX_REAL => true

/-- `PetscSortRemoveDupsInt(&n, list)` (PETSc): sorts the array ascending and removes duplicate
entries; the new `n` is the length of the result. -/
def PetscSortRemoveDupsInt (list : List Int) : List Int :=
  (list.dedup).insertionSort (fun a b => a ≤ b)

/-- Number of entries of the scratch array `PetscInt list[10000]` of both search routines. -/
def listCapacity : Nat := 10000

/-- The squared distance accumulated by
`dist = 0; for (i = 0; i < dim; ++i) dist += PetscSqr(x0[i] - x[i]);`. -/
def centroidDist2 (dim : Nat) (x0 x : Nat → α) : α :=
  (List.range dim).foldl (fun dist i => dist + PetscSqr (x0 i - x i)) 0

/-- The entries appended to `list` by the two nested loops of `DMPlexGetNeighborCells_Internal`,
in order and with repetitions: for every point `closure[cl]` of the closure of `p` that lies in
`[vStart, vEnd)`, every point `star[st]` of its star that lies in `[cStart, cEnd)` and whose
centre is within `maxDist` of the centre of `p`. -/
def neighborCandidates (dm : DM α) (p : Int) (maxDist : MaxDist α) (useVertices : Bool) :
    List Int :=
  let x0 := dm.centroid p
  let cStart := (dm.heightStratum 0).1
  let cEnd := (dm.heightStratum 0).2
  let vStart := if useVertices then (dm.depthStratum 0).1 else (dm.heightStratum 1).1
  let vEnd := if useVertices then (dm.depthStratum 0).2 else (dm.heightStratum 1).2
  ((dm.closure p).filter (fun cl => decide (cl ≥ vStart ∧ cl < vEnd))).flatMap (fun cl =>
    (dm.star cl).filter (fun st =>
      decide (st ≥ cStart ∧ st < cEnd) &&
        sqrtLE (centroidDist2 dm.dim x0 (dm.centroid st)) maxDist))

/-- `DMPlexGetNeighborCells_Internal(dm, p, maxDist, useVertices, &nCells, &cells)`: the array
`cells` (with `nCells` its length).  The candidates are stored in `PetscInt list[10000]`;
the result is `none` when more than 10000 candidates are appended, a write past the end of
`list` (undefined behaviour). -/
def DMPlexGetNeighborCells_Internal (dm : DM α) (p : Int) (maxDist : MaxDist α)
    (useVertices : Bool) : Option (List Int) :=
  let list := neighborCandidates dm p maxDist useVertices
  if list.length ≤ listCapacity then some (PetscSortRemoveDupsInt list) else none

/-- The `for (i = 0; i < n0; ++i)` loop of `DMPlexGetNeighborCells`: for each of the cells
`list[0..n0)` still to visit (`todo`), the neighbours found by the internal routine are copied
behind the current contents of `list`.  `none` when a copy would run past `list[10000)`. -/
def addNeighbors (dm : DM α) (maxDist : MaxDist α) (useVertices : Bool) :
    List Int → List Int → Option (List Int)
  | [], list => some list
  | c :: todo, list =>
    match DMPlexGetNeighborCells_Internal dm c maxDist useVertices with
    | none => none
    | some addList =>
      if list.length + addList.length ≤ listCapacity then
        addNeighbors dm maxDist useVertices todo (list ++ addList)
      else none

/-- The loop `while (l < levels && n < minNumberCells) { ++l; ... }` of
`DMPlexGetNeighborCells`; the first argument is `levels - l`. -/
def levelLoop (dm : DM α) (maxDist : MaxDist α) (useVertices : Bool) (minNumberCells : Int) :
    Nat → List Int → Option (List Int)
  | 0, list => some list
  | remaining + 1, list =>
    if (list.length : Int) < minNumberCells then
      match addNeighbors dm maxDist useVertices list list with
      | none => none
      | some list2 =>
        levelLoop dm maxDist useVertices minNumberCells remaining (PetscSortRemoveDupsInt list2)
    else some list

/-- The two output arguments `*nCells` and `*cells` of `DMPlexGetNeighborCells`. -/
structure NeighborCells where
  nCells : Int
  cells : List Int
deriving DecidableEq

/-- The value of `levels` after the block
`if (minNumberCells > 0) { levels = PETSC_MAX_INT; ... } else { ... }`. -/
def levelsUsed (levels minNumberCells : Int) : Int :=
  if minNumberCells > 0 then PETSC_MAX_INT else levels

/-- The value of `maxDist` after the block
`if (minNumberCells > 0) { ...; maxDist = PETSC_MAX_REAL; }
 else { ...; if (maxDist < 0.0) maxDist = PETSC_MAX_REAL; }`. -/
def maxDistUsed (maxDist : α) (minNumberCells : Int) : MaxDist α :=
  if minNumberCells > 0 then MaxDist.PETSC_MAX_REAL
  else if maxDist < 0 then MaxDist.PETSC_MAX_REAL else MaxDist.real maxDist

/-- The value of `minNumberCells` after the block
`if (minNumberCells > 0) { ... } else { minNumberCells = PETSC_MAX_INT; ... }`. -/
def minNumberCellsUsed (minNumberCells : Int) : Int :=
  if minNumberCells > 0 then minNumberCells else PETSC_MAX_INT

/-- `DMPlexGetNeighborCells(dm, p, levels, maxDist, minNumberCells, useVertices, &nCells,
&cells)`.  `out` holds the contents of `*nCells` and `*cells` before the call; the result is
their contents after it (the function itself always returns error code `0`), or `none` when a
scratch array is overrun. -/
def DMPlexGetNeighborCells (dm : DM α) (p : Int) (levels : Int) (maxDist : α)
    (minNumberCells : Int) (useVertices : Bool) (out : NeighborCells) : Option NeighborCells :=
  if levels > 0 ∨ minNumberCells > 0 then
    -- get one level of neighboring cells; l = 1
    match DMPlexGetNeighborCells_Internal dm p (maxDistUsed maxDist minNumberCells)
        useVertices with
    | none => none
    | some list =>
      match levelLoop dm (maxDistUsed maxDist minNumberCells) useVertices
          (minNumberCellsUsed minNumberCells)
          (levelsUsed levels minNumberCells - 1).toNat list with
      | none => none
      | some list2 => some { nCells := list2.length, cells := list2 }
  else some out

/-! ### Neighbour relation and neighbour levels, as the claims word them -/

/-- The stratum whose points make two cells neighbours: the vertices (`useVertices`), or the
edges in 2D / faces in 3D. -/
def sharedStratum (dm : DM α) (useVertices : Bool) : Int × Int :=
  if useVertices then dm.depthStratum 0 else dm.heightStratum 1

/-- Cell `d` is a neighbour of cell `c`: `d` is a cell of the mesh and some vertex
(`useVertices`) or edge/face of `c` is also one of `d`. -/
def IsNeighbor (dm : DM α) (useVertices : Bool) (c d : Int) : Prop :=
  ((dm.heightStratum 0).1 ≤ d ∧ d < (dm.heightStratum 0).2) ∧
    ∃ q, ((sharedStratum dm useVertices).1 ≤ q ∧ q < (sharedStratum dm useVertices).2) ∧
      q ∈ dm.closure c ∧ d ∈ dm.star q

/-- The set of neighbours of cell `c`. -/
def neighborSet (dm : DM α) (useVertices : Bool) (c : Int) : Finset Int :=
  (((dm.closure c).toFinset).filter (fun q =>
      (sharedStratum dm useVertices).1 ≤ q ∧ q < (sharedStratum dm useVertices).2)).biUnion
    (fun q => ((dm.star q).toFinset).filter (fun d =>
      (dm.heightStratum 0).1 ≤ d ∧ d < (dm.heightStratum 0).2))

/-- One more neighbour level: the cells of `S` together with all their neighbours. -/
def expandLevel (dm : DM α) (useVertices : Bool) (S : Finset Int) : Finset Int :=
  S ∪ S.biUnion (neighborSet dm useVertices)

/-- The cells of `l` neighbour levels around `p`: one level is the neighbours of `p`, each
further level adds the neighbours of the cells found so far. -/
def neighborLevels (dm : DM α) (useVertices : Bool) (p : Int) : Nat → Finset Int
  | 0 => ∅
  | 1 => neighborSet dm useVertices p
  | l + 2 => expandLevel dm useVertices (neighborLevels dm useVertices p (l + 1))

/-- Cell `c` is reached from `p` by exactly `n` hops in the neighbour relation. -/
inductive HopsFrom (dm : DM α) (useVertices : Bool) (p : Int) : Nat → Int → Prop where
  | zero : HopsFrom dm useVertices p 0 p
  | step {n : Nat} {c d : Int} :
      HopsFrom dm useVertices p n c → IsNeighbor dm useVertices c d →
        HopsFrom dm useVertices p (n + 1) d

/-- The `PetscErrorCode` returned by `DMPlexGetNeighborCells`: every path through the function
ends in `PetscFunctionReturn(0)` (the `CHKERRQ` exits are taken only when a PETSc call fails).
`none` when a scratch array is overrun. -/
def DMPlexGetNeighborCells_ierr (dm : DM α) (p : Int) (levels : Int) (maxDist : α)
    (minNumberCells : Int) (useVertices : Bool) (out : NeighborCells) : Option Int :=
  (DMPlexGetNeighborCells dm p levels maxDist minNumberCells useVertices out).map (fun _ => 0)

/-! ### Meshes used as concrete inputs -/

/-- The structured `nx` by `ny` quadrilateral box mesh of the unit tests (`meshFaces = {nx, ny}`
on the unit square, `meshSimplex = false`) as a DMPlex: cells `0 .. nx*ny-1` numbered row by
row, then the `(nx+1)*(ny+1)` vertices, then the edges (the horizontal ones first). -/
def quadMesh (nx ny : Nat) : DM ℚ :=
  let nC := nx * ny
  let nV := (nx + 1) * (ny + 1)
  let nH := nx * (ny + 1)
  let nE := nH + (nx + 1) * ny
  let vert := fun (a b : Nat) => ((nC + b * (nx + 1) + a : Nat) : Int)
  let hEdge := fun (i j : Nat) => ((nC + nV + j * nx + i : Nat) : Int)
  let vEdge := fun (i j : Nat) => ((nC + nV + nH + j * (nx + 1) + i : Nat) : Int)
  let cellsAt := fun (l : List (Int × Int)) =>
    (l.filter (fun ij =>
      decide (0 ≤ ij.1 ∧ ij.1 < (nx : Int) ∧ 0 ≤ ij.2 ∧ ij.2 < (ny : Int)))).map
      (fun ij => ij.2 * (nx : Int) + ij.1)
  { dim := 2
    heightStratum := fun h =>
      if h = 0 then (0, nC) else if h = 1 then (nC + nV, nC + nV + nE) else (nC, nC + nV)
    depthStratum := fun d =>
      if d = 0 then (nC, nC + nV) else if d = 1 then (nC + nV, nC + nV + nE) else (0, nC)
    closure := fun p =>
      if 0 ≤ p ∧ p < nC then
        let i := p.toNat % nx
        let j := p.toNat / nx
        [p, hEdge i j, vEdge (i + 1) j, hEdge i (j + 1), vEdge i j,
          vert i j, vert (i + 1) j, vert (i + 1) (j + 1), vert i (j + 1)]
      else [p]
    star := fun p =>
      if nC ≤ p ∧ p < nC + nV then
        let a : Int := (p.toNat - nC) % (nx + 1)
        let b : Int := (p.toNat - nC) / (nx + 1)
        p :: cellsAt [(a - 1, b - 1), (a, b - 1), (a - 1, b), (a, b)]
      else if nC + nV ≤ p ∧ p < nC + nV + nH then
        let i : Int := (p.toNat - nC - nV) % nx
        let j : Int := (p.toNat - nC - nV) / nx
        p :: cellsAt [(i, j - 1), (i, j)]
      else if nC + nV + nH ≤ p ∧ p < nC + nV + nE then
        let i : Int := (p.toNat - nC - nV - nH) % (nx + 1)
        let j : Int := (p.toNat - nC - nV - nH) / (nx + 1)
        p :: cellsAt [(i - 1, j), (i, j)]
      else [p]
    centroid := fun c i =>
      if i = 0 then (((c.toNat % nx : Nat) : ℚ) + 1 / 2) / nx
      else if i = 1 then (((c.toNat / nx : Nat) : ℚ) + 1 / 2) / ny else 0 }

/-- A fan of `n` triangles around a hub vertex (a triangulated disk) as a DMPlex: cells
`0 .. n-1`, the hub vertex `n`, the rim vertices `n+1 .. 2n`, the spokes `2n+1 .. 3n` and the rim
edges `3n+1 .. 4n`.  Triangle `c` has the vertices hub, rim `c`, rim `c+1 (mod n)`. -/
def fanMesh (n : Nat) : DM ℚ :=
  let hub : Int := n
  let rim := fun (i : Nat) => ((n + 1 + i % n : Nat) : Int)
  let spoke := fun (i : Nat) => ((2 * n + 1 + i % n : Nat) : Int)
  let rimEdge := fun (i : Nat) => ((3 * n + 1 + i % n : Nat) : Int)
  let cell := fun (i : Nat) => ((i % n : Nat) : Int)
  { dim := 2
    heightStratum := fun h =>
      if h = 0 then (0, n) else if h = 1 then (2 * n + 1, 4 * n + 1) else (n, 2 * n + 1)
    depthStratum := fun d =>
      if d = 0 then (n, 2 * n + 1) else if d = 1 then (2 * n + 1, 4 * n + 1) else (0, n)
    closure := fun p =>
      if 0 ≤ p ∧ p < n then
        [p, spoke p.toNat, rimEdge p.toNat, spoke (p.toNat + 1),
          hub, rim p.toNat, rim (p.toNat + 1)]
      else [p]
    star := fun p =>
      if p = hub then
        (hub :: (List.range n).map spoke) ++ (List.range n).map (fun (i : Nat) => (i : Int))
      else if n + 1 ≤ p ∧ p < 2 * n + 1 then
        let i := p.toNat - (n + 1)
        [p, spoke i, rimEdge i, rimEdge (i + n - 1), cell i, cell (i + n - 1)]
      else if 2 * n + 1 ≤ p ∧ p < 3 * n + 1 then
        let i := p.toNat - (2 * n + 1)
        [p, cell i, cell (i + n - 1)]
      else if 3 * n + 1 ≤ p ∧ p < 4 * n + 1 then
        let i := p.toNat - (3 * n + 1)
        [p, cell i]
      else [p]
    centroid := fun _ _ => 0 }

/-- A chain of `n` segments as a one-dimensional DMPlex: cells `0 .. n-1`, then the vertices
`n .. 2n`; segment `c` joins the vertices `n + c` and `n + c + 1` and has its centre at
`c + 1/2`. -/
def lineMesh (n : Nat) : DM ℚ :=
  { dim := 1
    heightStratum := fun h => if h = 0 then (0, n) else (n, 2 * n + 1)
    depthStratum := fun d => if d = 0 then (n, 2 * n + 1) else (0, n)
    closure := fun p => if 0 ≤ p ∧ p < n then [p, n + p, n + p + 1] else [p]
    star := fun p =>
      if n ≤ p ∧ p < 2 * n + 1 then
        p :: ([p - n - 1, p - n].filter (fun c => decide (0 ≤ c ∧ c < (n : Int))))
      else [p]
    centroid := fun c i => if i = 0 then ((c.toNat : Nat) : ℚ) + 1 / 2 else 0 }

end Neighbors

/-! ## Plane vectors -/

section PlaneVectors

variable {α : Type} [LinearOrderedField α]

/-- The compound assignment `a[i] += v` on a C array. -/
def arrayAdd (a : Nat → α) (i : Nat) (v : α) : Nat → α :=
  arraySet a i (a i + v)

/-- `DMPlaneVectors_2D_Internal(x0, n, offset, segment)`: the array `segment` after the call. -/
def DMPlaneVectors_2D_Internal (x0 n : Nat → α) (offset : α) (segment : Nat → α) : Nat → α :=
  -- Get the base crossing assuming that the plane passes through the origin
  let segment := arraySet (arraySet segment 1 0) 0 0
  let segment := arraySet segment 2 (-n 1)
  let segment := arraySet segment 3 (n 0)
  -- Now shift to the point-of-interest
  let segment := arrayAdd (arrayAdd segment 0 (x0 0)) 2 (x0 0)
  let segment := arrayAdd (arrayAdd segment 1 (x0 1)) 3 (x0 1)
  -- Additional offset in normal direction
  let off0 := offset * n 0
  let off1 := offset * n 1
  let segment := arrayAdd (arrayAdd segment 0 off0) 2 off0
  arrayAdd (arrayAdd segment 1 off1) 3 off1

/-- `DMPlaneVectors_3D_Internal(x0, n, offset, segmentA, segmentB)`: the arrays `segmentA` and
`segmentB` after the call.  The arguments `segmentA` and `segmentB` are their contents before
the call, which is what an entry holds that is read before anything is assigned to it. -/
def DMPlaneVectors_3D_Internal (x0 n : Nat → α) (offset : α) (segmentA segmentB : Nat → α) :
    (Nat → α) × (Nat → α) :=
  -- segmentA[0] = segmentA[1] = segmentA[2] = 0.0;
  let segmentA := arraySet (arraySet (arraySet segmentA 2 0) 1 0) 0 0
  let segmentA :=
    if |n 2| < |n 0| ∨ |n 2| < |n 1| then
      arraySet (arraySet (arraySet segmentA 3 (-n 1)) 4 (n 0)) 5 0
    else if |n 1| < |n 0| ∨ |n 1| < |n 2| then
      arraySet (arraySet (arraySet segmentA 3 (-n 2)) 4 0) 5 (n 0)
    else
      arraySet (arraySet (arraySet segmentA 3 0) 4 (-n 2)) 5 (n 1)
  -- The other segment will be the cross product of segmentA and the normal
  let segmentB := arraySet segmentB 0 (n 1 * segmentA 2 - n 2 * segmentA 1)
  let segmentB := arraySet segmentB 1 (n 2 * segmentA 0 - n 0 * segmentA 2)
  let segmentB := arraySet segmentB 2 (n 0 * segmentA 1 - n 1 * segmentA 0)
  -- Now shift to the point-of-interest
  let segmentA := arrayAdd (arrayAdd segmentA 0 (x0 0)) 3 (x0 0)
  let segmentA := arrayAdd (arrayAdd segmentA 1 (x0 1)) 4 (x0 1)
  let segmentA := arrayAdd (arrayAdd segmentA 2 (x0 2)) 5 (x0 2)
  let segmentB := arrayAdd (arrayAdd segmentB 0 (x0 0)) 3 (x0 0)
  let segmentB := arrayAdd (arrayAdd segmentB 1 (x0 1)) 4 (x0 1)
  let segmentB := arrayAdd (arrayAdd segmentB 2 (x0 2)) 5 (x0 2)
  -- Additional offset in normal direction
  let off0 := offset * n 0
  let off1 := offset * n 1
  let off2 := offset * n 2
  let segmentA := arrayAdd (arrayAdd segmentA 0 off0) 3 off0
  let segmentA := arrayAdd (arrayAdd segmentA 1 off1) 4 off1
  let segmentA := arrayAdd (arrayAdd segmentA 2 off2) 5 off2
  let segmentB := arrayAdd (arrayAdd segmentB 0 off0) 3 off0
  let segmentB := arrayAdd (arrayAdd segmentB 1 off1) 4 off1
  let segmentB := arrayAdd (arrayAdd segmentB 2 off2) 5 off2
  (segmentA, segmentB)

/-- The outputs of `DMPlaneVectors`: the returned error code and the two arrays. -/
structure PlaneVectors (α : Type) where
  err : Int
  segmentA : Nat → α
  segmentB : Nat → α

/-- `DMPlaneVectors(dm, x0, n, offset, segmentA, segmentB)`. -/
def DMPlaneVectors (dm : DM α) (x0 n : Nat → α) (offset : α) (segmentA segmentB : Nat → α) :
    PlaneVectors α :=
  if dm.dim = 1 then
    -- segmentA[0] = segmentB[0] = 0.0;
    { err := 0, segmentA := arraySet segmentA 0 0, segmentB := arraySet segmentB 0 0 }
  else if dm.dim = 2 then
    { err := 0
      segmentA := DMPlaneVectors_2D_Internal x0 n offset segmentA
      -- segmentB[0] = segmentB[1] = 0.0;
      segmentB := arraySet (arraySet segmentB 1 0) 0 0 }
  else
    { err := 0
      segmentA := (DMPlaneVectors_3D_Internal x0 n offset segmentA segmentB).1
      segmentB := (DMPlaneVectors_3D_Internal x0 n offset segmentA segmentB).2 }

/-- A mesh whose only relevant property is that it is three-dimensional. -/
def boxMesh3D : DM ℚ :=
  { quadMesh 1 1 with dim := 3 }

end PlaneVectors

/-! ## Radial basis functions -/

section RBFDefs

variable {α : Type} [LinearOrderedField α]

/-- How a routine of `RBF` can fail: by `throw std::invalid_argument(...)`, or by undefined
behaviour (a write past the end of an array, a `PetscInt` overflow, a null pointer). -/
inductive RBFError where
  | invalid_argument : RBFError
  | undefined : RBFError
deriving DecidableEq

/-- Write `v` at index `i` of a C array indexed by a `PetscInt`. -/
def setI {β : Type} (a : Int → β) (i : Int) (v : β) : Int → β :=
  fun j => if j = i then v else a j

/-- Execute a sequence of array writes `a[index] = value`, given in program order. -/
def applyWrites {β : Type} (ws : List (Int × β)) (a : Int → β) : Int → β :=
  ws.foldl (fun a w => setI a w.1 w.2) a

/-- The values `0, 1, .., n-1` of a loop variable `for (i = 0; i < n; ++i)`. -/
def loopRange (n : Int) : List Int :=
  (List.range n.toNat).map (fun (i : Nat) => (i : Int))

/-- A running index: `j = start;` before a loop nest and `j++` at the end of every innermost
iteration.  Each iteration is paired with the value `j` has during it. -/
def withCounter {β : Type} (start : Int) : List β → List (Int × β)
  | [] => []
  | e :: l => (start, e) :: withCounter (start + 1) l

/-- A value of type `PetscInt` (32-bit indices): `none` when `x` is not representable, the
result of a signed overflow. -/
def petscInt (x : Int) : Option Int :=
  if -PETSC_MAX_INT - 1 ≤ x ∧ x ≤ PETSC_MAX_INT then some x else none

/-- `nPoly` as set by the constructor `RBF::RBF`:
`if (dim == 2) nPoly = (p+2)*(p+1)/2; else nPoly = (p+3)*(p+2)*(p+1)/6;` in `PetscInt`
arithmetic (`/` truncates). -/
def RBF_nPoly (dim p : Int) : Option Int :=
  if dim = 2 then
    (petscInt (p + 2)).bind fun a =>
    (petscInt (p + 1)).bind fun b =>
    (petscInt (a * b)).map fun ab => Int.tdiv ab 2
  else
    (petscInt (p + 3)).bind fun a =>
    (petscInt (p + 2)).bind fun b =>
    (petscInt (a * b)).bind fun ab =>
    (petscInt (p + 1)).bind fun c =>
    (petscInt (ab * c)).map fun abc => Int.tdiv abc 6

/-- `minNumberCells = (PetscInt)(1.75*nPoly)`: the product is exact, the cast truncates. -/
def RBF_minNumberCells (nPoly : Int) : Option Int :=
  petscInt (Int.tdiv (7 * nPoly) 4)

/-- The members of `RBF` together with the two virtual kernel functions `RBFVal(x, y)` and
`RBFDer(x, dx, dy, dz)` of the derived class.  A point `&x[i*dim]` is passed as the array of its
coordinates. -/
structure RBF (α : Type) where
  dim : Int
  p : Int
  nPoly : Int
  dm : DM α
  minNumberCells : Int
  useVertices : Bool
  hasDerivativeInformation : Bool
  nDer : Int
  dxyz : Int → Int
  nStencil : Int → Int
  stencilList : Int → List Int
  stencilWeights : Int → Int → α
  RBFVal : (Int → α) → (Int → α) → α
  RBFDer : (Int → α) → Int → Int → Int → α

/-- The constructor `RBF::RBF(dm, p)`.  `none` when the computation of `nPoly` or of
`minNumberCells` overflows.  The pointer members start as `nullptr`, recorded by
`hasDerivativeInformation = PETSC_FALSE`. -/
def RBF.ctor (dm : DM α) (p : Int) (RBFVal : (Int → α) → (Int → α) → α)
    (RBFDer : (Int → α) → Int → Int → Int → α) : Option (RBF α) :=
  (RBF_nPoly (dm.dim : Int) p).bind fun nPoly =>
  (RBF_minNumberCells nPoly).map fun minNumberCells =>
    { dim := (dm.dim : Int)
      p := p
      nPoly := nPoly
      dm := dm
      minNumberCells := minNumberCells
      useVertices := true
      hasDerivativeInformation := false
      nDer := 0
      dxyz := fun _ => 0
      nStencil := fun _ => 0
      stencilList := fun _ => []
      stencilWeights := fun _ _ => 0
      RBFVal := RBFVal
      RBFDer := RBFDer }

/-- The exponent pairs `(px, py)` in the order in which
`for (py = 0; py < p1; ++py) for (px = 0; px < p1-py; ++px)` visits them. -/
def polyExponents2D (p1 : Int) : List (Int × Int) :=
  (loopRange p1).flatMap fun py =>
    (loopRange (p1 - py)).map fun px => (px, py)

/-- The exponent triples `(px, py, pz)` in the order in which
`for (pz = 0; pz < p1; ++pz) for (py = 0; py < p1-pz; ++py) for (px = 0; px < p1-py-pz; ++px)`
visits them. -/
def polyExponents3D (p1 : Int) : List (Int × Int × Int) :=
  (loopRange p1).flatMap fun pz =>
    (loopRange (p1 - pz)).flatMap fun py =>
      (loopRange (p1 - py - pz)).map fun px => (px, py, pz)


/-- Contents of the memory that the routines read without having written it themselves: the
stack arrays `x[nCells*dim]` of `Weights` and `xp[nCells*dim*p1]` of `Matrix` on entry, the
memory around the table `fac[11]`, and the block allocated for the weights. -/
structure Unwritten (α : Type) where
  x : Int → α
  xp : Int → α
  fac : Int → Int
  wt : Int → α

/-- The table `static PetscInt fac[11] = {1,1,2,6,24,120,720,5040,40320,362880,3628800}`; an
index outside `0..10` reads the memory around the table. -/
def fac (mem : Int → Int) (n : Int) : Int :=
  if 0 ≤ n ∧ n ≤ 10 then
    [1, 1, 2, 6, 24, 120, 720, 5040, 40320, 362880, 3628800].getD n.toNat 0
  else mem n

/-- A dense PETSc matrix: its sizes and the array obtained from `MatDenseGetArrayWrite`. -/
structure Mat (α : Type) where
  rows : Int
  cols : Int
  vals : Int → α

/-- The two outputs of `RBF::Matrix`: the shifted centres `x` and the matrix `*LUA`.  The
factorisation `MatLUFactor` is PETSc's; `A` is the matrix as assembled, on which it operates. -/
structure MatrixResult (α : Type) where
  x : Int → α
  A : Mat α

/-- The body of the loop `for (d = 0; d < dim; ++d)` in the first loop nest of `RBF::Matrix`:
`x[i*dim+d] -= x0[d]`, then the powers `xp[(i*dim+d)*p1 + px]` for `px = 0 .. p`.  The state is
the pair of arrays `(x, xp)`. -/
def Matrix_powers_coord (self : RBF α) (x0 : Nat → α) (i : Int)
    (st : (Int → α) × (Int → α)) (d : Int) : (Int → α) × (Int → α) :=
  let dim := self.dim
  let p1 := self.p + 1
  let x2 := setI st.1 (i*dim + d) (st.1 (i*dim + d) - x0 d.toNat)
  let xp1 := setI st.2 ((i*dim + d)*p1 + 0) 1
  -- for (px = 1; px < p+1; ++px), with px = k + 1
  let xp2 := (loopRange self.p).foldl (fun xp k =>
    setI xp ((i*dim + d)*p1 + (k + 1)) (xp ((i*dim + d)*p1 + ((k + 1) - 1)) * x2 (i*dim + d)))
    xp1
  (x2, xp2)

/-- The body of the loop `for (i = 0; i < nCells; ++i)` in the first loop nest of `RBF::Matrix`:
`DMPlexComputeCellGeometryFVM(dm, list[i], NULL, &x[i*dim], NULL)`, then the loop over `d`. -/
def Matrix_powers_cell (self : RBF α) (c : Int) (list : Int → Int)
    (st : (Int → α) × (Int → α)) (i : Int) : (Int → α) × (Int → α) :=
  let dim := self.dim
  let x1 := (loopRange dim).foldl (fun x d =>
    setI x (i*dim + d) (self.dm.centroid (list i) d.toNat)) st.1
  (loopRange dim).foldl (Matrix_powers_coord self (self.dm.centroid c) i) (x1, st.2)

/-- The first loop nest of `RBF::Matrix` ("Shifted cell-centers of neighbor cells"): the arrays
`x` and `xp` after it. -/
def Matrix_powers (self : RBF α) (c nCells : Int) (list : Int → Int) (x xp : Int → α) :
    (Int → α) × (Int → α) :=
  (loopRange nCells).foldl (Matrix_powers_cell self c list) (x, xp)

/-- The indices of `xp` written by the first loop nest of `RBF::Matrix`. -/
def Matrix_xpIndices (self : RBF α) (nCells : Int) : List Int :=
  let dim := self.dim
  let p1 := self.p + 1
  (loopRange nCells).flatMap fun i =>
    (loopRange dim).flatMap fun d =>
      ((i*dim + d)*p1 + 0) :: (loopRange self.p).map fun k => (i*dim + d)*p1 + (k + 1)

/-- The writes `vals[i*matSize + j] = vals[j*matSize + i] = RBFVal(&x[i*dim], &x[j*dim])` of the
loop nest `for (i = 0; i < nCells; ++i) for (j = i; j < nCells; ++j)`. -/
def Matrix_rbfWrites (self : RBF α) (nCells matSize : Int) (x : Int → α) : List (Int × α) :=
  let dim := self.dim
  (loopRange nCells).flatMap fun i =>
    (loopRange (nCells - i)).flatMap fun k =>
      let j := i + k
      let v := self.RBFVal (fun d => x (i*dim + d)) (fun d => x (j*dim + d))
      [(j*matSize + i, v), (i*matSize + j, v)]

/-- The writes of the "Augmented polynomial contributions" of `RBF::Matrix` for `dim == 2`. -/
def Matrix_polyWrites2D (self : RBF α) (nCells matSize : Int) (xp : Int → α) :
    List (Int × α) :=
  let dim := self.dim
  let p1 := self.p + 1
  (loopRange nCells).flatMap fun i =>
    (withCounter nCells (polyExponents2D p1)).flatMap fun je =>
      let j := je.1
      let px := je.2.1
      let py := je.2.2
      let v := xp ((i*dim + 0)*p1 + px) * xp ((i*dim + 1)*p1 + py)
      [(j*matSize + i, v), (i*matSize + j, v)]

/-- The writes of the "Augmented polynomial contributions" of `RBF::Matrix` for `dim != 2`. -/
def Matrix_polyWrites3D (self : RBF α) (nCells matSize : Int) (xp : Int → α) :
    List (Int × α) :=
  let dim := self.dim
  let p1 := self.p + 1
  (loopRange nCells).flatMap fun i =>
    (withCounter nCells (polyExponents3D p1)).flatMap fun je =>
      let j := je.1
      let px := je.2.1
      let py := je.2.2.1
      let pz := je.2.2.2
      let v := xp ((i*dim + 0)*p1 + px) * xp ((i*dim + 1)*p1 + py) * xp ((i*dim + 2)*p1 + pz)
      [(j*matSize + i, v), (i*matSize + j, v)]

/-- All writes of `RBF::Matrix` into the array of the `matSize` by `matSize` matrix `A`. -/
def Matrix_writes (self : RBF α) (nCells matSize : Int) (x xp : Int → α) : List (Int × α) :=
  Matrix_rbfWrites self nCells matSize x ++
    (if self.dim = 2 then Matrix_polyWrites2D self nCells matSize xp
     else Matrix_polyWrites3D self nCells matSize xp)

/-- `RBF::Matrix(c, nCells, list, x, LUA)`.  `x` and `xp` are the contents of the arrays `x` and
`xp` on entry.  The result is `undefined` when a write falls outside `xp[nCells*dim*p1]` or
outside the `matSize*matSize` entries of the matrix. -/
def RBF.Matrix (self : RBF α) (c nCells : Int) (list : Int → Int) (x xp : Int → α) :
    Except RBFError (MatrixResult α) :=
  let dim := self.dim
  let p1 := self.p + 1
  let nPoly := self.nPoly
  if nPoly ≥ nCells then Except.error RBFError.invalid_argument
  else
    let pw := Matrix_powers self c nCells list x xp
    let matSize := nCells + nPoly
    let ws := Matrix_writes self nCells matSize pw.1 pw.2
    if (∀ idx ∈ Matrix_xpIndices self nCells, 0 ≤ idx ∧ idx < nCells*dim*p1) ∧
        (∀ w ∈ ws, 0 ≤ w.1 ∧ w.1 < matSize*matSize) then
      Except.ok
        { x := pw.1
          A := { rows := matSize, cols := matSize, vals := applyWrites ws (fun _ => 0) } }
    else Except.error RBFError.undefined

/-- The writes of `RBF::Weights` into the array of the right-hand side `B` (`matSize` rows,
`nDer` columns, stored by columns): the derivatives of the RBF, then the derivatives of the
augmented polynomials. -/
def Weights_rhsWrites (self : RBF α) (facMem : Int → Int) (nCells matSize nDer : Int)
    (dxyz : Int → Int) (x : Int → α) : List (Int × α) :=
  let dim := self.dim
  let p1 := self.p + 1
  ((loopRange nCells).flatMap fun i =>
    (loopRange nDer).map fun j =>
      (i + j*matSize,
        self.RBFDer (fun d => x (i*dim + d)) (dxyz (j*3 + 0)) (dxyz (j*3 + 1)) (dxyz (j*3 + 2)))) ++
  (if dim = 2 then
    (loopRange nDer).flatMap fun j =>
      ((withCounter nCells (polyExponents2D p1)).filter fun ie =>
          decide (dxyz (j*3 + 0) = ie.2.1 ∧ dxyz (j*3 + 1) = ie.2.2)).map fun ie =>
        (ie.1 + j*matSize, ((fac facMem ie.2.1 * fac facMem ie.2.2 : Int) : α))
  else
    (loopRange nDer).flatMap fun j =>
      ((withCounter nCells (polyExponents3D p1)).filter fun ie =>
          decide (dxyz (j*3 + 0) = ie.2.1 ∧ dxyz (j*3 + 1) = ie.2.2.1 ∧
            dxyz (j*3 + 2) = ie.2.2.2)).map fun ie =>
        (ie.1 + j*matSize,
          ((fac facMem ie.2.1 * fac facMem ie.2.2.1 * fac facMem ie.2.2.2 : Int) : α)))

/-- The products `fac[px]*fac[py]` and `fac[px]*fac[py]*fac[pz]` that `RBF::Weights` forms, every
intermediate product included; they are computed in `PetscInt` arithmetic. -/
def Weights_facProducts (self : RBF α) (facMem : Int → Int) (nCells nDer : Int)
    (dxyz : Int → Int) : List Int :=
  let dim := self.dim
  let p1 := self.p + 1
  if dim = 2 then
    (loopRange nDer).flatMap fun j =>
      ((withCounter nCells (polyExponents2D p1)).filter fun ie =>
          decide (dxyz (j*3 + 0) = ie.2.1 ∧ dxyz (j*3 + 1) = ie.2.2)).map fun ie =>
        fac facMem ie.2.1 * fac facMem ie.2.2
  else
    (loopRange nDer).flatMap fun j =>
      ((withCounter nCells (polyExponents3D p1)).filter fun ie =>
          decide (dxyz (j*3 + 0) = ie.2.1 ∧ dxyz (j*3 + 1) = ie.2.2.1 ∧
            dxyz (j*3 + 2) = ie.2.2.2)).flatMap fun ie =>
        [fac facMem ie.2.1 * fac facMem ie.2.2.1,
          fac facMem ie.2.1 * fac facMem ie.2.2.1 * fac facMem ie.2.2.2]

/-- The first half of `RBF::Weights`: the matrix from `RBF::Matrix` and the right-hand side `B`
as they are handed to `MatMatSolve`.  The result is `undefined` when a write falls outside the
`matSize*nDer` entries of `B` or a product of factorials overflows. -/
def RBF.Weights_rhs (self : RBF α) (mem : Unwritten α) (c nCells : Int) (list : Int → Int)
    (nDer : Int) (dxyz : Int → Int) : Except RBFError (MatrixResult α × Mat α) :=
  match self.Matrix c nCells list mem.x mem.xp with
  | Except.error e => Except.error e
  | Except.ok m =>
    let matSize := m.A.rows
    let ws := Weights_rhsWrites self mem.fac nCells matSize nDer dxyz m.x
    if (∀ w ∈ ws, 0 ≤ w.1 ∧ w.1 < matSize*nDer) ∧
        (∀ v ∈ Weights_facProducts self mem.fac nCells nDer dxyz, petscInt v = some v) then
      Except.ok (m, { rows := matSize, cols := nDer, vals := applyWrites ws (fun _ => 0) })
    else Except.error RBFError.undefined

/-- The monomials of total degree at most `p` in `dim` variables, each given by its exponents. -/
def monomialsUpTo (dim p : Nat) : Finset (Fin dim → Fin (p + 1)) :=
  Finset.univ.filter (fun e => ∑ i, (e i : Nat) ≤ p)

/-- An object whose `nPoly` is the number of iterations of its polynomial loops, which is what
the constructor establishes for `p >= 0`. -/
def RBF.Consistent (self : RBF α) : Prop :=
  0 ≤ self.p ∧ 0 ≤ self.dim ∧
    (self.dim = 2 → self.nPoly = ((polyExponents2D (self.p + 1)).length : Int)) ∧
    (self.dim ≠ 2 → self.nPoly = ((polyExponents3D (self.p + 1)).length : Int))

/-- The entries of `xp` that belong to the coordinates `x[b]` with `S b` hold the powers of
these coordinates: `xp[b*p1 + px] = x[b]^px` for `px = 0 .. p`. -/
def PowersStored (self : RBF α) (S : Int → Prop) (st : (Int → α) × (Int → α)) : Prop :=
  ∀ b, S b → ∀ px : Nat, (px : Int) ≤ self.p → st.2 (b * (self.p + 1) + px) = st.1 b ^ px

end RBFDefs

/-! ## Radial basis kernels -/

section Kernels

variable {α : Type} [LinearOrderedField α]

/-- `RBF::DistanceSquared(x)`, the squared distance between a point and the origin:
`for (d = 0; d < dim; ++d) r += x[d] * x[d];`. -/
def DistanceSquared (dim : Int) (x : Int → α) : α :=
  (loopRange dim).foldl (fun r d => r + x d * x d) 0

/-- `MQ::InternalDer(x, dx, dy, dz)` of the multiquadric kernel; `none` is the `default` branch,
which throws.  `sqrt` is `PetscSqrtReal` and `pow` is `PetscPowReal`. -/
def MQ_InternalDer (sqrt : α → α) (pow : α → α → α) (dim : Int) (scale : α) (x : Int → α)
    (dx dy dz : Int) : Option α :=
  let h := scale
  let e := 1 / h
  let r := DistanceSquared dim x
  let r := sqrt (1 + e*e*r)
  let key := dx + 10*dy + 100*dz
  if key = 0 then some r
  else if key = 1 then some (-e*e*x 0 / r)
  else if key = 2 then some (e*e*(1 + e*e*(x 1 * x 1 + x 2 * x 2)) / pow r 3)
  else if key = 10 then some (-e*e*x 1 / r)
  else if key = 20 then some (e*e*(1 + e*e*(x 0 * x 0 + x 2 * x 2)) / pow r 3)
  else if key = 100 then some (-e*e*x 2 / r)
  else if key = 200 then some (e*e*(1 + e*e*(x 0 * x 0 + x 1 * x 1)) / pow r 3)
  else if key = 11 then some (-((e*e)*(e*e))*x 0 * x 1 / pow r 3)
  else if key = 101 then some (-((e*e)*(e*e))*x 0 * x 2 / pow r 3)
  else if key = 110 then some (-((e*e)*(e*e))*x 1 * x 2 / pow r 3)
  else none

/-- `IMQ::InternalDer(x, dx, dy, dz)` of the inverse multiquadric kernel; `none` is the
`default` branch. -/
def IMQ_InternalDer (sqrt : α → α) (pow : α → α → α) (dim : Int) (scale : α) (x : Int → α)
    (dx dy dz : Int) : Option α :=
  let h := scale
  let e := 1 / h
  let r := DistanceSquared dim x
  let r := sqrt (1 + e*e*r)
  let key := dx + 10*dy + 100*dz
  if key = 0 then some (1 / r)
  else if key = 1 then some (-e*e*x 0 / pow r 3)
  else if key = 2 then
    some (-e*e*(1 + e*e*(-2 * x 0 * x 0 + x 1 * x 1 + x 2 * x 2)) / pow r 5)
  else if key = 10 then some (-e*e*x 1 / pow r 3)
  else if key = 20 then
    some (-e*e*(1 + e*e*(x 0 * x 0 - 2 * x 1 * x 1 + x 2 * x 2)) / pow r 5)
  else if key = 100 then some (-e*e*x 2 / pow r 3)
  else if key = 200 then
    some (-e*e*(1 + e*e*(x 0 * x 0 + x 1 * x 1 - 2 * x 2 * x 2)) / pow r 5)
  else if key = 11 then some (3 * ((e*e)*(e*e)) * x 0 * x 1 / pow r 5)
  else if key = 101 then some (3 * ((e*e)*(e*e)) * x 0 * x 2 / pow r 5)
  else if key = 110 then some (3 * ((e*e)*(e*e)) * x 1 * x 2 / pow r 5)
  else none

/-- `GA::InternalDer(x, dx, dy, dz)` of the Gaussian kernel; `none` is the `default` branch.
`exp` is `PetscExpReal`. -/
def GA_InternalDer (exp : α → α) (dim : Int) (scale : α) (x : Int → α) (dx dy dz : Int) :
    Option α :=
  let h := scale
  let e2 := 1 / (h*h)
  let r := DistanceSquared dim x
  let r := exp (-r*e2)
  let key := dx + 10*dy + 100*dz
  if key = 0 then some r
  else if key = 1 then some (r * (-2 * e2 * x 0))
  else if key = 2 then some (r * (2 * e2 * (2 * e2 * x 0 * x 0 - 1)))
  else if key = 10 then some (r * (-2 * e2 * x 1))
  else if key = 20 then some (r * (2 * e2 * (2 * e2 * x 1 * x 1 - 1)))
  else if key = 100 then some (r * (-2 * e2 * x 2))
  else if key = 200 then some (r * (2 * e2 * (2 * e2 * x 2 * x 2 - 1)))
  else if key = 11 then some (r * (4 * e2 * e2 * x 0 * x 1))
  else if key = 101 then some (r * (4 * e2 * e2 * x 0 * x 2))
  else if key = 110 then some (r * (4 * e2 * e2 * x 1 * x 2))
  else if key = 111 then some (r * (8 * e2 * e2 * e2 * x 1 * x 2))
  else none

end Kernels

/-! ## Intensity integrator -/

section Integrator

variable {α : Type} [LinearOrderedField α]

/-- `struct Carrier { PetscReal Ij = 0; PetscReal Krad = 1; }`: black body source and absorption
of one segment. -/
structure Carrier (α : Type) where
  Ij : α
  Krad : α

/-- One entry of the ordered chain of a ray: the `Carrier` of a segment together with the path
length `h` of its `Segment`. -/
structure ChainLink (α : Type) where
  carrier : Carrier α
  h : α

/-- Modelled from the spec: the transport step over one segment,
`I_i = I_{i+1} * exp(-Krad_i * h_i) + Ij_i * (1 - exp(-Krad_i * h_i))`.  The body of
`Radiation::EvaluateGains` is not among the sources (only its declaration is); `exp` is the
exponential function of the arithmetic in use. -/
def segmentStep (exp : α → α) (s : ChainLink α) (I : α) : α :=
  I * exp (-(s.carrier.Krad * s.h)) + s.carrier.Ij * (1 - exp (-(s.carrier.Krad * s.h)))

/-- Modelled from the spec: the intensity integrator for one ray.  The chain is ordered with
index 0 nearest the origin; starting from the boundary intensity the recurrence is applied from
the farthest segment inward, and the value of `I_0` is returned. -/
def integrateRay (exp : α → α) (chain : List (ChainLink α)) (boundary : α) : α :=
  chain.foldr (segmentStep exp) boundary

end Integrator

/-! ## Theorems -/

section RadiationTheorems

variable {α : Type} [LinearOrderedField α]

theorem satBound_pos : (0 : α) < satBound := by
  unfold satBound; positivity

/-- Away from the two boundary values the accessor is the saturation clamp: pass-through strictly
inside `(-1e10, 1e10)`, `1e10` strictly above, `-1e10` strictly below. -/
theorem GetIntensity_off_boundary (self : Radiation α) (iCell : Int) :
    (abs (self.origin iCell).net < 10 ^ 10 →
      (GetIntensity self iCell).1 = (self.origin iCell).net) ∧
    ((self.origin iCell).net > 10 ^ 10 → (GetIntensity self iCell).1 = 10 ^ 10) ∧
    ((self.origin iCell).net < -10 ^ 10 → (GetIntensity self iCell).1 = -10 ^ 10) := by
  have hp : (0 : α) < 10 ^ 10 := by positivity
  refine ⟨fun h => ?_, fun h => ?_, fun h => ?_⟩
  · simp [GetIntensity, satBound, h]
  · have h1 : ¬ abs (self.origin iCell).net < 10 ^ 10 := by
      rw [not_lt]; exact le_trans h.le (le_abs_self _)
    simp [GetIntensity, satBound, h1, h]
  · have h1 : ¬ abs (self.origin iCell).net < 10 ^ 10 := by
      rw [not_lt]
      have := neg_le_abs (self.origin iCell).net
      linarith
    have h2 : ¬ (self.origin iCell).net > 10 ^ 10 := by
      rw [gt_iff_lt, not_lt]; linarith
    simp [GetIntensity, satBound, h1, h2, h]

/-- C1 (evaluation at the boundary): a stored net intensity of exactly `1e10`, and one of exactly
`-1e10`, is not passed through by `GetIntensity`: none of the three guarded branches is taken and
the accessor returns `0`, which differs from the stored value. -/
theorem GetIntensity_boundary_returns_zero :
    (GetIntensity (⟨fun _ => ⟨(10 : ℚ) ^ 10⟩⟩ : Radiation ℚ) 0).1 = 0 ∧
    (GetIntensity (⟨fun _ => ⟨-(10 : ℚ) ^ 10⟩⟩ : Radiation ℚ) 0).1 = 0 ∧
    (GetIntensity (⟨fun _ => ⟨(10 : ℚ) ^ 10⟩⟩ : Radiation ℚ) 0).1 ≠ 10 ^ 10 ∧
    (GetIntensity (⟨fun _ => ⟨-(10 : ℚ) ^ 10⟩⟩ : Radiation ℚ) 0).1 ≠ -10 ^ 10 := by
  refine ⟨?_, ?_, ?_, ?_⟩ <;> norm_num [GetIntensity, satBound]

/-- C2: whatever net intensity is stored, the value returned by `GetIntensity` has magnitude at
most `1e10`, and the call leaves the object (in particular `origin[iCell].net`) unchanged. -/
theorem GetIntensity_bounded_and_pure (self : Radiation α) (iCell : Int) :
    abs (GetIntensity self iCell).1 ≤ (10 : α) ^ 10 ∧
    (GetIntensity self iCell).2 = self ∧
    ((GetIntensity self iCell).2.origin iCell).net = (self.origin iCell).net := by
  have hp : (0 : α) < satBound := satBound_pos
  have hs : (satBound : α) = 10 ^ 10 := rfl
  unfold GetIntensity
  split_ifs with h1 h2 h3
  · exact ⟨by rw [← hs]; exact h1.le, rfl, rfl⟩
  · exact ⟨by rw [← hs, abs_of_pos hp], rfl, rfl⟩
  · exact ⟨by rw [← hs, abs_neg, abs_of_pos hp], rfl, rfl⟩
  · exact ⟨by rw [← hs, abs_zero]; exact hp.le, rfl, rfl⟩

end RadiationTheorems

section GeometryTheorems

variable {α : Type} [LinearOrderedField α]

theorem line2D_parallel (segmentA segmentB : Nat → α) (intersection : Option (Nat → α))
    (h : lineDenom segmentA segmentB = 0) :
    DMPlexGetLineIntersection_2D_Internal segmentA segmentB intersection =
      { ierr := 0, intersection := intersection, hasIntersection := false } := by
  simp [DMPlexGetLineIntersection_2D_Internal, h]

theorem line2D_hasIntersection_iff (segmentA segmentB : Nat → α)
    (intersection : Option (Nat → α)) :
    (DMPlexGetLineIntersection_2D_Internal segmentA segmentB intersection).hasIntersection = true ↔
      lineDenom segmentA segmentB ≠ 0 ∧
        0 ≤ lineS segmentA segmentB ∧ lineS segmentA segmentB ≤ 1 ∧
        0 ≤ lineT segmentA segmentB ∧ lineT segmentA segmentB ≤ 1 := by
  unfold DMPlexGetLineIntersection_2D_Internal
  by_cases hd : lineDenom segmentA segmentB = 0
  · simp [hd]
  · by_cases hc : lineS segmentA segmentB ≥ 0 ∧ lineS segmentA segmentB ≤ 1 ∧
        lineT segmentA segmentB ≥ 0 ∧ lineT segmentA segmentB ≤ 1
    · simp [hd, hc]
    · have hc2 := hc
      simp only [ge_iff_le] at hc2
      simp [hd, hc, hc2]

theorem lineDenom_eq (A B : Nat → α) :
    lineDenom A B = -(B 2 - B 0) * (A 3 - A 1) + (A 2 - A 0) * (B 3 - B 1) := by
  simp [lineDenom]

theorem lineT_mul_denom (A B : Nat → α) (hd : lineDenom A B ≠ 0) :
    lineT A B * lineDenom A B = (B 2 - B 0) * (A 1 - B 1) - (B 3 - B 1) * (A 0 - B 0) := by
  have h : lineT A B = ((B 2 - B 0) * (A 1 - B 1) - (B 3 - B 1) * (A 0 - B 0)) / lineDenom A B := by
    simp [lineT]
  rw [h, div_mul_cancel₀ _ hd]

theorem lineS_mul_denom (A B : Nat → α) (hd : lineDenom A B ≠ 0) :
    lineS A B * lineDenom A B = -(A 3 - A 1) * (A 0 - B 0) + (A 2 - A 0) * (A 1 - B 1) := by
  have h : lineS A B = (-(A 3 - A 1) * (A 0 - B 0) + (A 2 - A 0) * (A 1 - B 1)) / lineDenom A B := by
    simp [lineS]
  rw [h, div_mul_cancel₀ _ hd]

/-- With a non-zero determinant the code's `t` and `s` solve `p0 + t s1 = p2 + s s2`. -/
theorem line2D_params_solve (A B : Nat → α) (hd : lineDenom A B ≠ 0) :
    A 0 + lineT A B * (A 2 - A 0) = B 0 + lineS A B * (B 2 - B 0) ∧
    A 1 + lineT A B * (A 3 - A 1) = B 1 + lineS A B * (B 3 - B 1) := by
  have hT := lineT_mul_denom A B hd
  have hS := lineS_mul_denom A B hd
  have hD := lineDenom_eq A B
  constructor
  · apply mul_right_cancel₀ hd
    linear_combination (A 2 - A 0) * hT - (B 2 - B 0) * hS + (A 0 - B 0) * hD
  · apply mul_right_cancel₀ hd
    linear_combination (A 3 - A 1) * hT - (B 3 - B 1) * hS + (A 1 - B 1) * hD

/-- With a non-zero determinant the solution of `p0 + t s1 = p2 + s s2` is unique. -/
theorem line2D_params_unique (A B : Nat → α) (hd : lineDenom A B ≠ 0) (t s : α)
    (hx : A 0 + t * (A 2 - A 0) = B 0 + s * (B 2 - B 0))
    (hy : A 1 + t * (A 3 - A 1) = B 1 + s * (B 3 - B 1)) :
    t = lineT A B ∧ s = lineS A B := by
  have hT := lineT_mul_denom A B hd
  have hS := lineS_mul_denom A B hd
  have hD := lineDenom_eq A B
  constructor
  · apply mul_right_cancel₀ hd
    linear_combination (B 3 - B 1) * hx - (B 2 - B 0) * hy - hT + t * hD
  · apply mul_right_cancel₀ hd
    linear_combination (A 3 - A 1) * hx - (A 2 - A 0) * hy - hS + s * hD

theorem plane3D_hasIntersection_iff (A B C : Nat → α) (intersection : Option (Nat → α)) :
    (DMPlexGetLinePlaneIntersection_3D_Internal A B C intersection).hasIntersection = true ↔
      planeDenom A B C ≠ 0 ∧
        0 ≤ planeT A B C ∧ planeT A B C ≤ 1 ∧
        0 ≤ planeU A B C ∧ planeU A B C ≤ 1 ∧
        0 ≤ planeV A B C ∧ planeV A B C ≤ 1 := by
  unfold DMPlexGetLinePlaneIntersection_3D_Internal
  by_cases hd : planeDenom A B C = 0
  · simp [hd]
  · by_cases hc : planeT A B C ≥ 0 ∧ planeT A B C ≤ 1 ∧ planeU A B C ≥ 0 ∧ planeU A B C ≤ 1 ∧
        planeV A B C ≥ 0 ∧ planeV A B C ≤ 1
    · simp [hd, hc]
    · have hc2 := hc
      simp only [ge_iff_le] at hc2
      simp [hd, hc, hc2]

theorem plane3D_parallel (A B C : Nat → α) (intersection : Option (Nat → α))
    (h : planeDenom A B C = 0) :
    DMPlexGetLinePlaneIntersection_3D_Internal A B C intersection =
      { ierr := 0, intersection := intersection, hasIntersection := false } := by
  simp [DMPlexGetLinePlaneIntersection_3D_Internal, h]

theorem planeDenom_eq (A B C : Nat → α) :
    planeDenom A B C =
      -((A 3 - A 0) * ((B 4 - B 1) * (C 5 - C 2) - (B 5 - B 2) * (C 4 - C 1)) +
        (A 4 - A 1) * ((B 5 - B 2) * (C 3 - C 0) - (B 3 - B 0) * (C 5 - C 2)) +
        (A 5 - A 2) * ((B 3 - B 0) * (C 4 - C 1) - (B 4 - B 1) * (C 3 - C 0))) := by
  simp [planeDenom]

theorem planeT_eq (A B C : Nat → α) :
    planeT A B C =
      (((B 4 - B 1) * (C 5 - C 2) - (B 5 - B 2) * (C 4 - C 1)) * (A 0 - B 0) +
      ((B 5 - B 2) * (C 3 - C 0) - (B 3 - B 0) * (C 5 - C 2)) * (A 1 - B 1) +
      ((B 3 - B 0) * (C 4 - C 1) - (B 4 - B 1) * (C 3 - C 0)) * (A 2 - B 2)) /
        planeDenom A B C := by
  simp [planeT]

theorem planeT_mul_denom (A B C : Nat → α) (hd : planeDenom A B C ≠ 0) :
    planeT A B C * planeDenom A B C =
      ((B 4 - B 1) * (C 5 - C 2) - (B 5 - B 2) * (C 4 - C 1)) * (A 0 - B 0) +
      ((B 5 - B 2) * (C 3 - C 0) - (B 3 - B 0) * (C 5 - C 2)) * (A 1 - B 1) +
      ((B 3 - B 0) * (C 4 - C 1) - (B 4 - B 1) * (C 3 - C 0)) * (A 2 - B 2) := by
  rw [planeT_eq, div_mul_cancel₀ _ hd]

theorem planeU_eq (A B C : Nat → α) :
    planeU A B C =
      (((A 4 - A 1) * (C 5 - C 2) - (A 5 - A 2) * (C 4 - C 1)) * (A 0 - B 0) +
      ((A 5 - A 2) * (C 3 - C 0) - (A 3 - A 0) * (C 5 - C 2)) * (A 1 - B 1) +
      ((A 3 - A 0) * (C 4 - C 1) - (A 4 - A 1) * (C 3 - C 0)) * (A 2 - B 2)) /
        planeDenom A B C := by
  simp [planeU]

theorem planeU_mul_denom (A B C : Nat → α) (hd : planeDenom A B C ≠ 0) :
    planeU A B C * planeDenom A B C =
      ((A 4 - A 1) * (C 5 - C 2) - (A 5 - A 2) * (C 4 - C 1)) * (A 0 - B 0) +
      ((A 5 - A 2) * (C 3 - C 0) - (A 3 - A 0) * (C 5 - C 2)) * (A 1 - B 1) +
      ((A 3 - A 0) * (C 4 - C 1) - (A 4 - A 1) * (C 3 - C 0)) * (A 2 - B 2) := by
  rw [planeU_eq, div_mul_cancel₀ _ hd]

theorem planeV_eq (A B C : Nat → α) :
    planeV A B C =
      (((B 4 - B 1) * (A 5 - A 2) - (B 5 - B 2) * (A 4 - A 1)) * (A 0 - B 0) +
      ((B 5 - B 2) * (A 3 - A 0) - (B 3 - B 0) * (A 5 - A 2)) * (A 1 - B 1) +
      ((B 3 - B 0) * (A 4 - A 1) - (B 4 - B 1) * (A 3 - A 0)) * (A 2 - B 2)) /
        planeDenom A B C := by
  simp [planeV]

theorem planeV_mul_denom (A B C : Nat → α) (hd : planeDenom A B C ≠ 0) :
    planeV A B C * planeDenom A B C =
      ((B 4 - B 1) * (A 5 - A 2) - (B 5 - B 2) * (A 4 - A 1)) * (A 0 - B 0) +
      ((B 5 - B 2) * (A 3 - A 0) - (B 3 - B 0) * (A 5 - A 2)) * (A 1 - B 1) +
      ((B 3 - B 0) * (A 4 - A 1) - (B 4 - B 1) * (A 3 - A 0)) * (A 2 - B 2) := by
  rw [planeV_eq, div_mul_cancel₀ _ hd]

/-- With a non-zero determinant the code's `t, u, v` solve `p0 + t s0 = q0 + u s1 + v s2`. -/
theorem plane3D_params_solve (A B C : Nat → α) (hd : planeDenom A B C ≠ 0) :
    A 0 + planeT A B C * (A 3 - A 0) =
      B 0 + planeU A B C * (B 3 - B 0) + planeV A B C * (C 3 - C 0) ∧
    A 1 + planeT A B C * (A 4 - A 1) =
      B 1 + planeU A B C * (B 4 - B 1) + planeV A B C * (C 4 - C 1) ∧
    A 2 + planeT A B C * (A 5 - A 2) =
      B 2 + planeU A B C * (B 5 - B 2) + planeV A B C * (C 5 - C 2) := by
  have hT := planeT_mul_denom A B C hd
  have hU := planeU_mul_denom A B C hd
  have hV := planeV_mul_denom A B C hd
  have hD := planeDenom_eq A B C
  refine ⟨?_, ?_, ?_⟩
  · apply mul_right_cancel₀ hd
    linear_combination (A 3 - A 0) * hT - (B 3 - B 0) * hU - (C 3 - C 0) * hV + (A 0 - B 0) * hD
  · apply mul_right_cancel₀ hd
    linear_combination (A 4 - A 1) * hT - (B 4 - B 1) * hU - (C 4 - C 1) * hV + (A 1 - B 1) * hD
  · apply mul_right_cancel₀ hd
    linear_combination (A 5 - A 2) * hT - (B 5 - B 2) * hU - (C 5 - C 2) * hV + (A 2 - B 2) * hD

/-- With a non-zero determinant the solution of `p0 + t s0 = q0 + u s1 + v s2` is unique. -/
theorem plane3D_params_unique (A B C : Nat → α) (hd : planeDenom A B C ≠ 0) (t u v : α)
    (hx : A 0 + t * (A 3 - A 0) = B 0 + u * (B 3 - B 0) + v * (C 3 - C 0))
    (hy : A 1 + t * (A 4 - A 1) = B 1 + u * (B 4 - B 1) + v * (C 4 - C 1))
    (hz : A 2 + t * (A 5 - A 2) = B 2 + u * (B 5 - B 2) + v * (C 5 - C 2)) :
    t = planeT A B C ∧ u = planeU A B C ∧ v = planeV A B C := by
  have hT := planeT_mul_denom A B C hd
  have hU := planeU_mul_denom A B C hd
  have hV := planeV_mul_denom A B C hd
  have hD := planeDenom_eq A B C
  refine ⟨?_, ?_, ?_⟩
  · apply mul_right_cancel₀ hd
    linear_combination t * hD - hT
      - ((B 4 - B 1) * (C 5 - C 2) - (B 5 - B 2) * (C 4 - C 1)) * hx
      - ((B 5 - B 2) * (C 3 - C 0) - (B 3 - B 0) * (C 5 - C 2)) * hy
      - ((B 3 - B 0) * (C 4 - C 1) - (B 4 - B 1) * (C 3 - C 0)) * hz
  · apply mul_right_cancel₀ hd
    linear_combination u * hD - hU
      - ((A 4 - A 1) * (C 5 - C 2) - (A 5 - A 2) * (C 4 - C 1)) * hx
      - ((A 5 - A 2) * (C 3 - C 0) - (A 3 - A 0) * (C 5 - C 2)) * hy
      - ((A 3 - A 0) * (C 4 - C 1) - (A 4 - A 1) * (C 3 - C 0)) * hz
  · apply mul_right_cancel₀ hd
    linear_combination v * hD - hV
      - ((B 4 - B 1) * (A 5 - A 2) - (B 5 - B 2) * (A 4 - A 1)) * hx
      - ((B 5 - B 2) * (A 3 - A 0) - (B 3 - B 0) * (A 5 - A 2)) * hy
      - ((B 3 - B 0) * (A 4 - A 1) - (B 4 - B 1) * (A 3 - A 0)) * hz

/-- C3: whenever the 2D kernel sets `hasIntersection`, the point it writes into a non-NULL
`intersection` lies on both segments: it equals `p0 + t (p1 - p0)` and `p2 + s (p3 - p2)` for
some `t` and `s` in `[0, 1]`. -/
theorem line2D_point_on_both_segments (A B buf : Nat → α)
    (h : (DMPlexGetLineIntersection_2D_Internal A B (some buf)).hasIntersection = true) :
    ∃ out, (DMPlexGetLineIntersection_2D_Internal A B (some buf)).intersection = some out ∧
      ∃ t s, 0 ≤ t ∧ t ≤ 1 ∧ 0 ≤ s ∧ s ≤ 1 ∧
        out 0 = A 0 + t * (A 2 - A 0) ∧ out 1 = A 1 + t * (A 3 - A 1) ∧
        out 0 = B 0 + s * (B 2 - B 0) ∧ out 1 = B 1 + s * (B 3 - B 1) := by
  obtain ⟨hd, hs0, hs1, ht0, ht1⟩ := (line2D_hasIntersection_iff A B (some buf)).1 h
  obtain ⟨hx, hy⟩ := line2D_params_solve A B hd
  have hc : lineS A B ≥ 0 ∧ lineS A B ≤ 1 ∧ lineT A B ≥ 0 ∧ lineT A B ≤ 1 :=
    ⟨hs0, hs1, ht0, ht1⟩
  refine ⟨arraySet (arraySet buf 0 (A 0 + lineT A B * (A 2 - A 0))) 1
      (A 1 + lineT A B * (A 3 - A 1)), ?_, lineT A B, lineS A B, ht0, ht1, hs0, hs1, ?_, ?_, ?_, ?_⟩
  · simp [DMPlexGetLineIntersection_2D_Internal, hd, hc]
  · simp [arraySet]
  · simp [arraySet]
  · simpa [arraySet] using hx
  · simpa [arraySet] using hy

theorem line2D_point_on_both_segments_witness :
    (DMPlexGetLineIntersection_2D_Internal (arrayOf [(0 : ℚ), 0, 2, 2]) (arrayOf [0, 2, 2, 0])
        (some (arrayOf []))).hasIntersection = true ∧
    ∃ out, (DMPlexGetLineIntersection_2D_Internal (arrayOf [(0 : ℚ), 0, 2, 2])
        (arrayOf [0, 2, 2, 0]) (some (arrayOf []))).intersection = some out ∧
      ∃ t s, 0 ≤ t ∧ t ≤ 1 ∧ 0 ≤ s ∧ s ≤ 1 ∧
        out 0 = arrayOf [(0 : ℚ), 0, 2, 2] 0 +
          t * (arrayOf [(0 : ℚ), 0, 2, 2] 2 - arrayOf [(0 : ℚ), 0, 2, 2] 0) ∧
        out 1 = arrayOf [(0 : ℚ), 0, 2, 2] 1 +
          t * (arrayOf [(0 : ℚ), 0, 2, 2] 3 - arrayOf [(0 : ℚ), 0, 2, 2] 1) ∧
        out 0 = arrayOf [(0 : ℚ), 2, 2, 0] 0 +
          s * (arrayOf [(0 : ℚ), 2, 2, 0] 2 - arrayOf [(0 : ℚ), 2, 2, 0] 0) ∧
        out 1 = arrayOf [(0 : ℚ), 2, 2, 0] 1 +
          s * (arrayOf [(0 : ℚ), 2, 2, 0] 3 - arrayOf [(0 : ℚ), 2, 2, 0] 1) :=
  ⟨by norm_num [DMPlexGetLineIntersection_2D_Internal, lineDenom, lineS, lineT, arrayOf],
    line2D_point_on_both_segments _ _ _
      (by norm_num [DMPlexGetLineIntersection_2D_Internal, lineDenom, lineS, lineT, arrayOf])⟩

/-- C4 (amended): evaluated in exact arithmetic, for non-parallel 2D segments (non-zero cross
product of the direction vectors) the kernel sets `hasIntersection` exactly when the two closed
segments share a point, which is exactly when both parametric values `s` and `t` of the crossing
of the supporting lines lie in `[0, 1]` (endpoints included); a parameter below `0` or above `1`
gives no intersection. -/
theorem line2D_nonparallel_iff_segments_meet (A B : Nat → α) (buf : Option (Nat → α))
    (hcross : (A 2 - A 0) * (B 3 - B 1) - (A 3 - A 1) * (B 2 - B 0) ≠ 0) :
    ((DMPlexGetLineIntersection_2D_Internal A B buf).hasIntersection = true ↔
      ∃ t s, 0 ≤ t ∧ t ≤ 1 ∧ 0 ≤ s ∧ s ≤ 1 ∧
        A 0 + t * (A 2 - A 0) = B 0 + s * (B 2 - B 0) ∧
        A 1 + t * (A 3 - A 1) = B 1 + s * (B 3 - B 1)) ∧
    ((DMPlexGetLineIntersection_2D_Internal A B buf).hasIntersection = true ↔
      0 ≤ lineS A B ∧ lineS A B ≤ 1 ∧ 0 ≤ lineT A B ∧ lineT A B ≤ 1) ∧
    (A 0 + lineT A B * (A 2 - A 0) = B 0 + lineS A B * (B 2 - B 0) ∧
      A 1 + lineT A B * (A 3 - A 1) = B 1 + lineS A B * (B 3 - B 1)) ∧
    (∀ t s, A 0 + t * (A 2 - A 0) = B 0 + s * (B 2 - B 0) →
      A 1 + t * (A 3 - A 1) = B 1 + s * (B 3 - B 1) → t = lineT A B ∧ s = lineS A B) ∧
    ((lineS A B < 0 ∨ 1 < lineS A B ∨ lineT A B < 0 ∨ 1 < lineT A B) →
      (DMPlexGetLineIntersection_2D_Internal A B buf).hasIntersection = false) := by
  have hd : lineDenom A B ≠ 0 := by
    rw [lineDenom_eq]
    intro h0
    apply hcross
    linear_combination h0
  have hiff := line2D_hasIntersection_iff A B buf
  have hsolve := line2D_params_solve A B hd
  refine ⟨?_, ?_, hsolve, fun t s hx hy => line2D_params_unique A B hd t s hx hy, ?_⟩
  · constructor
    · intro h
      obtain ⟨_, hs0, hs1, ht0, ht1⟩ := hiff.1 h
      exact ⟨lineT A B, lineS A B, ht0, ht1, hs0, hs1, hsolve.1, hsolve.2⟩
    · rintro ⟨t, s, ht0, ht1, hs0, hs1, hx, hy⟩
      obtain ⟨rfl, rfl⟩ := line2D_params_unique A B hd t s hx hy
      exact hiff.2 ⟨hd, hs0, hs1, ht0, ht1⟩
  · constructor
    · intro h
      exact (hiff.1 h).2
    · intro h
      exact hiff.2 ⟨hd, h⟩
  · intro hout
    cases hres : (DMPlexGetLineIntersection_2D_Internal A B buf).hasIntersection with
    | false => rfl
    | true =>
      obtain ⟨_, hs0, hs1, ht0, ht1⟩ := hiff.1 hres
      rcases hout with h | h | h | h
      · exact absurd hs0 (not_le.2 h)
      · exact absurd hs1 (not_le.2 h)
      · exact absurd ht0 (not_le.2 h)
      · exact absurd ht1 (not_le.2 h)

/-- Segment `(0,0)-(1,0)` touches segment `(1,0)-(1,1)` exactly at a common endpoint: reported as
an intersection. -/
theorem line2D_nonparallel_iff_segments_meet_witness :
    (arrayOf [(0 : ℚ), 0, 1, 0] 2 - arrayOf [(0 : ℚ), 0, 1, 0] 0) *
        (arrayOf [(1 : ℚ), 0, 1, 1] 3 - arrayOf [(1 : ℚ), 0, 1, 1] 1) -
      (arrayOf [(0 : ℚ), 0, 1, 0] 3 - arrayOf [(0 : ℚ), 0, 1, 0] 1) *
        (arrayOf [(1 : ℚ), 0, 1, 1] 2 - arrayOf [(1 : ℚ), 0, 1, 1] 0) ≠ 0 ∧
    (DMPlexGetLineIntersection_2D_Internal (arrayOf [(0 : ℚ), 0, 1, 0]) (arrayOf [1, 0, 1, 1])
      none).hasIntersection = true :=
  ⟨by norm_num [arrayOf],
    (line2D_nonparallel_iff_segments_meet (arrayOf [(0 : ℚ), 0, 1, 0]) (arrayOf [1, 0, 1, 1]) none
      (by norm_num [arrayOf])).1.2 ⟨1, 0, by norm_num, by norm_num, by norm_num, by norm_num,
        by norm_num [arrayOf], by norm_num [arrayOf]⟩⟩

/-- C5 (amended): evaluated in exact arithmetic, when the direction vectors of the two 2D
segments have zero cross product (parallel, collinear or zero-length segments) the kernel sets
`hasIntersection` to false, does not write `intersection`, and returns error code `0`. -/
theorem line2D_zero_cross_no_intersection (A B : Nat → α) (buf : Option (Nat → α))
    (hcross : (A 2 - A 0) * (B 3 - B 1) - (A 3 - A 1) * (B 2 - B 0) = 0) :
    (DMPlexGetLineIntersection_2D_Internal A B buf).hasIntersection = false ∧
    (DMPlexGetLineIntersection_2D_Internal A B buf).intersection = buf ∧
    (DMPlexGetLineIntersection_2D_Internal A B buf).ierr = 0 := by
  have hd : lineDenom A B = 0 := by
    rw [lineDenom_eq]
    linear_combination hcross
  rw [line2D_parallel A B buf hd]
  exact ⟨rfl, rfl, rfl⟩

/-- Collinear, overlapping segments `(0,0)-(2,0)` and `(1,0)-(3,0)`: no intersection reported. -/
theorem line2D_zero_cross_no_intersection_witness :
    (arrayOf [(0 : ℚ), 0, 2, 0] 2 - arrayOf [(0 : ℚ), 0, 2, 0] 0) *
        (arrayOf [(1 : ℚ), 0, 3, 0] 3 - arrayOf [(1 : ℚ), 0, 3, 0] 1) -
      (arrayOf [(0 : ℚ), 0, 2, 0] 3 - arrayOf [(0 : ℚ), 0, 2, 0] 1) *
        (arrayOf [(1 : ℚ), 0, 3, 0] 2 - arrayOf [(1 : ℚ), 0, 3, 0] 0) = 0 ∧
    (DMPlexGetLineIntersection_2D_Internal (arrayOf [(0 : ℚ), 0, 2, 0]) (arrayOf [1, 0, 3, 0])
      none).hasIntersection = false ∧
    (DMPlexGetLineIntersection_2D_Internal (arrayOf [(0 : ℚ), 0, 2, 0]) (arrayOf [1, 0, 3, 0])
      none).intersection = none ∧
    (DMPlexGetLineIntersection_2D_Internal (arrayOf [(0 : ℚ), 0, 2, 0]) (arrayOf [1, 0, 3, 0])
      none).ierr = 0 :=
  ⟨by norm_num [arrayOf],
    line2D_zero_cross_no_intersection (arrayOf [(0 : ℚ), 0, 2, 0]) (arrayOf [1, 0, 3, 0]) none
      (by norm_num [arrayOf])⟩

/-- C6 (refutation): no positive tolerance exists below which a determinant counts as parallel.
For every `eps > 0` the 2D kernel reports an intersection for the segments `(0,0)-(eps/2,0)` and
`(0,0)-(0,1)`, whose determinant is `eps/2`, and the 3D kernel reports one for the segment
`(0,0,0)-(0,0,eps/2)` against the unit square spanned at the origin, whose determinant is
`-eps/2`. -/
theorem no_parallel_tolerance :
    (¬ ∃ eps : ℚ, 0 < eps ∧ ∀ (A B : Nat → ℚ) (buf : Option (Nat → ℚ)),
        abs (lineDenom A B) < eps →
          (DMPlexGetLineIntersection_2D_Internal A B buf).hasIntersection = false) ∧
    (¬ ∃ eps : ℚ, 0 < eps ∧ ∀ (A B C : Nat → ℚ) (buf : Option (Nat → ℚ)),
        abs (planeDenom A B C) < eps →
          (DMPlexGetLinePlaneIntersection_3D_Internal A B C buf).hasIntersection = false) := by
  constructor
  · rintro ⟨eps, hpos, h⟩
    have hne : eps / 2 ≠ 0 := by positivity
    have hd : lineDenom (arrayOf [0, 0, eps / 2, 0]) (arrayOf [(0 : ℚ), 0, 0, 1]) = eps / 2 := by
      simp [lineDenom, arrayOf]
    have hlt : abs (lineDenom (arrayOf [0, 0, eps / 2, 0]) (arrayOf [(0 : ℚ), 0, 0, 1])) < eps := by
      rw [hd, abs_of_pos (by positivity)]
      linarith
    have hfalse := h _ _ none hlt
    have htrue : (DMPlexGetLineIntersection_2D_Internal (arrayOf [0, 0, eps / 2, 0])
        (arrayOf [(0 : ℚ), 0, 0, 1]) none).hasIntersection = true := by
      rw [line2D_hasIntersection_iff]
      refine ⟨by rw [hd]; exact hne, ?_⟩
      simp [lineS, lineT, arrayOf]
    rw [htrue] at hfalse
    exact Bool.noConfusion hfalse
  · rintro ⟨eps, hpos, h⟩
    have hne : eps / 2 ≠ 0 := by positivity
    have hd : planeDenom (arrayOf [0, 0, 0, 0, 0, eps / 2]) (arrayOf [(0 : ℚ), 0, 0, 1, 0, 0])
        (arrayOf [(0 : ℚ), 0, 0, 0, 1, 0]) = -(eps / 2) := by
      simp [planeDenom, arrayOf]
    have hlt : abs (planeDenom (arrayOf [0, 0, 0, 0, 0, eps / 2])
        (arrayOf [(0 : ℚ), 0, 0, 1, 0, 0]) (arrayOf [(0 : ℚ), 0, 0, 0, 1, 0])) < eps := by
      rw [hd, abs_neg, abs_of_pos (by positivity)]
      linarith
    have hfalse := h _ _ _ none hlt
    have htrue : (DMPlexGetLinePlaneIntersection_3D_Internal (arrayOf [0, 0, 0, 0, 0, eps / 2])
        (arrayOf [(0 : ℚ), 0, 0, 1, 0, 0]) (arrayOf [(0 : ℚ), 0, 0, 0, 1, 0])
        none).hasIntersection = true := by
      rw [plane3D_hasIntersection_iff]
      refine ⟨by rw [hd]; exact neg_ne_zero.2 hne, ?_⟩
      simp [planeT, planeU, planeV, arrayOf]
    rw [htrue] at hfalse
    exact Bool.noConfusion hfalse

/-- C6 (amended): the kernels test the determinant against exactly zero.  The 2D and the 3D kernel
report an intersection exactly when the determinant is non-zero (however small) and every
parameter lies in `[0, 1]`; in particular a zero determinant always gives no intersection. -/
theorem kernels_parallel_iff_determinant_exactly_zero (A B C : Nat → α)
    (buf : Option (Nat → α)) :
    ((DMPlexGetLineIntersection_2D_Internal A B buf).hasIntersection = true ↔
      lineDenom A B ≠ 0 ∧
        0 ≤ lineS A B ∧ lineS A B ≤ 1 ∧ 0 ≤ lineT A B ∧ lineT A B ≤ 1) ∧
    ((DMPlexGetLinePlaneIntersection_3D_Internal A B C buf).hasIntersection = true ↔
      planeDenom A B C ≠ 0 ∧
        0 ≤ planeT A B C ∧ planeT A B C ≤ 1 ∧
        0 ≤ planeU A B C ∧ planeU A B C ≤ 1 ∧
        0 ≤ planeV A B C ∧ planeV A B C ≤ 1) :=
  ⟨line2D_hasIntersection_iff A B buf, plane3D_hasIntersection_iff A B C buf⟩

/-- C7: the 3D kernel sets `hasIntersection` exactly when the triple product
`(p1-p0).((q1-q0) x (r1-r0))` is non-zero and `p0 + t (p1-p0) = q0 + u (q1-q0) + v (r1-r0)` for
some `t, u, v` in `[0, 1]`; the point written is then `p0 + t (p1-p0)`; the result depends on
`segmentC` only through its direction `r1 - r0`; a zero triple product gives no intersection. -/
theorem plane3D_iff_meets_parallelogram (A B C buf : Nat → α) :
    ((DMPlexGetLinePlaneIntersection_3D_Internal A B C (some buf)).hasIntersection = true ↔
      (A 3 - A 0) * ((B 4 - B 1) * (C 5 - C 2) - (B 5 - B 2) * (C 4 - C 1)) +
        (A 4 - A 1) * ((B 5 - B 2) * (C 3 - C 0) - (B 3 - B 0) * (C 5 - C 2)) +
        (A 5 - A 2) * ((B 3 - B 0) * (C 4 - C 1) - (B 4 - B 1) * (C 3 - C 0)) ≠ 0 ∧
      ∃ t u v, 0 ≤ t ∧ t ≤ 1 ∧ 0 ≤ u ∧ u ≤ 1 ∧ 0 ≤ v ∧ v ≤ 1 ∧
        A 0 + t * (A 3 - A 0) = B 0 + u * (B 3 - B 0) + v * (C 3 - C 0) ∧
        A 1 + t * (A 4 - A 1) = B 1 + u * (B 4 - B 1) + v * (C 4 - C 1) ∧
        A 2 + t * (A 5 - A 2) = B 2 + u * (B 5 - B 2) + v * (C 5 - C 2)) ∧
    (∀ t u v,
      (DMPlexGetLinePlaneIntersection_3D_Internal A B C (some buf)).hasIntersection = true →
      A 0 + t * (A 3 - A 0) = B 0 + u * (B 3 - B 0) + v * (C 3 - C 0) →
      A 1 + t * (A 4 - A 1) = B 1 + u * (B 4 - B 1) + v * (C 4 - C 1) →
      A 2 + t * (A 5 - A 2) = B 2 + u * (B 5 - B 2) + v * (C 5 - C 2) →
      (DMPlexGetLinePlaneIntersection_3D_Internal A B C (some buf)).intersection =
        some (arraySet (arraySet (arraySet buf 0 (A 0 + t * (A 3 - A 0)))
          1 (A 1 + t * (A 4 - A 1))) 2 (A 2 + t * (A 5 - A 2)))) ∧
    (∀ C2 : Nat → α, C2 3 - C2 0 = C 3 - C 0 → C2 4 - C2 1 = C 4 - C 1 →
      C2 5 - C2 2 = C 5 - C 2 →
      DMPlexGetLinePlaneIntersection_3D_Internal A B C2 (some buf) =
        DMPlexGetLinePlaneIntersection_3D_Internal A B C (some buf)) ∧
    ((A 3 - A 0) * ((B 4 - B 1) * (C 5 - C 2) - (B 5 - B 2) * (C 4 - C 1)) +
        (A 4 - A 1) * ((B 5 - B 2) * (C 3 - C 0) - (B 3 - B 0) * (C 5 - C 2)) +
        (A 5 - A 2) * ((B 3 - B 0) * (C 4 - C 1) - (B 4 - B 1) * (C 3 - C 0)) = 0 →
      (DMPlexGetLinePlaneIntersection_3D_Internal A B C (some buf)).hasIntersection = false ∧
      (DMPlexGetLinePlaneIntersection_3D_Internal A B C (some buf)).intersection = some buf) := by
  have hiff := plane3D_hasIntersection_iff A B C (some buf)
  have hD := planeDenom_eq A B C
  have hdiff : planeDenom A B C ≠ 0 ↔
      (A 3 - A 0) * ((B 4 - B 1) * (C 5 - C 2) - (B 5 - B 2) * (C 4 - C 1)) +
        (A 4 - A 1) * ((B 5 - B 2) * (C 3 - C 0) - (B 3 - B 0) * (C 5 - C 2)) +
        (A 5 - A 2) * ((B 3 - B 0) * (C 4 - C 1) - (B 4 - B 1) * (C 3 - C 0)) ≠ 0 := by
    rw [hD, neg_ne_zero]
  refine ⟨?_, ?_, ?_, ?_⟩
  · constructor
    · intro h
      obtain ⟨hd, ht0, ht1, hu0, hu1, hv0, hv1⟩ := hiff.1 h
      obtain ⟨hx, hy, hz⟩ := plane3D_params_solve A B C hd
      exact ⟨hdiff.1 hd, planeT A B C, planeU A B C, planeV A B C,
        ht0, ht1, hu0, hu1, hv0, hv1, hx, hy, hz⟩
    · rintro ⟨htriple, t, u, v, ht0, ht1, hu0, hu1, hv0, hv1, hx, hy, hz⟩
      have hd := hdiff.2 htriple
      obtain ⟨rfl, rfl, rfl⟩ := plane3D_params_unique A B C hd t u v hx hy hz
      exact hiff.2 ⟨hd, ht0, ht1, hu0, hu1, hv0, hv1⟩
  · intro t u v h hx hy hz
    obtain ⟨hd, ht0, ht1, hu0, hu1, hv0, hv1⟩ := hiff.1 h
    obtain ⟨rfl, -, -⟩ := plane3D_params_unique A B C hd t u v hx hy hz
    have hc : planeT A B C ≥ 0 ∧ planeT A B C ≤ 1 ∧ planeU A B C ≥ 0 ∧ planeU A B C ≤ 1 ∧
        planeV A B C ≥ 0 ∧ planeV A B C ≤ 1 := ⟨ht0, ht1, hu0, hu1, hv0, hv1⟩
    simp [DMPlexGetLinePlaneIntersection_3D_Internal, hd, hc]
  · intro C2 h0 h1 h2
    have hDen : planeDenom A B C2 = planeDenom A B C := by
      rw [planeDenom_eq, planeDenom_eq, h0, h1, h2]
    have hT : planeT A B C2 = planeT A B C := by
      rw [planeT_eq, planeT_eq, hDen, h0, h1, h2]
    have hU : planeU A B C2 = planeU A B C := by
      rw [planeU_eq, planeU_eq, hDen, h0, h1, h2]
    have hV : planeV A B C2 = planeV A B C := by
      rw [planeV_eq, planeV_eq, hDen]
    simp only [DMPlexGetLinePlaneIntersection_3D_Internal, hDen, hT, hU, hV]
  · intro htriple
    have hd : planeDenom A B C = 0 := by
      rw [hD, htriple, neg_zero]
    rw [plane3D_parallel A B C (some buf) hd]
    exact ⟨rfl, rfl⟩

/-- C4 (refutation): the segments `(0.4, 1.8) - (0.2, 0.8)` and `(0.3, 1.5) - (0.2, 0.8)` (the
doubles nearest to these decimals) are not parallel and share their second endpoint, so that in
exact arithmetic `s = t = 1` and the kernel reports an intersection; evaluated in double
arithmetic the kernel computes `s = t = 1 + 2^-51` and reports no intersection. -/
theorem line2D_double_misses_shared_endpoint :
    (∀ i, i < 4 → roundDouble (endpointSegmentA i) = some (endpointSegmentA i) ∧
      roundDouble (endpointSegmentB i) = some (endpointSegmentB i)) ∧
    (endpointSegmentA 2 - endpointSegmentA 0) * (endpointSegmentB 3 - endpointSegmentB 1) -
      (endpointSegmentA 3 - endpointSegmentA 1) * (endpointSegmentB 2 - endpointSegmentB 0)
        ≠ 0 ∧
    endpointSegmentA 2 = endpointSegmentB 2 ∧ endpointSegmentA 3 = endpointSegmentB 3 ∧
    lineS endpointSegmentA endpointSegmentB = 1 ∧
    lineT endpointSegmentA endpointSegmentB = 1 ∧
    (DMPlexGetLineIntersection_2D_Internal endpointSegmentA endpointSegmentB
      none).hasIntersection = true ∧
    (lineDenom_double endpointSegmentA endpointSegmentB).bind (fun d =>
      lineST_double endpointSegmentA endpointSegmentB d.1 d.2.1 d.2.2.1 d.2.2.2.1 d.2.2.2.2) =
        some (1 + 1 / 2 ^ 51, 1 + 1 / 2 ^ 51) ∧
    (DMPlexGetLineIntersection_2D_Internal_double endpointSegmentA endpointSegmentB none).map
      (fun r => r.hasIntersection) = some false := by
  decide!

/-- C5 (refutation): the segments `(0, 0) - (1, 3)` and
`(3 * 2^-53, 9 * 2^-53) - (1 + 2^-51, 3 + 3 * 2^-51)` lie on the same line, their direction
vectors have zero cross product and in exact arithmetic the kernel reports no intersection;
evaluated in double arithmetic the kernel computes `denom = 2^-51`, sets `hasIntersection` and
writes the point `(2^-51, 3 * 2^-51)`. -/
theorem line2D_double_reports_parallel_segments :
    (∀ i, i < 4 → roundDouble (parallelSegmentA i) = some (parallelSegmentA i) ∧
      roundDouble (parallelSegmentB i) = some (parallelSegmentB i)) ∧
    (parallelSegmentA 2 - parallelSegmentA 0) * (parallelSegmentB 3 - parallelSegmentB 1) -
      (parallelSegmentA 3 - parallelSegmentA 1) * (parallelSegmentB 2 - parallelSegmentB 0)
        = 0 ∧
    (DMPlexGetLineIntersection_2D_Internal parallelSegmentA parallelSegmentB
      none).hasIntersection = false ∧
    (lineDenom_double parallelSegmentA parallelSegmentB).map (fun d => d.2.2.2.2) =
      some (1 / 2 ^ 51) ∧
    (DMPlexGetLineIntersection_2D_Internal_double parallelSegmentA parallelSegmentB
      (some (arrayOf [9, 9]))).map
      (fun r => (r.ierr, r.hasIntersection, r.intersection.map (fun buf => [buf 0, buf 1]))) =
      some (0, true, some [1 / 2 ^ 51, 3 / 2 ^ 51]) := by
  decide!

end GeometryTheorems

section NeighborTheorems

variable {α : Type} [LinearOrderedField α]

theorem PetscSortRemoveDupsInt_sorted (list : List Int) :
    (PetscSortRemoveDupsInt list).Sorted (fun a b => a < b) := by
  unfold PetscSortRemoveDupsInt
  apply List.Sorted.lt_of_le
  · exact List.sorted_insertionSort (fun a b : Int => a ≤ b) _
  · exact (List.perm_insertionSort (fun a b : Int => a ≤ b) _).nodup_iff.2 (List.nodup_dedup _)

theorem mem_PetscSortRemoveDupsInt (list : List Int) (c : Int) :
    c ∈ PetscSortRemoveDupsInt list ↔ c ∈ list := by
  unfold PetscSortRemoveDupsInt
  rw [(List.perm_insertionSort (fun a b : Int => a ≤ b) _).mem_iff, List.mem_dedup]

theorem length_PetscSortRemoveDupsInt (list : List Int) :
    (PetscSortRemoveDupsInt list).length = list.toFinset.card := by
  unfold PetscSortRemoveDupsInt
  rw [List.length_insertionSort, List.card_toFinset]

/-- A strictly ascending list is fixed by its set of entries. -/
theorem PetscSortRemoveDupsInt_eq_sort (list : List Int) :
    PetscSortRemoveDupsInt list = list.toFinset.sort (fun a b => a ≤ b) := by
  apply List.eq_of_perm_of_sorted (r := fun a b : Int => a ≤ b)
  · apply (List.perm_ext_iff_of_nodup ?_ (Finset.sort_nodup _ _)).2
    · intro c
      rw [mem_PetscSortRemoveDupsInt, Finset.mem_sort, List.mem_toFinset]
    · exact (PetscSortRemoveDupsInt_sorted list).nodup
  · exact (PetscSortRemoveDupsInt_sorted list).le_of_lt
  · exact Finset.sort_sorted _ _

/-- Over the reals the field-internal distance test is the test `sqrt dist <= maxDist` of the
source. -/
theorem sqrtLE_real_iff (dist maxDist : ℝ) :
    sqrtLE dist (MaxDist.real maxDist) = true ↔ Real.sqrt dist ≤ maxDist := by
  simp only [sqrtLE, decide_eq_true_eq]
  rw [Real.sqrt_le_iff, pow_two]

theorem mem_neighborCandidates (dm : DM α) (p : Int) (maxDist : MaxDist α) (useVertices : Bool)
    (c : Int) :
    c ∈ neighborCandidates dm p maxDist useVertices ↔
      ∃ cl, cl ∈ dm.closure p ∧
        (if useVertices then (dm.depthStratum 0).1 else (dm.heightStratum 1).1) ≤ cl ∧
        cl < (if useVertices then (dm.depthStratum 0).2 else (dm.heightStratum 1).2) ∧
        c ∈ dm.star cl ∧ (dm.heightStratum 0).1 ≤ c ∧ c < (dm.heightStratum 0).2 ∧
        sqrtLE (centroidDist2 dm.dim (dm.centroid p) (dm.centroid c)) maxDist = true := by
  simp only [neighborCandidates, List.mem_flatMap, List.mem_filter, decide_eq_true_eq,
    Bool.and_eq_true, ge_iff_le]
  constructor
  · rintro ⟨cl, ⟨hcl, h1, h2⟩, hc, ⟨h3, h4⟩, h5⟩
    exact ⟨cl, hcl, h1, h2, hc, h3, h4, h5⟩
  · rintro ⟨cl, hcl, h1, h2, hc, h3, h4, h5⟩
    exact ⟨cl, ⟨hcl, h1, h2⟩, hc, ⟨h3, h4⟩, h5⟩

theorem neighborCandidates_isCell (dm : DM α) (p : Int) (maxDist : MaxDist α)
    (useVertices : Bool) (c : Int) (h : c ∈ neighborCandidates dm p maxDist useVertices) :
    (dm.heightStratum 0).1 ≤ c ∧ c < (dm.heightStratum 0).2 := by
  obtain ⟨cl, -, -, -, -, h3, h4, -⟩ := (mem_neighborCandidates dm p maxDist useVertices c).1 h
  exact ⟨h3, h4⟩

theorem Internal_eq_some (dm : DM α) (p : Int) (maxDist : MaxDist α) (useVertices : Bool)
    (cells : List Int)
    (h : DMPlexGetNeighborCells_Internal dm p maxDist useVertices = some cells) :
    (neighborCandidates dm p maxDist useVertices).length ≤ listCapacity ∧
    cells = PetscSortRemoveDupsInt (neighborCandidates dm p maxDist useVertices) := by
  unfold DMPlexGetNeighborCells_Internal at h
  by_cases hlen : (neighborCandidates dm p maxDist useVertices).length ≤ listCapacity
  · simp only [hlen, if_true, Option.some.injEq] at h
    exact ⟨hlen, h.symm⟩
  · simp [hlen] at h

theorem Internal_of_fits (dm : DM α) (p : Int) (maxDist : MaxDist α) (useVertices : Bool)
    (h : (neighborCandidates dm p maxDist useVertices).length ≤ listCapacity) :
    DMPlexGetNeighborCells_Internal dm p maxDist useVertices =
      some (PetscSortRemoveDupsInt (neighborCandidates dm p maxDist useVertices)) := by
  simp [DMPlexGetNeighborCells_Internal, h]

/-- What the `for` loop leaves in `list` when it does not overrun it. -/
theorem addNeighbors_eq_some (dm : DM α) (maxDist : MaxDist α) (useVertices : Bool)
    (todo list result : List Int)
    (h : addNeighbors dm maxDist useVertices todo list = some result) :
    result = list ++ todo.flatMap (fun c =>
      PetscSortRemoveDupsInt (neighborCandidates dm c maxDist useVertices)) := by
  induction todo generalizing list with
  | nil =>
    simp only [addNeighbors, Option.some.injEq] at h
    simp [h]
  | cons c todo ih =>
    unfold addNeighbors at h
    cases hI : DMPlexGetNeighborCells_Internal dm c maxDist useVertices with
    | none => simp [hI] at h
    | some addList =>
      simp only [hI] at h
      by_cases hlen : list.length + addList.length ≤ listCapacity
      · simp only [hlen, if_true] at h
        have := ih _ h
        rw [this, (Internal_eq_some dm c maxDist useVertices addList hI).2]
        simp [List.flatMap_cons, List.append_assoc]
      · simp [hlen] at h

theorem levelLoop_invariant (dm : DM α) (maxDist : MaxDist α) (useVertices : Bool)
    (minNumberCells : Int) (remaining : Nat) (list result : List Int)
    (hsorted : list.Sorted (fun a b => a < b))
    (hcells : ∀ c ∈ list, (dm.heightStratum 0).1 ≤ c ∧ c < (dm.heightStratum 0).2)
    (h : levelLoop dm maxDist useVertices minNumberCells remaining list = some result) :
    result.Sorted (fun a b => a < b) ∧
      ∀ c ∈ result, (dm.heightStratum 0).1 ≤ c ∧ c < (dm.heightStratum 0).2 := by
  induction remaining generalizing list with
  | zero =>
    simp only [levelLoop, Option.some.injEq] at h
    subst h
    exact ⟨hsorted, hcells⟩
  | succ remaining ih =>
    unfold levelLoop at h
    by_cases hn : (list.length : Int) < minNumberCells
    · simp only [hn, if_true] at h
      cases hA : addNeighbors dm maxDist useVertices list list with
      | none => simp [hA] at h
      | some list2 =>
        simp only [hA] at h
        refine ih _ (PetscSortRemoveDupsInt_sorted _) ?_ h
        intro c hc
        rw [mem_PetscSortRemoveDupsInt, addNeighbors_eq_some dm maxDist useVertices _ _ _ hA,
          List.mem_append, List.mem_flatMap] at hc
        rcases hc with hc | ⟨d, -, hc⟩
        · exact hcells c hc
        · rw [mem_PetscSortRemoveDupsInt] at hc
          exact neighborCandidates_isCell dm d maxDist useVertices c hc
    · simp only [hn, if_false, Option.some.injEq] at h
      subst h
      exact ⟨hsorted, hcells⟩

/-! ### Neighbour levels -/

theorem mem_neighborSet (dm : DM α) (useVertices : Bool) (c d : Int) :
    d ∈ neighborSet dm useVertices c ↔ IsNeighbor dm useVertices c d := by
  simp only [neighborSet, IsNeighbor, Finset.mem_biUnion, Finset.mem_filter, List.mem_toFinset]
  constructor
  · rintro ⟨q, ⟨hq, hs⟩, hd, hc⟩
    exact ⟨hc, q, hs, hq, hd⟩
  · rintro ⟨hc, q, hs, hq, hd⟩
    exact ⟨q, ⟨hq, hs⟩, hd, hc⟩

/-- Without a distance limit the internal routine collects exactly the neighbours of `c`. -/
theorem neighborCandidates_toFinset (dm : DM α) (useVertices : Bool) (c : Int) :
    (neighborCandidates dm c MaxDist.PETSC_MAX_REAL useVertices).toFinset =
      neighborSet dm useVertices c := by
  ext d
  rw [List.mem_toFinset, mem_neighborCandidates, mem_neighborSet]
  unfold IsNeighbor sharedStratum
  constructor
  · rintro ⟨q, hq, h1, h2, hd, h3, h4, -⟩
    refine ⟨⟨h3, h4⟩, q, ⟨?_, ?_⟩, hq, hd⟩
    · cases useVertices <;> simpa using h1
    · cases useVertices <;> simpa using h2
  · rintro ⟨⟨h3, h4⟩, q, ⟨h1, h2⟩, hq, hd⟩
    refine ⟨q, hq, ?_, ?_, hd, h3, h4, rfl⟩
    · cases useVertices <;> simpa using h1
    · cases useVertices <;> simpa using h2

theorem neighborLevels_succ (dm : DM α) (useVertices : Bool) (p : Int) (l : Nat) (hl : 1 ≤ l) :
    neighborLevels dm useVertices p (l + 1) =
      expandLevel dm useVertices (neighborLevels dm useVertices p l) := by
  cases l with
  | zero => exact absurd hl (by decide)
  | succ k => rfl

theorem subset_expandLevel (dm : DM α) (useVertices : Bool) (S : Finset Int) :
    S ⊆ expandLevel dm useVertices S :=
  Finset.subset_union_left

theorem neighborLevels_mono (dm : DM α) (useVertices : Bool) (p : Int) (l m : Nat)
    (hl : 1 ≤ l) (hlm : l ≤ m) :
    neighborLevels dm useVertices p l ⊆ neighborLevels dm useVertices p m := by
  induction m with
  | zero => exact absurd (le_trans hl hlm) (by decide)
  | succ k ih =>
    by_cases h : l = k + 1
    · rw [h]
    · have hlk : l ≤ k := by omega
      rw [neighborLevels_succ dm useVertices p k (le_trans hl hlk)]
      exact (ih hlk).trans (subset_expandLevel dm useVertices _)

/-- Once a level adds nothing, no later level does. -/
theorem neighborLevels_stable (dm : DM α) (useVertices : Bool) (p : Int) (l : Nat) (hl : 1 ≤ l)
    (h : neighborLevels dm useVertices p (l + 1) = neighborLevels dm useVertices p l) (k : Nat) :
    neighborLevels dm useVertices p (l + k) = neighborLevels dm useVertices p l := by
  induction k with
  | zero => rfl
  | succ k ih =>
    rw [← Nat.add_assoc, neighborLevels_succ dm useVertices p (l + k) (by omega), ih,
      ← neighborLevels_succ dm useVertices p l hl, h]

/-- Below the first level that holds `n` cells every level is strictly larger than the one
before. -/
theorem neighborLevels_card_lt_succ (dm : DM α) (useVertices : Bool) (p : Int) (n : Int)
    (l L : Nat) (hl : 1 ≤ l) (hlL : l < L)
    (hlow : ((neighborLevels dm useVertices p l).card : Int) < n)
    (hL : n ≤ ((neighborLevels dm useVertices p L).card : Int)) :
    (neighborLevels dm useVertices p l).card < (neighborLevels dm useVertices p (l + 1)).card := by
  by_contra hnot
  have hsub := neighborLevels_mono dm useVertices p l (l + 1) hl (Nat.le_succ l)
  have heq := Finset.eq_of_subset_of_card_le hsub (not_lt.1 hnot)
  have hst := neighborLevels_stable dm useVertices p l hl heq.symm (L - l)
  rw [Nat.add_sub_cancel' hlL.le] at hst
  rw [hst] at hL
  exact absurd hL (not_le.2 hlow)

theorem neighborLevels_card_ge (dm : DM α) (useVertices : Bool) (p : Int) (n : Int) (L : Nat)
    (hL : n ≤ ((neighborLevels dm useVertices p L).card : Int))
    (hleast : ∀ l, 1 ≤ l → l < L → ((neighborLevels dm useVertices p l).card : Int) < n)
    (l : Nat) (hl : 1 ≤ l) (hlL : l ≤ L) :
    l ≤ (neighborLevels dm useVertices p l).card + 1 := by
  induction l with
  | zero => exact Nat.zero_le _
  | succ k ih =>
    by_cases hk : k = 0
    · subst hk
      omega
    · have hk1 : 1 ≤ k := Nat.one_le_iff_ne_zero.2 hk
      have hkL : k < L := hlL
      have := neighborLevels_card_lt_succ dm useVertices p n k L hk1 hkL (hleast k hk1 hkL) hL
      have := ih hk1 hkL.le
      omega

/-- Every cell reachable from `p` through the neighbour relation lies in some neighbour level. -/
theorem reachable_mem_neighborLevels (dm : DM α) (useVertices : Bool) (p c : Int)
    (h : Relation.TransGen (IsNeighbor dm useVertices) p c) :
    ∃ l, 1 ≤ l ∧ c ∈ neighborLevels dm useVertices p l := by
  induction h with
  | single hpc => exact ⟨1, le_refl 1, (mem_neighborSet dm useVertices p _).2 hpc⟩
  | tail _ hbc ih =>
    obtain ⟨l, hl, hb⟩ := ih
    refine ⟨l + 1, by omega, ?_⟩
    rw [neighborLevels_succ dm useVertices p l hl]
    unfold expandLevel
    exact Finset.mem_union_right _
      (Finset.mem_biUnion.2 ⟨_, hb, (mem_neighborSet dm useVertices _ _).2 hbc⟩)

/-- Every cell of a neighbour level is reachable from `p` through the neighbour relation. -/
theorem neighborLevels_reachable (dm : DM α) (useVertices : Bool) (p : Int) (l : Nat) (c : Int)
    (h : c ∈ neighborLevels dm useVertices p l) :
    Relation.TransGen (IsNeighbor dm useVertices) p c := by
  induction l generalizing c with
  | zero => simp [neighborLevels] at h
  | succ k ih =>
    by_cases hk : k = 0
    · subst hk
      exact Relation.TransGen.single ((mem_neighborSet dm useVertices p c).1 h)
    · rw [neighborLevels_succ dm useVertices p k (Nat.one_le_iff_ne_zero.2 hk)] at h
      unfold expandLevel at h
      rcases Finset.mem_union.1 h with h | h
      · exact ih c h
      · obtain ⟨b, hb, hc⟩ := Finset.mem_biUnion.1 h
        exact Relation.TransGen.tail (ih b hb) ((mem_neighborSet dm useVertices b c).1 hc)

/-- Finitely many reachable cells all lie in one neighbour level. -/
theorem reachable_subset_neighborLevels (dm : DM α) (useVertices : Bool) (p : Int)
    (S : Finset Int) (hS : ∀ c ∈ S, Relation.TransGen (IsNeighbor dm useVertices) p c) :
    ∃ L, 1 ≤ L ∧ S ⊆ neighborLevels dm useVertices p L := by
  induction S using Finset.induction_on with
  | empty => exact ⟨1, le_refl 1, Finset.empty_subset _⟩
  | insert hnot ih =>
    rename_i a S
    obtain ⟨L, hL, hsub⟩ := ih (fun c hc => hS c (Finset.mem_insert_of_mem hc))
    obtain ⟨l, hl, ha⟩ :=
      reachable_mem_neighborLevels dm useVertices p a (hS a (Finset.mem_insert_self a S))
    refine ⟨max L l, le_trans hL (le_max_left L l), ?_⟩
    intro c hc
    rcases Finset.mem_insert.1 hc with rfl | hc
    · exact neighborLevels_mono dm useVertices p l _ hl (le_max_right L l) ha
    · exact neighborLevels_mono dm useVertices p L _ hL (le_max_left L l) (hsub hc)

/-! ### The search when the scratch arrays suffice -/

theorem addNeighbors_of_fits (dm : DM α) (maxDist : MaxDist α) (useVertices : Bool)
    (todo list : List Int)
    (h1 : ∀ c ∈ todo, (neighborCandidates dm c maxDist useVertices).length ≤ listCapacity)
    (h2 : list.length +
        (todo.map (fun c => (neighborCandidates dm c maxDist useVertices).toFinset.card)).sum ≤
      listCapacity) :
    addNeighbors dm maxDist useVertices todo list =
      some (list ++ todo.flatMap (fun c =>
        PetscSortRemoveDupsInt (neighborCandidates dm c maxDist useVertices))) := by
  induction todo generalizing list with
  | nil => simp [addNeighbors]
  | cons c todo ih =>
    have hc := h1 c (List.mem_cons_self c todo)
    simp only [List.map_cons, List.sum_cons] at h2
    unfold addNeighbors
    rw [Internal_of_fits dm c maxDist useVertices hc]
    simp only
    have hlen : list.length +
        (PetscSortRemoveDupsInt (neighborCandidates dm c maxDist useVertices)).length ≤
          listCapacity := by
      rw [length_PetscSortRemoveDupsInt]
      omega
    rw [if_pos hlen, ih _ (fun d hd => h1 d (List.mem_cons_of_mem c hd))
      (by rw [List.length_append, length_PetscSortRemoveDupsInt]; omega)]
    simp [List.flatMap_cons, List.append_assoc]

/-- One pass of the `while` body turns the sorted list of a set of cells into the sorted list of
the next neighbour level, provided the scratch array is large enough. -/
theorem addNeighbors_expandLevel (dm : DM α) (useVertices : Bool) (S : Finset Int)
    (h1 : ∀ c ∈ S,
      (neighborCandidates dm c MaxDist.PETSC_MAX_REAL useVertices).length ≤ listCapacity)
    (h2 : S.card + ∑ c in S, (neighborSet dm useVertices c).card ≤ listCapacity) :
    ∃ list2, addNeighbors dm MaxDist.PETSC_MAX_REAL useVertices
        (S.sort (fun a b => a ≤ b)) (S.sort (fun a b => a ≤ b)) = some list2 ∧
      PetscSortRemoveDupsInt list2 = (expandLevel dm useVertices S).sort (fun a b => a ≤ b) := by
  have hsum : ((S.sort (fun a b => a ≤ b)).map (fun c =>
      (neighborCandidates dm c MaxDist.PETSC_MAX_REAL useVertices).toFinset.card)).sum =
      ∑ c in S, (neighborSet dm useVertices c).card := by
    rw [← List.sum_toFinset _ (Finset.sort_nodup _ S), Finset.sort_toFinset]
    exact Finset.sum_congr rfl (fun c _ => by rw [neighborCandidates_toFinset])
  refine ⟨_, addNeighbors_of_fits dm MaxDist.PETSC_MAX_REAL useVertices _ _
    (fun c hc => h1 c ((Finset.mem_sort _).1 hc))
    (by rw [Finset.length_sort, hsum]; exact h2), ?_⟩
  rw [PetscSortRemoveDupsInt_eq_sort]
  congr 1
  ext d
  simp only [List.toFinset_append, Finset.sort_toFinset, Finset.mem_union, List.mem_toFinset,
    List.mem_flatMap, Finset.mem_sort, mem_PetscSortRemoveDupsInt, expandLevel,
    Finset.mem_biUnion]
  constructor
  · rintro (h | ⟨c, hc, hd⟩)
    · exact Or.inl h
    · refine Or.inr ⟨c, hc, ?_⟩
      rw [← neighborCandidates_toFinset, List.mem_toFinset]
      exact hd
  · rintro (h | ⟨c, hc, hd⟩)
    · exact Or.inl h
    · refine Or.inr ⟨c, hc, ?_⟩
      rw [← neighborCandidates_toFinset, List.mem_toFinset] at hd
      exact hd

/-- Started on level `l`, the `while` loop stops on the first level `L` that holds
`minNumberCells` cells, provided `levels - l` leaves room for the `L - l` passes and no pass
overruns the scratch array. -/
theorem levelLoop_reaches (dm : DM α) (useVertices : Bool) (p : Int) (minNumberCells : Int)
    (L : Nat)
    (hL : minNumberCells ≤ ((neighborLevels dm useVertices p L).card : Int))
    (hleast : ∀ l, 1 ≤ l → l < L →
      ((neighborLevels dm useVertices p l).card : Int) < minNumberCells)
    (hfit : ∀ l, 1 ≤ l → l < L →
      (∀ c ∈ neighborLevels dm useVertices p l,
        (neighborCandidates dm c MaxDist.PETSC_MAX_REAL useVertices).length ≤ listCapacity) ∧
      (neighborLevels dm useVertices p l).card +
        ∑ c in neighborLevels dm useVertices p l, (neighborSet dm useVertices c).card ≤
          listCapacity)
    (k l remaining : Nat) (hl : 1 ≤ l) (hk : l + k = L) (hrem : k ≤ remaining) :
    levelLoop dm MaxDist.PETSC_MAX_REAL useVertices minNumberCells remaining
        ((neighborLevels dm useVertices p l).sort (fun a b => a ≤ b)) =
      some ((neighborLevels dm useVertices p L).sort (fun a b => a ≤ b)) := by
  induction k generalizing l remaining with
  | zero =>
    have hlL : l = L := by omega
    subst hlL
    cases remaining with
    | zero => rfl
    | succ r =>
      unfold levelLoop
      rw [Finset.length_sort, if_neg (not_lt.2 hL)]
  | succ k ih =>
    have hlL : l < L := by omega
    obtain ⟨r, rfl⟩ : ∃ r, remaining = r + 1 := ⟨remaining - 1, by omega⟩
    obtain ⟨list2, hadd, hsort⟩ := addNeighbors_expandLevel dm useVertices
      (neighborLevels dm useVertices p l) (hfit l hl hlL).1 (hfit l hl hlL).2
    unfold levelLoop
    rw [Finset.length_sort, if_pos (hleast l hl hlL), hadd]
    simp only
    rw [hsort, ← neighborLevels_succ dm useVertices p l hl]
    exact ih (l + 1) r (by omega) (by omega) (by omega)

/-- C9: when `levels > 0` or `minNumberCells > 0`, the cell list returned by
`DMPlexGetNeighborCells` is strictly ascending (sorted, no cell id twice), `nCells` equals its
length, and every entry is a cell of the mesh (`cStart <= id < cEnd`). -/
theorem neighborCells_strictly_ascending_cells (dm : DM α) (p levels : Int) (maxDist : α)
    (minNumberCells : Int) (useVertices : Bool) (out0 out : NeighborCells)
    (hsel : levels > 0 ∨ minNumberCells > 0)
    (h : DMPlexGetNeighborCells dm p levels maxDist minNumberCells useVertices out0 = some out) :
    out.cells.Sorted (fun a b => a < b) ∧ out.nCells = out.cells.length ∧
      ∀ c ∈ out.cells, (dm.heightStratum 0).1 ≤ c ∧ c < (dm.heightStratum 0).2 := by
  unfold DMPlexGetNeighborCells at h
  rw [if_pos hsel] at h
  cases hI : DMPlexGetNeighborCells_Internal dm p (maxDistUsed maxDist minNumberCells)
      useVertices with
  | none => rw [hI] at h; exact absurd h (by simp)
  | some list =>
    simp only [hI] at h
    cases hL : levelLoop dm (maxDistUsed maxDist minNumberCells) useVertices
        (minNumberCellsUsed minNumberCells)
        (levelsUsed levels minNumberCells - 1).toNat list with
    | none => rw [hL] at h; exact absurd h (by simp)
    | some list2 =>
      simp only [hL, Option.some.injEq] at h
      subst h
      have hlist := (Internal_eq_some dm p _ useVertices list hI).2
      have hinv := levelLoop_invariant dm _ useVertices _ _ list list2
        (by rw [hlist]; exact PetscSortRemoveDupsInt_sorted _)
        (by
          intro c hc
          rw [hlist, mem_PetscSortRemoveDupsInt] at hc
          exact neighborCandidates_isCell dm p _ useVertices c hc) hL
      exact ⟨hinv.1, rfl, hinv.2⟩

/-- C9 on the 10 by 10 box mesh of the unit test `2DQuadVert` (centre cell 25, 25 cells asked
for, vertex neighbours). -/
theorem neighborCells_strictly_ascending_cells_witness :
    ([3, 4, 5, 6, 7, 13, 14, 15, 16, 17, 23, 24, 25, 26, 27, 33, 34, 35, 36, 37, 43, 44, 45, 46,
        47] : List Int).Sorted (fun a b => a < b) ∧
    (25 : Int) = ([3, 4, 5, 6, 7, 13, 14, 15, 16, 17, 23, 24, 25, 26, 27, 33, 34, 35, 36, 37, 43,
        44, 45, 46, 47] : List Int).length ∧
    ∀ c ∈ ([3, 4, 5, 6, 7, 13, 14, 15, 16, 17, 23, 24, 25, 26, 27, 33, 34, 35, 36, 37, 43, 44, 45,
        46, 47] : List Int),
      ((quadMesh 10 10).heightStratum 0).1 ≤ c ∧ c < ((quadMesh 10 10).heightStratum 0).2 :=
  neighborCells_strictly_ascending_cells (quadMesh 10 10) 25 (-1) (-1) 25 true ⟨0, []⟩
    ⟨25, [3, 4, 5, 6, 7, 13, 14, 15, 16, 17, 23, 24, 25, 26, 27, 33, 34, 35, 36, 37, 43, 44, 45,
      46, 47]⟩ (Or.inr (by decide)) (by decide)

/-! ### The fan mesh -/

theorem length_le_length_flatMap {β γ : Type} (l : List β) (f : β → List γ) (q : β)
    (hq : q ∈ l) : (f q).length ≤ (l.flatMap f).length := by
  induction l with
  | nil => simp at hq
  | cons a l ih =>
    rw [List.flatMap_cons, List.length_append]
    rcases List.mem_cons.1 hq with rfl | h
    · omega
    · have := ih h
      omega

theorem fanMesh_star_hub (n : Nat) :
    (fanMesh n).star n =
      ((n : Int) :: (List.range n).map (fun i => ((2 * n + 1 + i % n : Nat) : Int))) ++
        (List.range n).map (fun (i : Nat) => (i : Int)) := by
  simp [fanMesh]

theorem fanMesh_hub_mem_closure (n : Nat) (hn : 0 < n) : (n : Int) ∈ (fanMesh n).closure 0 := by
  have h0 : (0 : Int) ≤ 0 ∧ (0 : Int) < n := ⟨le_refl 0, by exact_mod_cast hn⟩
  simp [fanMesh, hn]

/-- In the fan every cell is a neighbour (through the hub) of cell `0`. -/
theorem fanMesh_isNeighbor (n : Nat) (i : Nat) (hi : i < n) :
    IsNeighbor (fanMesh n) true 0 (i : Int) := by
  have hn : 0 < n := lt_of_le_of_lt (Nat.zero_le i) hi
  refine ⟨⟨?_, ?_⟩, (n : Int), ⟨?_, ?_⟩, fanMesh_hub_mem_closure n hn, ?_⟩
  · simp [fanMesh]
  · simp only [fanMesh, if_true]
    exact_mod_cast hi
  · simp [sharedStratum, fanMesh]
  · simp only [sharedStratum, fanMesh, if_true]
    omega
  · rw [fanMesh_star_hub]
    exact List.mem_append_right _ (List.mem_map.2 ⟨i, List.mem_range.2 hi, rfl⟩)

/-- In the fan the internal routine finds at least `n` candidates around cell `0`. -/
theorem fanMesh_candidates_length (n : Nat) (hn : 0 < n) :
    n ≤ (neighborCandidates (fanMesh n) 0 MaxDist.PETSC_MAX_REAL true).length := by
  unfold neighborCandidates
  refine le_trans ?_ (length_le_length_flatMap _ _ (n : Int) ?_)
  · rw [fanMesh_star_hub, List.filter_append, List.length_append]
    have hall : ((List.range n).map (fun (i : Nat) => (i : Int))).filter (fun st =>
        decide (st ≥ ((fanMesh n).heightStratum 0).1 ∧ st < ((fanMesh n).heightStratum 0).2) &&
          sqrtLE (centroidDist2 (fanMesh n).dim ((fanMesh n).centroid 0)
            ((fanMesh n).centroid st)) MaxDist.PETSC_MAX_REAL) =
        (List.range n).map (fun (i : Nat) => (i : Int)) := by
      apply List.filter_eq_self.2
      intro c hc
      obtain ⟨i, hi, rfl⟩ := List.mem_map.1 hc
      have hi2 : i < n := List.mem_range.1 hi
      simp [fanMesh, sqrtLE, hi2]
    rw [hall, List.length_map, List.length_range]
    omega
  · rw [List.mem_filter]
    refine ⟨fanMesh_hub_mem_closure n hn, ?_⟩
    simp only [fanMesh, if_true, decide_eq_true_eq]
    omega

/-- C10 (refutation): in a fan of 10001 triangles around one vertex all 10001 cells are
neighbours of cell 0, yet `DMPlexGetNeighborCells` asked for 10001 cells returns no list: the
10001 candidates do not fit the scratch array `list[10000]`. -/
theorem minNumberCells_overruns_scratch_list :
    (∃ S : Finset Int,
      (∀ c ∈ S, Relation.TransGen (IsNeighbor (fanMesh 10001) true) 0 c) ∧
      (10001 : Int) ≤ S.card) ∧
    DMPlexGetNeighborCells (fanMesh 10001) 0 (-1) (-1) 10001 true ⟨0, []⟩ = none := by
  constructor
  · refine ⟨(Finset.range 10001).image (fun i : Nat => (i : Int)), ?_, ?_⟩
    · intro c hc
      obtain ⟨i, hi, rfl⟩ := Finset.mem_image.1 hc
      exact Relation.TransGen.single (fanMesh_isNeighbor 10001 i (Finset.mem_range.1 hi))
    · rw [Finset.card_image_of_injective _ Nat.cast_injective, Finset.card_range]
      norm_num
  · have hlen : ¬ (neighborCandidates (fanMesh 10001) 0 MaxDist.PETSC_MAX_REAL true).length ≤
        listCapacity := by
      have := fanMesh_candidates_length 10001 (by norm_num)
      unfold listCapacity
      omega
    unfold DMPlexGetNeighborCells
    rw [if_pos (Or.inr (by decide))]
    have hmd : maxDistUsed (-1 : ℚ) 10001 = MaxDist.PETSC_MAX_REAL := by
      simp [maxDistUsed]
    rw [hmd]
    unfold DMPlexGetNeighborCells_Internal
    simp only [hlen, if_false]

/-- C10 (amended): with `minNumberCells > 0`, a centre cell `p` from which at least
`minNumberCells` cells are reachable through the neighbour relation, and scratch arrays that
suffice (cell `p` and every cell of a level that still holds fewer than `minNumberCells` cells
have at most 10000 candidate entries, and for each such level the number of its cells plus the
sum of their neighbour counts is at most 10000), `DMPlexGetNeighborCells` returns a list of at
least `minNumberCells` cells, namely the cells of the smallest number `L >= 1` of neighbour
levels around `p` that reaches that count. -/
theorem minNumberCells_returns_smallest_level (dm : DM α) (p levels : Int) (maxDist : α)
    (minNumberCells : Int) (useVertices : Bool) (out0 : NeighborCells)
    (hmin : 0 < minNumberCells)
    (hreach : ∃ S : Finset Int,
      (∀ c ∈ S, Relation.TransGen (IsNeighbor dm useVertices) p c) ∧
      minNumberCells ≤ (S.card : Int))
    (hfitP : (neighborCandidates dm p MaxDist.PETSC_MAX_REAL useVertices).length ≤ 10000)
    (hfit : ∀ l, 1 ≤ l →
      ((neighborLevels dm useVertices p l).card : Int) < minNumberCells →
      (∀ c ∈ neighborLevels dm useVertices p l,
        (neighborCandidates dm c MaxDist.PETSC_MAX_REAL useVertices).length ≤ 10000) ∧
      (neighborLevels dm useVertices p l).card +
        ∑ c in neighborLevels dm useVertices p l, (neighborSet dm useVertices c).card ≤
          10000) :
    ∃ out L,
      DMPlexGetNeighborCells dm p levels maxDist minNumberCells useVertices out0 = some out ∧
      minNumberCells ≤ out.nCells ∧
      out.nCells = out.cells.length ∧
      1 ≤ L ∧
      out.cells = (neighborLevels dm useVertices p L).sort (fun a b => a ≤ b) ∧
      ∀ l, 1 ≤ l → l < L →
        ((neighborLevels dm useVertices p l).card : Int) < minNumberCells := by
  obtain ⟨S, hS, hcard⟩ := hreach
  obtain ⟨L0, hL0, hsub⟩ := reachable_subset_neighborLevels dm useVertices p S hS
  have hex : ∃ L, 1 ≤ L ∧ minNumberCells ≤ ((neighborLevels dm useVertices p L).card : Int) :=
    ⟨L0, hL0, le_trans hcard (by exact_mod_cast Finset.card_le_card hsub)⟩
  classical
  have hL := Nat.find_spec hex
  have hleast : ∀ l, 1 ≤ l → l < Nat.find hex →
      ((neighborLevels dm useVertices p l).card : Int) < minNumberCells := by
    intro l hl hlt
    have := Nat.find_min hex hlt
    rw [not_and] at this
    exact not_le.1 (this hl)
  have hfit2 : ∀ l, 1 ≤ l → l < Nat.find hex →
      (∀ c ∈ neighborLevels dm useVertices p l,
        (neighborCandidates dm c MaxDist.PETSC_MAX_REAL useVertices).length ≤ listCapacity) ∧
      (neighborLevels dm useVertices p l).card +
        ∑ c in neighborLevels dm useVertices p l, (neighborSet dm useVertices c).card ≤
          listCapacity := fun l hl hlt => hfit l hl (hleast l hl hlt)
  have hbound : Nat.find hex - 1 ≤ (PETSC_MAX_INT - 1).toNat := by
    have hfuel : (PETSC_MAX_INT - 1).toNat = 2147483646 := by decide
    rw [hfuel]
    by_cases h1 : Nat.find hex = 1
    · omega
    · have hl : 1 ≤ Nat.find hex - 1 := by omega
      have hlt : Nat.find hex - 1 < Nat.find hex := by omega
      have hge := neighborLevels_card_ge dm useVertices p minNumberCells (Nat.find hex) hL.2
        hleast (Nat.find hex - 1) hl hlt.le
      have hcap := (hfit2 (Nat.find hex - 1) hl hlt).2
      unfold listCapacity at hcap
      omega
  have hloop := levelLoop_reaches dm useVertices p minNumberCells (Nat.find hex) hL.2 hleast
    hfit2 (Nat.find hex - 1) 1 (PETSC_MAX_INT - 1).toNat (le_refl 1) (by omega) hbound
  have hmd : maxDistUsed maxDist minNumberCells = MaxDist.PETSC_MAX_REAL := by
    unfold maxDistUsed
    rw [if_pos hmin]
  have hmn : minNumberCellsUsed minNumberCells = minNumberCells := by
    unfold minNumberCellsUsed
    rw [if_pos hmin]
  have hlv : levelsUsed levels minNumberCells = PETSC_MAX_INT := by
    unfold levelsUsed
    rw [if_pos hmin]
  have hint : DMPlexGetNeighborCells_Internal dm p MaxDist.PETSC_MAX_REAL useVertices =
      some ((neighborLevels dm useVertices p 1).sort (fun a b => a ≤ b)) := by
    rw [Internal_of_fits dm p MaxDist.PETSC_MAX_REAL useVertices hfitP,
      PetscSortRemoveDupsInt_eq_sort, neighborCandidates_toFinset]
    rfl
  refine ⟨NeighborCells.mk
      (((neighborLevels dm useVertices p (Nat.find hex)).sort (fun a b => a ≤ b)).length)
      ((neighborLevels dm useVertices p (Nat.find hex)).sort (fun a b => a ≤ b)),
    Nat.find hex, ?_, ?_, rfl, hL.1, rfl, hleast⟩
  · unfold DMPlexGetNeighborCells
    rw [if_pos (Or.inr hmin), hmd, hmn, hlv, hint]
    simp only [hloop]
  · simp only [Finset.length_sort]
    exact hL.2

/-- Two neighbour levels around cell 25 of the 10 by 10 box mesh hold 25 cells. -/
theorem quadMesh_level2_card : (neighborLevels (quadMesh 10 10) true 25 2).card = 25 := by
  decide!

/-- One neighbour level around cell 25 of the 10 by 10 box mesh fits the scratch arrays. -/
theorem quadMesh_level1_fits :
    (∀ c ∈ neighborLevels (quadMesh 10 10) true 25 1,
      (neighborCandidates (quadMesh 10 10) c MaxDist.PETSC_MAX_REAL true).length ≤ 10000) ∧
    (neighborLevels (quadMesh 10 10) true 25 1).card +
      ∑ c in neighborLevels (quadMesh 10 10) true 25 1,
        (neighborSet (quadMesh 10 10) true c).card ≤ 10000 := by
  decide!

/-- The unit test `2DQuadVert`: 25 cells asked for around the interior cell 25 of the 10 by 10 box
mesh with vertex neighbours gives the 25 cells of two neighbour levels. -/
theorem minNumberCells_returns_smallest_level_witness :
    ∃ out L,
      DMPlexGetNeighborCells (quadMesh 10 10) 25 (-1) (-1) 25 true ⟨0, []⟩ = some out ∧
      (25 : Int) ≤ out.nCells ∧
      out.nCells = out.cells.length ∧
      1 ≤ L ∧
      out.cells = (neighborLevels (quadMesh 10 10) true 25 L).sort (fun a b => a ≤ b) ∧
      ∀ l, 1 ≤ l → l < L →
        ((neighborLevels (quadMesh 10 10) true 25 l).card : Int) < 25 :=
  by
  have hreach : ∃ S : Finset Int,
      (∀ c ∈ S, Relation.TransGen (IsNeighbor (quadMesh 10 10) true) 25 c) ∧
      (25 : Int) ≤ (S.card : Int) := by
    refine ⟨neighborLevels (quadMesh 10 10) true 25 2,
      neighborLevels_reachable (quadMesh 10 10) true 25 2, ?_⟩
    rw [quadMesh_level2_card]
    decide
  have hfitP : (neighborCandidates (quadMesh 10 10) 25 MaxDist.PETSC_MAX_REAL true).length ≤
      10000 := by decide!
  have hfit : ∀ l, 1 ≤ l →
      ((neighborLevels (quadMesh 10 10) true 25 l).card : Int) < 25 →
      (∀ c ∈ neighborLevels (quadMesh 10 10) true 25 l,
        (neighborCandidates (quadMesh 10 10) c MaxDist.PETSC_MAX_REAL true).length ≤ 10000) ∧
      (neighborLevels (quadMesh 10 10) true 25 l).card +
        ∑ c in neighborLevels (quadMesh 10 10) true 25 l,
          (neighborSet (quadMesh 10 10) true c).card ≤ 10000 := by
    intro l hl hlt
    have hl1 : l = 1 := by
      by_contra hne
      have hsub := neighborLevels_mono (quadMesh 10 10) true 25 2 l (by decide) (by omega)
      have hc := Finset.card_le_card hsub
      rw [quadMesh_level2_card] at hc
      omega
    subst hl1
    exact quadMesh_level1_fits
  exact minNumberCells_returns_smallest_level (quadMesh 10 10) 25 (-1) (-1) 25 true ⟨0, []⟩
    (by decide) hreach hfitP hfit

/-! ### Searching a given number of levels -/

theorem hopsFrom_zero (dm : DM α) (useVertices : Bool) (p c : Int)
    (h : HopsFrom dm useVertices p 0 c) : c = p := by
  cases h
  rfl

/-- A cell reached in `n >= 1` hops lies in the `n`-th neighbour level. -/
theorem hopsFrom_mem_neighborLevels (dm : DM α) (useVertices : Bool) (p : Int) (n : Nat)
    (c : Int) (hn : 1 ≤ n) (h : HopsFrom dm useVertices p n c) :
    c ∈ neighborLevels dm useVertices p n := by
  induction n generalizing c with
  | zero => exact absurd hn (by decide)
  | succ k ih =>
    cases h with
    | step hb hbc =>
      by_cases hk : k = 0
      · subst hk
        rw [hopsFrom_zero dm useVertices p _ hb] at hbc
        exact (mem_neighborSet dm useVertices p c).2 hbc
      · have hk1 : 1 ≤ k := Nat.one_le_iff_ne_zero.2 hk
        rw [neighborLevels_succ dm useVertices p k hk1]
        unfold expandLevel
        exact Finset.mem_union_right _
          (Finset.mem_biUnion.2 ⟨_, ih _ hk1 hb, (mem_neighborSet dm useVertices _ _).2 hbc⟩)

/-- Every cell of the `l`-th neighbour level is reached in between `1` and `l` hops. -/
theorem neighborLevels_hopsFrom (dm : DM α) (useVertices : Bool) (p : Int) (l : Nat) (c : Int)
    (h : c ∈ neighborLevels dm useVertices p l) :
    ∃ n, 1 ≤ n ∧ n ≤ l ∧ HopsFrom dm useVertices p n c := by
  induction l generalizing c with
  | zero => simp [neighborLevels] at h
  | succ k ih =>
    by_cases hk : k = 0
    · subst hk
      exact ⟨1, le_refl 1, le_refl 1,
        HopsFrom.step HopsFrom.zero ((mem_neighborSet dm useVertices p c).1 h)⟩
    · rw [neighborLevels_succ dm useVertices p k (Nat.one_le_iff_ne_zero.2 hk)] at h
      unfold expandLevel at h
      rcases Finset.mem_union.1 h with h | h
      · obtain ⟨n, h1, h2, h3⟩ := ih c h
        exact ⟨n, h1, by omega, h3⟩
      · obtain ⟨b, hb, hc⟩ := Finset.mem_biUnion.1 h
        obtain ⟨n, h1, h2, h3⟩ := ih b hb
        exact ⟨n + 1, by omega, by omega,
          HopsFrom.step h3 ((mem_neighborSet dm useVertices b c).1 hc)⟩

/-- When `p` is its own neighbour, the `L`-th neighbour level is the set of cells at hop distance
at most `L` from `p`. -/
theorem mem_neighborLevels_iff_hops (dm : DM α) (useVertices : Bool) (p : Int) (L : Nat)
    (hL : 1 ≤ L) (hp : IsNeighbor dm useVertices p p) (c : Int) :
    c ∈ neighborLevels dm useVertices p L ↔ ∃ n, n ≤ L ∧ HopsFrom dm useVertices p n c := by
  constructor
  · intro h
    obtain ⟨n, -, h2, h3⟩ := neighborLevels_hopsFrom dm useVertices p L c h
    exact ⟨n, h2, h3⟩
  · rintro ⟨n, hn, h⟩
    by_cases h0 : n = 0
    · subst h0
      rw [hopsFrom_zero dm useVertices p c h]
      exact neighborLevels_mono dm useVertices p 1 L (le_refl 1) hL
        ((mem_neighborSet dm useVertices p p).2 hp)
    · have hn1 : 1 ≤ n := Nat.one_le_iff_ne_zero.2 h0
      exact neighborLevels_mono dm useVertices p n L hn1 hn
        (hopsFrom_mem_neighborLevels dm useVertices p n c hn1 h)

/-- `k` passes of the `while` loop started on level `l` end on level `l + k`, provided no pass
overruns the scratch array and the cell count stays below `minNumberCells`. -/
theorem levelLoop_levels (dm : DM α) (useVertices : Bool) (p : Int) (minNumberCells : Int)
    (k l : Nat) (hl : 1 ≤ l)
    (hfit : ∀ j, l ≤ j → j < l + k →
      ((neighborLevels dm useVertices p j).card : Int) < minNumberCells ∧
      (∀ c ∈ neighborLevels dm useVertices p j,
        (neighborCandidates dm c MaxDist.PETSC_MAX_REAL useVertices).length ≤ listCapacity) ∧
      (neighborLevels dm useVertices p j).card +
        ∑ c in neighborLevels dm useVertices p j, (neighborSet dm useVertices c).card ≤
          listCapacity) :
    levelLoop dm MaxDist.PETSC_MAX_REAL useVertices minNumberCells k
        ((neighborLevels dm useVertices p l).sort (fun a b => a ≤ b)) =
      some ((neighborLevels dm useVertices p (l + k)).sort (fun a b => a ≤ b)) := by
  induction k generalizing l with
  | zero => rfl
  | succ k ih =>
    obtain ⟨hlt, hf1, hf2⟩ := hfit l (le_refl l) (by omega)
    obtain ⟨list2, hadd, hsort⟩ := addNeighbors_expandLevel dm useVertices
      (neighborLevels dm useVertices p l) hf1 hf2
    unfold levelLoop
    rw [Finset.length_sort, if_pos hlt, hadd]
    simp only
    rw [hsort, ← neighborLevels_succ dm useVertices p l hl,
      ih (l + 1) (by omega) (fun j h1 h2 => hfit j (by omega) (by omega))]
    congr 3
    omega

/-- C11 (refutation): in a fan of 10001 triangles around one vertex every one of the 10001 cells
is one hop from cell 0, yet `DMPlexGetNeighborCells` with `levels = 1`, `maxDist = -1` and
`minNumberCells = -1` returns no list: the candidates overrun the scratch array `list[10000]`. -/
theorem levels_overruns_scratch_list :
    (∀ i : Nat, i < 10001 → HopsFrom (fanMesh 10001) true 0 1 (i : Int)) ∧
    DMPlexGetNeighborCells (fanMesh 10001) 0 1 (-1) (-1) true ⟨0, []⟩ = none := by
  constructor
  · intro i hi
    exact HopsFrom.step HopsFrom.zero (fanMesh_isNeighbor 10001 i hi)
  · have hlen : ¬ (neighborCandidates (fanMesh 10001) 0 MaxDist.PETSC_MAX_REAL true).length ≤
        listCapacity := by
      have := fanMesh_candidates_length 10001 (by norm_num)
      unfold listCapacity
      omega
    unfold DMPlexGetNeighborCells
    rw [if_pos (Or.inl (by decide))]
    have hmd : maxDistUsed (-1 : ℚ) (-1) = MaxDist.PETSC_MAX_REAL := by
      simp [maxDistUsed]
    rw [hmd]
    unfold DMPlexGetNeighborCells_Internal
    simp only [hlen, if_false]

/-- C11 (amended): with `levels = L >= 1`, `maxDist < 0` and `minNumberCells <= 0`, a centre cell
`p` of the mesh (a neighbour of itself through its own vertices or faces) and scratch arrays
that suffice (cell `p` and every cell of the levels `1 .. L-1` have at most 10000 candidate
entries, and for each of these levels the number of its cells plus the sum of their neighbour
counts is at most 10000), `DMPlexGetNeighborCells` returns the strictly ascending list of
exactly the cells whose hop distance from `p` is at most `L`, `p` itself included. -/
theorem levels_returns_cells_within_hops (dm : DM α) (p : Int) (L : Nat) (maxDist : α)
    (minNumberCells : Int) (useVertices : Bool) (out0 : NeighborCells)
    (hL : 1 ≤ L) (hmd : maxDist < 0) (hmin : minNumberCells ≤ 0)
    (hp : IsNeighbor dm useVertices p p)
    (hfitP : (neighborCandidates dm p MaxDist.PETSC_MAX_REAL useVertices).length ≤ 10000)
    (hfit : ∀ l, 1 ≤ l → l < L →
      (∀ c ∈ neighborLevels dm useVertices p l,
        (neighborCandidates dm c MaxDist.PETSC_MAX_REAL useVertices).length ≤ 10000) ∧
      (neighborLevels dm useVertices p l).card +
        ∑ c in neighborLevels dm useVertices p l, (neighborSet dm useVertices c).card ≤
          10000) :
    ∃ out,
      DMPlexGetNeighborCells dm p (L : Int) maxDist minNumberCells useVertices out0 = some out ∧
      out.cells.Sorted (fun a b => a < b) ∧
      out.nCells = out.cells.length ∧
      (∀ c, c ∈ out.cells ↔ ∃ n, n ≤ L ∧ HopsFrom dm useVertices p n c) ∧
      p ∈ out.cells := by
  have hnmin : ¬ minNumberCells > 0 := not_lt.2 hmin
  have hmdU : maxDistUsed maxDist minNumberCells = MaxDist.PETSC_MAX_REAL := by
    unfold maxDistUsed
    rw [if_neg hnmin, if_pos hmd]
  have hmn : minNumberCellsUsed minNumberCells = PETSC_MAX_INT := by
    unfold minNumberCellsUsed
    rw [if_neg hnmin]
  have hlv : levelsUsed (L : Int) minNumberCells = (L : Int) := by
    unfold levelsUsed
    rw [if_neg hnmin]
  have hfuel : ((L : Int) - 1).toNat = L - 1 := by omega
  have hint : DMPlexGetNeighborCells_Internal dm p MaxDist.PETSC_MAX_REAL useVertices =
      some ((neighborLevels dm useVertices p 1).sort (fun a b => a ≤ b)) := by
    rw [Internal_of_fits dm p MaxDist.PETSC_MAX_REAL useVertices hfitP,
      PetscSortRemoveDupsInt_eq_sort, neighborCandidates_toFinset]
    rfl
  have hloop := levelLoop_levels dm useVertices p PETSC_MAX_INT (L - 1) 1 (le_refl 1)
    (fun j h1 h2 => by
      obtain ⟨hf1, hf2⟩ := hfit j h1 (by omega)
      refine ⟨?_, hf1, hf2⟩
      have hcap : (neighborLevels dm useVertices p j).card ≤ 10000 := by omega
      have hmax : PETSC_MAX_INT = 2147483647 := rfl
      rw [hmax]
      omega)
  have hL1 : 1 + (L - 1) = L := by omega
  rw [hL1] at hloop
  have hmem : ∀ c, c ∈ (neighborLevels dm useVertices p L).sort (fun a b => a ≤ b) ↔
      ∃ n, n ≤ L ∧ HopsFrom dm useVertices p n c := fun c => by
    rw [Finset.mem_sort]
    exact mem_neighborLevels_iff_hops dm useVertices p L hL hp c
  refine ⟨NeighborCells.mk
      (((neighborLevels dm useVertices p L).sort (fun a b => a ≤ b)).length)
      ((neighborLevels dm useVertices p L).sort (fun a b => a ≤ b)), ?_, ?_, rfl, hmem,
    (hmem p).2 ⟨0, Nat.zero_le L, HopsFrom.zero⟩⟩
  · unfold DMPlexGetNeighborCells
    rw [if_pos (Or.inl (by omega)), hmdU, hmn, hlv, hint, hfuel]
    simp only [hloop]
  · exact (Finset.sort_sorted (fun a b : Int => a ≤ b) _).lt_of_le (Finset.sort_nodup _ _)

/-- Cell 55 of the 10 by 10 box mesh is its own neighbour through its vertices. -/
theorem quadMesh_55_isNeighbor_self : IsNeighbor (quadMesh 10 10) true 55 55 := by
  rw [← mem_neighborSet]
  decide!

/-- One neighbour level around cell 55 of the 10 by 10 box mesh fits the scratch arrays. -/
theorem quadMesh_55_level1_fits :
    (∀ c ∈ neighborLevels (quadMesh 10 10) true 55 1,
      (neighborCandidates (quadMesh 10 10) c MaxDist.PETSC_MAX_REAL true).length ≤ 10000) ∧
    (neighborLevels (quadMesh 10 10) true 55 1).card +
      ∑ c in neighborLevels (quadMesh 10 10) true 55 1,
        (neighborSet (quadMesh 10 10) true c).card ≤ 10000 := by
  decide!

/-- The unit test `2DQuadLevelVert`: two levels of vertex neighbours around cell 55 of the
10 by 10 box mesh. -/
theorem levels_returns_cells_within_hops_witness :
    ∃ out,
      DMPlexGetNeighborCells (quadMesh 10 10) 55 ((2 : Nat) : Int) (-1) (-1) true ⟨0, []⟩ =
        some out ∧
      out.cells.Sorted (fun a b => a < b) ∧
      out.nCells = out.cells.length ∧
      (∀ c, c ∈ out.cells ↔ ∃ n, n ≤ 2 ∧ HopsFrom (quadMesh 10 10) true 55 n c) ∧
      (55 : Int) ∈ out.cells := by
  have hfit : ∀ l, 1 ≤ l → l < 2 →
      (∀ c ∈ neighborLevels (quadMesh 10 10) true 55 l,
        (neighborCandidates (quadMesh 10 10) c MaxDist.PETSC_MAX_REAL true).length ≤ 10000) ∧
      (neighborLevels (quadMesh 10 10) true 55 l).card +
        ∑ c in neighborLevels (quadMesh 10 10) true 55 l,
          (neighborSet (quadMesh 10 10) true c).card ≤ 10000 := by
    intro l h1 h2
    have hl1 : l = 1 := by omega
    subst hl1
    exact quadMesh_55_level1_fits
  exact levels_returns_cells_within_hops (quadMesh 10 10) 55 2 (-1) (-1) true ⟨0, []⟩
    (by decide) (by decide) (by decide) quadMesh_55_isNeighbor_self (by decide!) hfit

/-! ### Calls outside the documented use -/

/-- With neither `levels > 0` nor `minNumberCells > 0` the body of `DMPlexGetNeighborCells` is
skipped: `*nCells` and `*cells` are left as they were, whatever `maxDist` is. -/
theorem DMPlexGetNeighborCells_no_selection (dm : DM α) (p levels : Int) (maxDist : α)
    (minNumberCells : Int) (useVertices : Bool) (out0 : NeighborCells)
    (hl : levels ≤ 0) (hm : minNumberCells ≤ 0) :
    DMPlexGetNeighborCells dm p levels maxDist minNumberCells useVertices out0 = some out0 := by
  unfold DMPlexGetNeighborCells
  rw [if_neg]
  rintro (h | h) <;> omega

/-- C12 (evaluation at the failing input): the unit test `2DQuadDistanceEdge` (cell 55 of the
10 by 10 unit-square box mesh, `levels = -1`, `maxDist = 0.28`, `minNumberCells = -1`) leaves
`*nCells` and `*cells` untouched, although 21 cells have their centre within 0.28 of the centre
of cell 55. -/
theorem maxDist_only_leaves_outputs_untouched :
    DMPlexGetNeighborCells (quadMesh 10 10) 55 (-1) (28 / 100) (-1) false ⟨0, []⟩ =
      some ⟨0, []⟩ ∧
    ((List.range 100).map (fun (i : Nat) => (i : Int))).filter (fun c =>
      sqrtLE (centroidDist2 (quadMesh 10 10).dim ((quadMesh 10 10).centroid 55)
        ((quadMesh 10 10).centroid c)) (MaxDist.real (28 / 100))) =
      [34, 35, 36, 43, 44, 45, 46, 47, 53, 54, 55, 56, 57, 63, 64, 65, 66, 67, 74, 75, 76] := by
  constructor
  · exact DMPlexGetNeighborCells_no_selection _ _ _ _ _ _ _ (by decide) (by decide)
  · decide!

/-- C13 (evaluation at the failing input): the call of the unit test
`ShouldThrowErrorForTooManyInputs` (2 by 2 box mesh, cell 0, `levels = 1`, `maxDist = 1.0`,
`minNumberCells = 1`) returns error code `0` and the four cells of the mesh. -/
theorem too_many_inputs_returns_success :
    DMPlexGetNeighborCells_ierr (quadMesh 2 2) 0 1 1 1 true ⟨0, []⟩ = some 0 ∧
    DMPlexGetNeighborCells (quadMesh 2 2) 0 1 1 1 true ⟨0, []⟩ = some ⟨4, [0, 1, 2, 3]⟩ := by
  decide!

/-- C14 (evaluation at the failing input): on the 10 by 10 unit-square box mesh, two levels of
edge neighbours around cell 55 with `maxDist = 0.15` return 13 cells, among them cell 35, whose
centre is at distance 0.2 from the centre of cell 55. -/
theorem maxDist_measured_from_expanded_cell :
    DMPlexGetNeighborCells (quadMesh 10 10) 55 2 (15 / 100) (-1) false ⟨0, []⟩ =
      some ⟨13, [35, 44, 45, 46, 53, 54, 55, 56, 57, 64, 65, 66, 75]⟩ ∧
    centroidDist2 (quadMesh 10 10).dim ((quadMesh 10 10).centroid 55)
      ((quadMesh 10 10).centroid 35) = (2 / 10) * (2 / 10) ∧
    sqrtLE (centroidDist2 (quadMesh 10 10).dim ((quadMesh 10 10).centroid 55)
      ((quadMesh 10 10).centroid 35)) (MaxDist.real (15 / 100)) = false := by
  decide!

end NeighborTheorems


section RBFTheorems

variable {α : Type} [LinearOrderedField α]

/-! ### Loop ranges and running indices -/

theorem mem_loopRange (n i : Int) : i ∈ loopRange n ↔ 0 ≤ i ∧ i < n := by
  unfold loopRange
  rw [List.mem_map]
  constructor
  · rintro ⟨k, hk, rfl⟩
    have := List.mem_range.1 hk
    omega
  · rintro ⟨h0, hn⟩
    exact ⟨i.toNat, List.mem_range.2 (by omega), by omega⟩

theorem length_loopRange (n : Int) : (loopRange n).length = n.toNat := by
  unfold loopRange
  rw [List.length_map, List.length_range]

theorem loopRange_natCast (n : Nat) :
    loopRange (n : Int) = (List.range n).map (fun (i : Nat) => (i : Int)) := by
  unfold loopRange
  rw [Int.toNat_ofNat]

theorem loopRange_of_nonpos (n : Int) (h : n ≤ 0) : loopRange n = [] := by
  unfold loopRange
  have : n.toNat = 0 := by omega
  rw [this]
  rfl

theorem length_withCounter {β : Type} (start : Int) (l : List β) :
    (withCounter start l).length = l.length := by
  induction l generalizing start with
  | nil => rfl
  | cons e l ih => simp [withCounter, ih]

/-- The running index takes the values `start, start+1, ..`, one per iteration. -/
theorem mem_withCounter {β : Type} (start : Int) (l : List β) (j : Int) (e : β) :
    (j, e) ∈ withCounter start l ↔ ∃ k : Nat, j = start + k ∧ l[k]? = some e := by
  induction l generalizing start with
  | nil => simp [withCounter]
  | cons a l ih =>
    simp only [withCounter, List.mem_cons, Prod.mk.injEq, ih]
    constructor
    · rintro (⟨rfl, rfl⟩ | ⟨k, rfl, hk⟩)
      · exact ⟨0, by simp, by simp⟩
      · exact ⟨k + 1, by push_cast; ring, by simpa using hk⟩
    · rintro ⟨k, rfl, hk⟩
      cases k with
      | zero =>
        left
        simp at hk
        exact ⟨by simp, hk.symm⟩
      | succ k =>
        right
        exact ⟨k, by push_cast; ring, by simpa using hk⟩

theorem withCounter_fst_range {β : Type} (start : Int) (l : List β) (je : Int × β)
    (h : je ∈ withCounter start l) : start ≤ je.1 ∧ je.1 < start + l.length := by
  obtain ⟨k, hk, hget⟩ := (mem_withCounter start l je.1 je.2).1 h
  have hlt : k < l.length := by
    by_contra hge
    rw [List.getElem?_eq_none (not_lt.1 hge)] at hget
    exact Option.noConfusion hget
  omega

/-! ### The exponent tuples of the polynomial loops -/

theorem mem_polyExponents2D (p1 px py : Int) :
    (px, py) ∈ polyExponents2D p1 ↔ 0 ≤ px ∧ 0 ≤ py ∧ px + py < p1 := by
  unfold polyExponents2D
  simp only [List.mem_flatMap, List.mem_map, mem_loopRange, Prod.mk.injEq]
  constructor
  · rintro ⟨b, ⟨hb0, hb1⟩, a, ⟨ha0, ha1⟩, rfl, rfl⟩
    omega
  · rintro ⟨h1, h2, h3⟩
    exact ⟨py, ⟨h2, by omega⟩, px, ⟨h1, by omega⟩, rfl, rfl⟩

theorem mem_polyExponents3D (p1 px py pz : Int) :
    (px, py, pz) ∈ polyExponents3D p1 ↔ 0 ≤ px ∧ 0 ≤ py ∧ 0 ≤ pz ∧ px + py + pz < p1 := by
  unfold polyExponents3D
  simp only [List.mem_flatMap, List.mem_map, mem_loopRange, Prod.mk.injEq]
  constructor
  · rintro ⟨c, ⟨hc0, hc1⟩, b, ⟨hb0, hb1⟩, a, ⟨ha0, ha1⟩, rfl, rfl, rfl⟩
    omega
  · rintro ⟨h1, h2, h3, h4⟩
    exact ⟨pz, ⟨h3, by omega⟩, py, ⟨h2, by omega⟩, px, ⟨h1, by omega⟩, rfl, rfl, rfl⟩

theorem sum_map_range (f : Nat → Nat) (n : Nat) :
    ((List.range n).map f).sum = ∑ i in Finset.range n, f i := by
  induction n with
  | zero => simp
  | succ k ih =>
    rw [List.range_succ, List.map_append, List.sum_append, ih, Finset.sum_range_succ]
    simp

/-- Number of iterations of `for (py = 0; py < m; ++py) for (px = 0; px < m-py; ++px)`, written
as a sum over the outer loop. -/
theorem length_polyExponents2D_sum (m : Nat) :
    (polyExponents2D (m : Int)).length = ∑ py in Finset.range m, (m - py) := by
  unfold polyExponents2D
  rw [List.length_flatMap, loopRange_natCast, List.map_map, sum_map_range]
  apply Finset.sum_congr rfl
  intro py hpy
  have := Finset.mem_range.1 hpy
  simp only [Function.comp, List.length_map, length_loopRange]
  omega

theorem sum_range_sub (m : Nat) : 2 * ∑ py in Finset.range m, (m - py) = m * (m + 1) := by
  induction m with
  | zero => simp
  | succ k ih =>
    rw [Finset.sum_range_succ']
    have h : ∑ py in Finset.range k, (k + 1 - (py + 1)) = ∑ py in Finset.range k, (k - py) :=
      Finset.sum_congr rfl (fun py _ => by omega)
    rw [h]
    simp only [Nat.sub_zero]
    rw [Nat.mul_add, ih]
    ring

theorem length_polyExponents2D (m : Nat) :
    2 * (polyExponents2D (m : Int)).length = m * (m + 1) := by
  rw [length_polyExponents2D_sum, sum_range_sub]

/-- Number of iterations of the three nested loops, written as a sum over the outer loop. -/
theorem length_polyExponents3D_sum (m : Nat) :
    (polyExponents3D (m : Int)).length =
      ∑ pz in Finset.range m, (polyExponents2D ((m - pz : Nat) : Int)).length := by
  unfold polyExponents3D
  rw [List.length_flatMap, loopRange_natCast, List.map_map, sum_map_range]
  apply Finset.sum_congr rfl
  intro pz hpz
  have hlt := Finset.mem_range.1 hpz
  simp only [Function.comp]
  unfold polyExponents2D
  have hcast : ((m : Int) - (pz : Int)) = ((m - pz : Nat) : Int) := by omega
  rw [hcast, List.length_flatMap, List.length_flatMap]
  congr 1
  apply List.map_congr_left
  intro py hpy
  simp only [Function.comp, List.length_map, length_loopRange]
  congr 1
  omega

theorem sum_range_triangle (m : Nat) :
    6 * ∑ pz in Finset.range m, (polyExponents2D ((m - pz : Nat) : Int)).length =
      m * (m + 1) * (m + 2) := by
  induction m with
  | zero => simp
  | succ k ih =>
    rw [Finset.sum_range_succ']
    have h : ∑ pz in Finset.range k, (polyExponents2D ((k + 1 - (pz + 1) : Nat) : Int)).length =
        ∑ pz in Finset.range k, (polyExponents2D ((k - pz : Nat) : Int)).length :=
      Finset.sum_congr rfl (fun pz _ => by
        have : k + 1 - (pz + 1) = k - pz := by omega
        rw [this])
    rw [h, Nat.mul_add, ih]
    have h2 := length_polyExponents2D (k + 1)
    simp only [Nat.sub_zero]
    have h3 : 6 * (polyExponents2D ((k + 1 : Nat) : Int)).length = 3 * ((k + 1) * (k + 1 + 1)) := by
      rw [← h2]
      ring
    rw [h3]
    ring

theorem length_polyExponents3D (m : Nat) :
    6 * (polyExponents3D (m : Int)).length = m * (m + 1) * (m + 2) := by
  rw [length_polyExponents3D_sum, sum_range_triangle]

theorem nodup_loopRange (n : Int) : (loopRange n).Nodup := by
  unfold loopRange
  exact List.Nodup.map Nat.cast_injective (List.nodup_range _)

theorem nodup_polyExponents2D (p1 : Int) : (polyExponents2D p1).Nodup := by
  unfold polyExponents2D
  rw [List.nodup_flatMap]
  constructor
  · intro py _
    exact List.Nodup.map (fun a b h => by simpa using h) (nodup_loopRange _)
  · apply List.Pairwise.imp_of_mem ?_ (nodup_loopRange p1)
    intro a b _ _ hab
    intro e he1 he2
    obtain ⟨_, _, rfl⟩ := List.mem_map.1 he1
    obtain ⟨_, _, h⟩ := List.mem_map.1 he2
    exact hab (by simpa using (congrArg Prod.snd h).symm)

theorem nodup_polyExponents3D (p1 : Int) : (polyExponents3D p1).Nodup := by
  unfold polyExponents3D
  rw [List.nodup_flatMap]
  constructor
  · intro pz _
    rw [List.nodup_flatMap]
    constructor
    · intro py _
      exact List.Nodup.map (fun a b h => by simpa using h) (nodup_loopRange _)
    · apply List.Pairwise.imp_of_mem ?_ (nodup_loopRange _)
      intro a b _ _ hab
      intro e he1 he2
      obtain ⟨_, _, rfl⟩ := List.mem_map.1 he1
      obtain ⟨_, _, h⟩ := List.mem_map.1 he2
      exact hab (by simpa using (congrArg (fun t => t.2.1) h).symm)
  · apply List.Pairwise.imp_of_mem ?_ (nodup_loopRange p1)
    intro a b _ _ hab
    intro e he1 he2
    obtain ⟨_, _, he1⟩ := List.mem_flatMap.1 he1
    obtain ⟨_, _, he2⟩ := List.mem_flatMap.1 he2
    obtain ⟨_, _, rfl⟩ := List.mem_map.1 he1
    obtain ⟨_, _, h⟩ := List.mem_map.1 he2
    exact hab (by simpa using (congrArg (fun t => t.2.2) h).symm)

/-- The two nested loops visit every monomial of total degree at most `p` in two variables exactly
once. -/
theorem card_monomialsUpTo_two (p : Nat) :
    (monomialsUpTo 2 p).card = (polyExponents2D ((p : Int) + 1)).length := by
  rw [← List.toFinset_card_of_nodup (nodup_polyExponents2D _)]
  apply Finset.card_bij (fun e _ => (((e 0 : Nat) : Int), ((e 1 : Nat) : Int)))
  · intro e he
    have hs := (Finset.mem_filter.1 he).2
    rw [Fin.sum_univ_two] at hs
    rw [List.mem_toFinset, mem_polyExponents2D]
    omega
  · intro e1 _ e2 _ h
    simp only [Prod.mk.injEq, Nat.cast_inj] at h
    funext i
    fin_cases i
    · exact Fin.ext h.1
    · exact Fin.ext h.2
  · rintro ⟨px, py⟩ hb
    rw [List.mem_toFinset, mem_polyExponents2D] at hb
    refine ⟨![⟨px.toNat, by omega⟩, ⟨py.toNat, by omega⟩], ?_, ?_⟩
    · unfold monomialsUpTo
      rw [Finset.mem_filter, Fin.sum_univ_two]
      refine ⟨Finset.mem_univ _, ?_⟩
      simp only [Matrix.cons_val_zero, Matrix.cons_val_one, Matrix.head_cons]
      omega
    · simp only [Matrix.cons_val_zero, Matrix.cons_val_one, Matrix.head_cons, Prod.mk.injEq]
      omega

/-- The three nested loops visit every monomial of total degree at most `p` in three variables
exactly once. -/
theorem card_monomialsUpTo_three (p : Nat) :
    (monomialsUpTo 3 p).card = (polyExponents3D ((p : Int) + 1)).length := by
  rw [← List.toFinset_card_of_nodup (nodup_polyExponents3D _)]
  apply Finset.card_bij
    (fun e _ => (((e 0 : Nat) : Int), ((e 1 : Nat) : Int), ((e 2 : Nat) : Int)))
  · intro e he
    have hs := (Finset.mem_filter.1 he).2
    rw [Fin.sum_univ_three] at hs
    rw [List.mem_toFinset, mem_polyExponents3D]
    omega
  · intro e1 _ e2 _ h
    simp only [Prod.mk.injEq, Nat.cast_inj] at h
    funext i
    fin_cases i
    · exact Fin.ext h.1
    · exact Fin.ext h.2.1
    · exact Fin.ext h.2.2
  · rintro ⟨px, py, pz⟩ hb
    rw [List.mem_toFinset, mem_polyExponents3D] at hb
    refine ⟨![⟨px.toNat, by omega⟩, ⟨py.toNat, by omega⟩, ⟨pz.toNat, by omega⟩], ?_, ?_⟩
    · unfold monomialsUpTo
      rw [Finset.mem_filter, Fin.sum_univ_three]
      refine ⟨Finset.mem_univ _, ?_⟩
      simp only [Matrix.cons_val_zero, Matrix.cons_val_one, Matrix.head_cons,
        Matrix.cons_val_two, Matrix.tail_cons]
      omega
    · simp only [Matrix.cons_val_zero, Matrix.cons_val_one, Matrix.head_cons,
        Matrix.cons_val_two, Matrix.tail_cons, Prod.mk.injEq]
      omega

theorem petscInt_eq_some (x y : Int) (h : petscInt x = some y) :
    y = x ∧ -PETSC_MAX_INT - 1 ≤ x ∧ x ≤ PETSC_MAX_INT := by
  unfold petscInt at h
  by_cases hr : -PETSC_MAX_INT - 1 ≤ x ∧ x ≤ PETSC_MAX_INT
  · rw [if_pos hr] at h
    exact ⟨(Option.some.inj h).symm, hr⟩
  · rw [if_neg hr] at h
    exact Option.noConfusion h

/-- What `RBF_nPoly` returns when no product overflows. -/
theorem RBF_nPoly_eq_some (dim p n : Int) (h : RBF_nPoly dim p = some n) :
    (dim = 2 → n = Int.tdiv ((p + 2) * (p + 1)) 2 ∧ (p + 2) * (p + 1) ≤ PETSC_MAX_INT) ∧
    (dim ≠ 2 → n = Int.tdiv ((p + 3) * (p + 2) * (p + 1)) 6 ∧
      (p + 3) * (p + 2) * (p + 1) ≤ PETSC_MAX_INT) := by
  unfold RBF_nPoly at h
  constructor
  · intro hd
    rw [if_pos hd] at h
    simp only [Option.bind_eq_some, Option.map_eq_some'] at h
    obtain ⟨a, ha, b, hb, ab, hab, rfl⟩ := h
    obtain ⟨rfl, -, -⟩ := petscInt_eq_some _ _ ha
    obtain ⟨rfl, -, -⟩ := petscInt_eq_some _ _ hb
    obtain ⟨rfl, -, hle⟩ := petscInt_eq_some _ _ hab
    exact ⟨rfl, hle⟩
  · intro hd
    rw [if_neg hd] at h
    simp only [Option.bind_eq_some, Option.map_eq_some'] at h
    obtain ⟨a, ha, b, hb, ab, hab, c, hc, abc, habc, rfl⟩ := h
    obtain ⟨rfl, -, -⟩ := petscInt_eq_some _ _ ha
    obtain ⟨rfl, -, -⟩ := petscInt_eq_some _ _ hb
    obtain ⟨rfl, -, -⟩ := petscInt_eq_some _ _ hab
    obtain ⟨rfl, -, -⟩ := petscInt_eq_some _ _ hc
    obtain ⟨rfl, -, hle⟩ := petscInt_eq_some _ _ habc
    exact ⟨rfl, hle⟩

/-- For `p >= 0` the value of `nPoly` is the number of iterations of the polynomial loops: of the
two nested loops when `dim == 2`, of the three nested loops otherwise. -/
theorem RBF_nPoly_eq_length (dim p n : Int) (hp : 0 ≤ p) (h : RBF_nPoly dim p = some n) :
    (dim = 2 → n = ((polyExponents2D (p + 1)).length : Int)) ∧
    (dim ≠ 2 → n = ((polyExponents3D (p + 1)).length : Int)) := by
  obtain ⟨h2, h3⟩ := RBF_nPoly_eq_some dim p n h
  obtain ⟨m, hm⟩ : ∃ m : Nat, p + 1 = (m : Int) := ⟨(p + 1).toNat, by omega⟩
  constructor
  · intro hd
    obtain ⟨rfl, -⟩ := h2 hd
    have hlen := length_polyExponents2D m
    have hcast : ((p + 2) * (p + 1) : Int) = 2 * ((polyExponents2D (p + 1)).length : Int) := by
      rw [hm]
      have : (p + 2 : Int) = (m : Int) + 1 := by omega
      rw [this]
      have h' : ((2 * (polyExponents2D (m : Int)).length : Nat) : Int) = ((m * (m + 1) : Nat) : Int) :=
        congrArg _ hlen
      push_cast at h'
      linarith
    rw [hcast, Int.mul_tdiv_cancel_left _ (by norm_num)]
  · intro hd
    obtain ⟨rfl, -⟩ := h3 hd
    have hlen := length_polyExponents3D m
    have hcast : ((p + 3) * (p + 2) * (p + 1) : Int) =
        6 * ((polyExponents3D (p + 1)).length : Int) := by
      rw [hm]
      have h2' : (p + 2 : Int) = (m : Int) + 1 := by omega
      have h3' : (p + 3 : Int) = (m : Int) + 2 := by omega
      rw [h2', h3']
      have h' : ((6 * (polyExponents3D (m : Int)).length : Nat) : Int) =
          ((m * (m + 1) * (m + 2) : Nat) : Int) := congrArg _ hlen
      push_cast at h'
      linarith
    rw [hcast, Int.mul_tdiv_cancel_left _ (by norm_num)]

/-! ### Index ranges of the writes of `Matrix` and `Weights` -/

theorem flat_index_range (m i j : Int) (hi : 0 ≤ i) (him : i < m) (hj : 0 ≤ j) (hjm : j < m) :
    0 ≤ i * m + j ∧ i * m + j < m * m := by
  have hm : 0 ≤ m := by omega
  constructor
  · have := mul_nonneg hi hm
    omega
  · have h1 : (i + 1) * m ≤ m * m := mul_le_mul_of_nonneg_right (by omega) hm
    have h2 : (i + 1) * m = i * m + m := by ring
    omega

theorem block_index_range (N D P i d px : Int) (hi : 0 ≤ i) (hiN : i < N) (hd : 0 ≤ d)
    (hdD : d < D) (hpx : 0 ≤ px) (hpxP : px < P) :
    0 ≤ (i * D + d) * P + px ∧ (i * D + d) * P + px < N * D * P := by
  have hD : 0 ≤ D := by omega
  have hP : 0 ≤ P := by omega
  have h0 : 0 ≤ i * D + d := by
    have := mul_nonneg hi hD
    omega
  have h1 : i * D + d + 1 ≤ N * D := by
    have h2 : (i + 1) * D ≤ N * D := mul_le_mul_of_nonneg_right (by omega) hD
    have h3 : (i + 1) * D = i * D + D := by ring
    omega
  have h4 : (i * D + d + 1) * P ≤ N * D * P := mul_le_mul_of_nonneg_right h1 hP
  have h5 : (i * D + d + 1) * P = (i * D + d) * P + P := by ring
  have h6 := mul_nonneg h0 hP
  constructor
  · omega
  · omega

theorem Matrix_xpIndices_range (self : RBF α) (nCells : Int) (hp : 0 ≤ self.p) (idx : Int)
    (h : idx ∈ Matrix_xpIndices self nCells) :
    0 ≤ idx ∧ idx < nCells * self.dim * (self.p + 1) := by
  unfold Matrix_xpIndices at h
  simp only [List.mem_flatMap, List.mem_cons, List.mem_map, mem_loopRange] at h
  obtain ⟨i, ⟨hi0, hi1⟩, d, ⟨hd0, hd1⟩, h | ⟨k, ⟨hk0, hk1⟩, h⟩⟩ := h
  · rw [h]
    exact block_index_range nCells self.dim (self.p + 1) i d 0 hi0 hi1 hd0 hd1 (le_refl 0)
      (by omega)
  · rw [← h]
    exact block_index_range nCells self.dim (self.p + 1) i d (k + 1) hi0 hi1 hd0 hd1 (by omega)
      (by omega)

theorem Matrix_rbfWrites_range (self : RBF α) (nCells matSize : Int) (x : Int → α)
    (hm : nCells ≤ matSize) (w : Int × α) (h : w ∈ Matrix_rbfWrites self nCells matSize x) :
    0 ≤ w.1 ∧ w.1 < matSize * matSize := by
  unfold Matrix_rbfWrites at h
  simp only [List.mem_flatMap, mem_loopRange, List.mem_cons, List.mem_singleton,
    List.not_mem_nil, or_false] at h
  obtain ⟨i, ⟨hi0, hi1⟩, k, ⟨hk0, hk1⟩, h | h⟩ := h
  · rw [h]
    exact flat_index_range matSize (i + k) i (by omega) (by omega) hi0 (by omega)
  · rw [h]
    exact flat_index_range matSize i (i + k) hi0 (by omega) (by omega) (by omega)

theorem Matrix_polyWrites2D_range (self : RBF α) (nCells matSize : Int) (xp : Int → α)
    (h0 : 0 ≤ nCells)
    (hm : nCells + ((polyExponents2D (self.p + 1)).length : Int) = matSize) (w : Int × α)
    (h : w ∈ Matrix_polyWrites2D self nCells matSize xp) :
    0 ≤ w.1 ∧ w.1 < matSize * matSize := by
  unfold Matrix_polyWrites2D at h
  simp only [List.mem_flatMap, mem_loopRange, List.mem_cons, List.mem_singleton,
    List.not_mem_nil, or_false] at h
  obtain ⟨i, ⟨hi0, hi1⟩, je, hje, h | h⟩ := h
  · have hj := withCounter_fst_range nCells _ je hje
    rw [h]
    exact flat_index_range matSize je.1 i (by omega) (by omega) hi0 (by omega)
  · have hj := withCounter_fst_range nCells _ je hje
    rw [h]
    exact flat_index_range matSize i je.1 hi0 (by omega) (by omega) (by omega)

theorem Matrix_polyWrites3D_range (self : RBF α) (nCells matSize : Int) (xp : Int → α)
    (h0 : 0 ≤ nCells)
    (hm : nCells + ((polyExponents3D (self.p + 1)).length : Int) = matSize) (w : Int × α)
    (h : w ∈ Matrix_polyWrites3D self nCells matSize xp) :
    0 ≤ w.1 ∧ w.1 < matSize * matSize := by
  unfold Matrix_polyWrites3D at h
  simp only [List.mem_flatMap, mem_loopRange, List.mem_cons, List.mem_singleton,
    List.not_mem_nil, or_false] at h
  obtain ⟨i, ⟨hi0, hi1⟩, je, hje, h | h⟩ := h
  · have hj := withCounter_fst_range nCells _ je hje
    rw [h]
    exact flat_index_range matSize je.1 i (by omega) (by omega) hi0 (by omega)
  · have hj := withCounter_fst_range nCells _ je hje
    rw [h]
    exact flat_index_range matSize i je.1 hi0 (by omega) (by omega) (by omega)

theorem Consistent_of_ctor (dm : DM α) (p : Int) (RBFVal : (Int → α) → (Int → α) → α)
    (RBFDer : (Int → α) → Int → Int → Int → α) (self : RBF α) (hp : 0 ≤ p)
    (h : RBF.ctor dm p RBFVal RBFDer = some self) :
    self.Consistent ∧ self.p = p ∧ self.dim = (dm.dim : Int) ∧ self.dm = dm ∧
      RBF_nPoly (dm.dim : Int) p = some self.nPoly ∧
      RBF_minNumberCells self.nPoly = some self.minNumberCells := by
  unfold RBF.ctor at h
  simp only [Option.bind_eq_some, Option.map_eq_some'] at h
  obtain ⟨n, hn, mn, hmn, rfl⟩ := h
  obtain ⟨h2, h3⟩ := RBF_nPoly_eq_length (dm.dim : Int) p n hp hn
  exact ⟨⟨hp, Int.natCast_nonneg _, h2, h3⟩, rfl, rfl, rfl, hn, hmn⟩

theorem Matrix_writes_range (self : RBF α) (nCells : Int) (x xp : Int → α)
    (hc : self.Consistent) (h0 : 0 ≤ nCells) (w : Int × α)
    (h : w ∈ Matrix_writes self nCells (nCells + self.nPoly) x xp) :
    0 ≤ w.1 ∧ w.1 < (nCells + self.nPoly) * (nCells + self.nPoly) := by
  obtain ⟨hp, hdim, h2, h3⟩ := hc
  unfold Matrix_writes at h
  rcases List.mem_append.1 h with h | h
  · refine Matrix_rbfWrites_range self nCells _ x ?_ w h
    by_cases hd : self.dim = 2
    · rw [h2 hd]; omega
    · rw [h3 hd]; omega
  · by_cases hd : self.dim = 2
    · rw [if_pos hd] at h
      exact Matrix_polyWrites2D_range self nCells _ xp h0 (by rw [h2 hd]) w h
    · rw [if_neg hd] at h
      exact Matrix_polyWrites3D_range self nCells _ xp h0 (by rw [h3 hd]) w h

/-- `RBF::Matrix` throws exactly when `nPoly >= nCells`. -/
theorem Matrix_invalid_argument_iff (self : RBF α) (c nCells : Int) (list : Int → Int)
    (x xp : Int → α) :
    self.Matrix c nCells list x xp = Except.error RBFError.invalid_argument ↔
      self.nPoly ≥ nCells := by
  unfold RBF.Matrix
  by_cases h : self.nPoly ≥ nCells
  · simp [h]
  · simp only [h, if_false, iff_false]
    split_ifs <;> simp

/-- For a consistent object and `nCells > nPoly`, `RBF::Matrix` completes and hands back a square
matrix of size `nCells + nPoly`. -/
theorem Matrix_ok (self : RBF α) (c nCells : Int) (list : Int → Int) (x xp : Int → α)
    (hc : self.Consistent) (h : nCells > self.nPoly) :
    self.Matrix c nCells list x xp = Except.ok
      { x := (Matrix_powers self c nCells list x xp).1
        A := { rows := nCells + self.nPoly
               cols := nCells + self.nPoly
               vals := applyWrites (Matrix_writes self nCells (nCells + self.nPoly)
                 (Matrix_powers self c nCells list x xp).1
                 (Matrix_powers self c nCells list x xp).2) (fun _ => 0) } } := by
  have hn : 0 ≤ self.nPoly := by
    obtain ⟨-, -, h2, h3⟩ := hc
    by_cases hd : self.dim = 2
    · rw [h2 hd]; exact Int.natCast_nonneg _
    · rw [h3 hd]; exact Int.natCast_nonneg _
  unfold RBF.Matrix
  rw [if_neg (not_le.2 h), if_pos]
  exact ⟨fun idx hidx => Matrix_xpIndices_range self nCells hc.1 idx hidx,
    fun w hw => Matrix_writes_range self nCells _ _ hc (by omega) w hw⟩

theorem col_index_range (m n i j : Int) (hi : 0 ≤ i) (him : i < m) (hj : 0 ≤ j) (hjn : j < n) :
    0 ≤ i + j * m ∧ i + j * m < m * n := by
  have hm : 0 ≤ m := by omega
  have h1 := mul_nonneg hj hm
  have h2 : (j + 1) * m ≤ n * m := mul_le_mul_of_nonneg_right (by omega) hm
  have h3 : (j + 1) * m = j * m + m := by ring
  have h4 : n * m = m * n := by ring
  constructor
  · omega
  · omega

theorem Weights_rhsWrites_range (self : RBF α) (facMem : Int → Int) (nCells nDer : Int)
    (dxyz : Int → Int) (x : Int → α) (hc : self.Consistent) (h0 : 0 ≤ nCells) (w : Int × α)
    (h : w ∈ Weights_rhsWrites self facMem nCells (nCells + self.nPoly) nDer dxyz x) :
    0 ≤ w.1 ∧ w.1 < (nCells + self.nPoly) * nDer := by
  obtain ⟨hp, hdim, h2, h3⟩ := hc
  unfold Weights_rhsWrites at h
  rcases List.mem_append.1 h with h | h
  · simp only [List.mem_flatMap, List.mem_map, mem_loopRange] at h
    obtain ⟨i, ⟨hi0, hi1⟩, j, ⟨hj0, hj1⟩, rfl⟩ := h
    refine col_index_range _ nDer i j hi0 ?_ hj0 hj1
    by_cases hd : self.dim = 2
    · rw [h2 hd]; omega
    · rw [h3 hd]; omega
  · by_cases hd : self.dim = 2
    · rw [if_pos hd] at h
      simp only [List.mem_flatMap, List.mem_map, List.mem_filter, mem_loopRange] at h
      obtain ⟨j, ⟨hj0, hj1⟩, ie, ⟨hie, -⟩, rfl⟩ := h
      have hr := withCounter_fst_range nCells _ ie hie
      refine col_index_range _ nDer ie.1 j (by omega) ?_ hj0 hj1
      rw [h2 hd]; omega
    · rw [if_neg hd] at h
      simp only [List.mem_flatMap, List.mem_map, List.mem_filter, mem_loopRange] at h
      obtain ⟨j, ⟨hj0, hj1⟩, ie, ⟨hie, -⟩, rfl⟩ := h
      have hr := withCounter_fst_range nCells _ ie hie
      refine col_index_range _ nDer ie.1 j (by omega) ?_ hj0 hj1
      rw [h3 hd]; omega

/-- C15: for an object built by the constructor with polynomial order `p >= 0`, `RBF::Matrix`
raises `std::invalid_argument` if and only if `nPoly >= nCells`; when `nCells > nPoly` it raises
nothing and produces a square matrix of size `nCells + nPoly`. -/
theorem Matrix_raises_iff_too_few_cells (dm : DM α) (p : Int)
    (RBFVal : (Int → α) → (Int → α) → α) (RBFDer : (Int → α) → Int → Int → Int → α)
    (self : RBF α) (c nCells : Int) (list : Int → Int) (x xp : Int → α)
    (hp : 0 ≤ p) (hself : RBF.ctor dm p RBFVal RBFDer = some self) :
    (self.Matrix c nCells list x xp = Except.error RBFError.invalid_argument ↔
      self.nPoly ≥ nCells) ∧
    (nCells > self.nPoly →
      ∃ m, self.Matrix c nCells list x xp = Except.ok m ∧
        m.A.rows = nCells + self.nPoly ∧ m.A.cols = nCells + self.nPoly) := by
  have hc := (Consistent_of_ctor dm p RBFVal RBFDer self hp hself).1
  refine ⟨Matrix_invalid_argument_iff self c nCells list x xp, fun h => ?_⟩
  exact ⟨_, Matrix_ok self c nCells list x xp hc h, rfl, rfl⟩

/-- Order 1 on the 3 by 3 box mesh (`nPoly = 3`): five cells give an 8 by 8 matrix, three cells
raise. -/
theorem Matrix_raises_iff_too_few_cells_witness :
    ∃ self : RBF ℚ,
      RBF.ctor (quadMesh 3 3) 1 (fun _ _ => 1) (fun _ _ _ _ => 0) = some self ∧
      self.nPoly = 3 ∧
      self.Matrix 4 3 (fun i => i) (fun _ => 0) (fun _ => 0) =
        Except.error RBFError.invalid_argument ∧
      ∃ m, self.Matrix 4 5 (fun i => i) (fun _ => 0) (fun _ => 0) = Except.ok m ∧
        m.A.rows = 8 ∧ m.A.cols = 8 := by
  obtain ⟨self, hself⟩ : ∃ self : RBF ℚ,
      RBF.ctor (quadMesh 3 3) 1 (fun _ _ => 1) (fun _ _ _ _ => 0) = some self :=
    ⟨_, rfl⟩
  have hn : self.nPoly = 3 := by
    have h := (Consistent_of_ctor _ _ _ _ self (by decide) hself).2.2.2.2.1
    have h3 : RBF_nPoly (((quadMesh 3 3).dim : Nat) : Int) 1 = some 3 := by decide
    rw [h3] at h
    exact (Option.some.inj h).symm
  have hthm := Matrix_raises_iff_too_few_cells (quadMesh 3 3) 1 (fun _ _ => 1)
    (fun _ _ _ _ => 0) self 4
  refine ⟨self, hself, hn, ?_, ?_⟩
  · exact (hthm 3 (fun i => i) (fun _ => 0) (fun _ => 0) (by decide) hself).1.2
      (le_of_eq hn.symm).ge
  · obtain ⟨m, hm, hr, hcol⟩ := (hthm 5 (fun i => i) (fun _ => 0) (fun _ => 0) (by decide)
      hself).2 (by rw [hn]; decide)
    exact ⟨m, hm, by rw [hr, hn]; rfl, by rw [hcol, hn]; rfl⟩

/-- C19 (refutation): on a one-dimensional mesh the constructor sets `nPoly = 4` for `p = 1`,
while there are only two monomials of degree at most 1 in one variable; and for `dim = 3`,
`p = 1289` the product `(p+3)*(p+2)*(p+1)` overflows `PetscInt`, so that `nPoly` is not set to
any count at all. -/
theorem nPoly_not_monomial_count :
    (RBF.ctor (lineMesh 3) 1 (fun _ _ => (1 : ℚ)) (fun _ _ _ _ => 0)).map (fun r => r.nPoly) =
      some 4 ∧
    (monomialsUpTo 1 1).card = 2 ∧
    RBF_nPoly 3 1289 = none ∧
    (RBF.ctor { quadMesh 1 1 with dim := 3 } 1289 (fun _ _ => (1 : ℚ)) (fun _ _ _ _ => 0)).map
      (fun r => r.nPoly) = none := by
  refine ⟨by decide, by decide, by decide, by decide⟩

/-- C19 (amended): for every polynomial order `p >= 0` whose product `(p+2)(p+1)` (`dim = 2`),
resp. `(p+3)(p+2)(p+1)` (otherwise) fits a `PetscInt`, the value `nPoly` set by the constructor
is the number of monomials of total degree at most `p` in two variables when `dim = 2` and in
three variables otherwise, and it is the number of exponent tuples visited by the nested
polynomial loops of `RBF::Matrix` and `RBF::Weights`; the running index of these loops starts at
`nCells`, stays below `nCells + nPoly = matSize`, and no write of either routine falls outside
the matrix it fills. -/
theorem nPoly_counts_polynomial_loops (dm : DM α) (p : Int)
    (RBFVal : (Int → α) → (Int → α) → α) (RBFDer : (Int → α) → Int → Int → Int → α)
    (self : RBF α) (hp : 0 ≤ p) (hself : RBF.ctor dm p RBFVal RBFDer = some self) :
    (self.dim = 2 → self.nPoly = ((monomialsUpTo 2 p.toNat).card : Int) ∧
      self.nPoly = ((polyExponents2D (self.p + 1)).length : Int)) ∧
    (self.dim ≠ 2 → self.nPoly = ((monomialsUpTo 3 p.toNat).card : Int) ∧
      self.nPoly = ((polyExponents3D (self.p + 1)).length : Int)) ∧
    (∀ (nCells : Int) (je : Int × Int × Int), self.dim = 2 →
      je ∈ withCounter nCells (polyExponents2D (self.p + 1)) →
      nCells ≤ je.1 ∧ je.1 < nCells + self.nPoly) ∧
    (∀ (nCells : Int) (je : Int × Int × Int × Int), self.dim ≠ 2 →
      je ∈ withCounter nCells (polyExponents3D (self.p + 1)) →
      nCells ≤ je.1 ∧ je.1 < nCells + self.nPoly) ∧
    (∀ (nCells : Int) (x xp : Int → α) (w : Int × α), 0 ≤ nCells →
      w ∈ Matrix_writes self nCells (nCells + self.nPoly) x xp →
      0 ≤ w.1 ∧ w.1 < (nCells + self.nPoly) * (nCells + self.nPoly)) ∧
    (∀ (facMem : Int → Int) (nCells nDer : Int) (dxyz : Int → Int) (x : Int → α)
      (w : Int × α), 0 ≤ nCells →
      w ∈ Weights_rhsWrites self facMem nCells (nCells + self.nPoly) nDer dxyz x →
      0 ≤ w.1 ∧ w.1 < (nCells + self.nPoly) * nDer) := by
  obtain ⟨hc, hpp, -, -, -, -⟩ := Consistent_of_ctor dm p RBFVal RBFDer self hp hself
  have hcast : self.p + 1 = ((p.toNat : Nat) : Int) + 1 := by rw [hpp]; omega
  refine ⟨fun hd => ⟨?_, hc.2.2.1 hd⟩, fun hd => ⟨?_, hc.2.2.2 hd⟩, ?_, ?_, ?_, ?_⟩
  · rw [hc.2.2.1 hd, card_monomialsUpTo_two, hcast]
  · rw [hc.2.2.2 hd, card_monomialsUpTo_three, hcast]
  · intro nCells je hd hje
    have := withCounter_fst_range nCells _ je hje
    rw [hc.2.2.1 hd]
    exact this
  · intro nCells je hd hje
    have := withCounter_fst_range nCells _ je hje
    rw [hc.2.2.2 hd]
    exact this
  · intro nCells x xp w h0 hw
    exact Matrix_writes_range self nCells x xp hc h0 w hw
  · intro facMem nCells nDer dxyz x w h0 hw
    exact Weights_rhsWrites_range self facMem nCells nDer dxyz x hc h0 w hw

/-- Order 2 on the 3 by 3 box mesh: `nPoly = 6`, the number of monomials of degree at most 2 in
two variables. -/
theorem nPoly_counts_polynomial_loops_witness :
    ∃ self : RBF ℚ,
      RBF.ctor (quadMesh 3 3) 2 (fun _ _ => 1) (fun _ _ _ _ => 0) = some self ∧
      (self.dim = 2 → self.nPoly = ((monomialsUpTo 2 2).card : Int) ∧
        self.nPoly = ((polyExponents2D (self.p + 1)).length : Int)) :=
  ⟨_, rfl, (nPoly_counts_polynomial_loops (quadMesh 3 3) 2 (fun _ _ => 1) (fun _ _ _ _ => 0) _
    (by decide) rfl).1⟩

/-! ### The powers of the shifted centres -/

theorem setI_same {β : Type} (a : Int → β) (i : Int) (v : β) : setI a i v i = v := by
  simp [setI]

theorem setI_other {β : Type} (a : Int → β) (i j : Int) (v : β) (h : j ≠ i) :
    setI a i v j = a j := by
  simp [setI, h]

theorem applyWrites_cons {β : Type} (w : Int × β) (ws : List (Int × β)) (a : Int → β) :
    applyWrites (w :: ws) a = applyWrites ws (setI a w.1 w.2) := rfl

/-- An index that no write addresses keeps its content. -/
theorem applyWrites_of_forall_ne {β : Type} (ws : List (Int × β)) (a : Int → β) (idx : Int)
    (h : ∀ w ∈ ws, w.1 ≠ idx) : applyWrites ws a idx = a idx := by
  induction ws generalizing a with
  | nil => rfl
  | cons w ws ih =>
    rw [applyWrites_cons, ih _ (fun w1 hw1 => h w1 (List.mem_cons_of_mem _ hw1))]
    exact setI_other a w.1 idx w.2 (fun hh => h w (List.mem_cons_self _ _) hh.symm)

/-- An index that is written, and always with the same value, holds that value. -/
theorem applyWrites_of_consistent {β : Type} (ws : List (Int × β)) (a : Int → β) (idx : Int)
    (v : β) (hex : ∃ w ∈ ws, w.1 = idx) (hall : ∀ w ∈ ws, w.1 = idx → w.2 = v) :
    applyWrites ws a idx = v := by
  induction ws generalizing a with
  | nil =>
    obtain ⟨w, hw, -⟩ := hex
    exact absurd hw (List.not_mem_nil _)
  | cons w ws ih =>
    rw [applyWrites_cons]
    by_cases hlater : ∃ w1 ∈ ws, w1.1 = idx
    · exact ih _ hlater (fun w1 hw1 => hall w1 (List.mem_cons_of_mem _ hw1))
    · have hne : ∀ w1 ∈ ws, w1.1 ≠ idx := fun w1 hw1 hh => hlater ⟨w1, hw1, hh⟩
      rw [applyWrites_of_forall_ne ws _ idx hne]
      have hw : w.1 = idx := by
        obtain ⟨w1, hw1, hh⟩ := hex
        rcases List.mem_cons.1 hw1 with rfl | hw1
        · exact hh
        · exact absurd hh (hne w1 hw1)
      rw [← hw, setI_same]
      exact hall w (List.mem_cons_self _ _) hw

/-- A row-major (or column-major) index determines its two parts. -/
theorem flat_index_inj (m a b j k : Int) (ha : 0 ≤ a) (ham : a < m) (hb : 0 ≤ b) (hbm : b < m)
    (h : j * m + a = k * m + b) : j = k ∧ a = b := by
  have h1 : (j * m + a) % m = a := by
    rw [Int.add_comm, Int.add_mul_emod_self, Int.emod_eq_of_lt ha ham]
  have h2 : (k * m + b) % m = b := by
    rw [Int.add_comm, Int.add_mul_emod_self, Int.emod_eq_of_lt hb hbm]
  have hab : a = b := by rw [← h1, ← h2, h]
  subst hab
  have hm : m ≠ 0 := by omega
  exact ⟨mul_right_cancel₀ hm (by omega), rfl⟩

theorem loopRange_succ (n : Nat) :
    loopRange (((n + 1 : Nat) : Int)) = loopRange (n : Int) ++ [(n : Int)] := by
  rw [loopRange_natCast, loopRange_natCast, List.range_succ, List.map_append]
  rfl

/-- The loop `xp[base] = 1; for (px = 1; px < n+1; ++px) xp[base+px] = xp[base+px-1]*v` stores
the powers of `v` and writes nowhere else. -/
theorem powers_loop (xp : Int → α) (base : Int) (v : α) (n : Nat) :
    (∀ px : Nat, px ≤ n →
      (loopRange (n : Int)).foldl (fun xp k =>
        setI xp (base + (k + 1)) (xp (base + ((k + 1) - 1)) * v)) (setI xp (base + 0) 1)
        (base + px) = v ^ px) ∧
    (∀ idx : Int, (idx < base ∨ base + n < idx) →
      (loopRange (n : Int)).foldl (fun xp k =>
        setI xp (base + (k + 1)) (xp (base + ((k + 1) - 1)) * v)) (setI xp (base + 0) 1)
        idx = xp idx) := by
  induction n with
  | zero =>
    constructor
    · intro px hpx
      have : px = 0 := by omega
      subst this
      simp [loopRange, setI]
    · intro idx hidx
      simp only [loopRange, Int.toNat_ofNat, List.range_zero, List.map_nil, List.foldl_nil]
      apply setI_other
      simp at hidx
      omega
  | succ n ih =>
    obtain ⟨ih1, ih2⟩ := ih
    rw [loopRange_succ, List.foldl_append]
    simp only [List.foldl_cons, List.foldl_nil]
    constructor
    · intro px hpx
      by_cases h : px = n + 1
      · subst h
        have hidx : base + (((n + 1 : Nat) : Int)) = base + ((n : Int) + 1) := by push_cast; rfl
        rw [hidx, setI_same]
        have h2 : base + ((n : Int) + 1 - 1) = base + (n : Int) := by ring
        rw [h2, ih1 n (le_refl _), pow_succ]
      · rw [setI_other _ _ _ _ (by omega)]
        exact ih1 px (by omega)
    · intro idx hidx
      rw [setI_other _ _ _ _ (by push_cast at hidx; omega)]
      exact ih2 idx (by push_cast at hidx; omega)

theorem PowersStored_mono (self : RBF α) (S T : Int → Prop) (st : (Int → α) × (Int → α))
    (hST : ∀ b, T b → S b) (h : PowersStored self S st) : PowersStored self T st :=
  fun b hb px hpx => h b (hST b hb) px hpx

/-- A write to a coordinate outside `S` does not disturb the powers stored for `S`. -/
theorem PowersStored_setI (self : RBF α) (S : Int → Prop) (st : (Int → α) × (Int → α))
    (b : Int) (v : α) (hb : ¬ S b) (h : PowersStored self S st) :
    PowersStored self S (setI st.1 b v, st.2) := by
  intro b1 hb1 px hpx
  have hne : b1 ≠ b := fun hh => hb (hh ▸ hb1)
  show st.2 _ = setI st.1 b v b1 ^ px
  rw [setI_other _ _ _ _ hne]
  exact h b1 hb1 px hpx

/-- One pass of the loop over `d` stores the powers of the coordinate `i*dim + d` and keeps
those stored before. -/
theorem Matrix_powers_coord_stored (self : RBF α) (x0 : Nat → α) (i d : Int) (S : Int → Prop)
    (st : (Int → α) × (Int → α)) (hp : 0 ≤ self.p) (hS : ¬ S (i * self.dim + d))
    (h : PowersStored self S st) :
    PowersStored self (fun b => S b ∨ b = i * self.dim + d)
      (Matrix_powers_coord self x0 i st d) := by
  obtain ⟨n, hn⟩ : ∃ n : Nat, self.p = (n : Int) := ⟨self.p.toNat, by omega⟩
  have hloop := powers_loop st.2 ((i * self.dim + d) * (self.p + 1))
    (st.1 (i * self.dim + d) - x0 d.toNat) n
  rw [← hn] at hloop
  obtain ⟨h1, h2⟩ := hloop
  intro b hb px hpx
  unfold Matrix_powers_coord
  simp only [setI_same]
  rcases hb with hb | rfl
  · have hne : b ≠ i * self.dim + d := fun hh => hS (hh ▸ hb)
    rw [setI_other _ _ _ _ hne]
    rw [h2]
    · exact h b hb px hpx
    · have hp1 : 0 ≤ self.p + 1 := by omega
      rcases lt_or_gt_of_ne hne with hlt | hgt
      · left
        have : (b + 1) * (self.p + 1) ≤ (i * self.dim + d) * (self.p + 1) :=
          mul_le_mul_of_nonneg_right (by omega) hp1
        have h3 : (b + 1) * (self.p + 1) = b * (self.p + 1) + (self.p + 1) := by ring
        omega
      · right
        have : (i * self.dim + d + 1) * (self.p + 1) ≤ b * (self.p + 1) :=
          mul_le_mul_of_nonneg_right (by omega) hp1
        have h3 : (i * self.dim + d + 1) * (self.p + 1) =
            (i * self.dim + d) * (self.p + 1) + (self.p + 1) := by ring
        omega
  · rw [setI_same]
    exact h1 px (by omega)

/-- A fold whose steps each store the powers for a new set of coordinates, the sets being
disjoint from each other and from what was stored before. -/
theorem PowersStored_foldl (self : RBF α) {ι : Type}
    (f : (Int → α) × (Int → α) → ι → (Int → α) × (Int → α)) (K : ι → Int → Prop)
    (l : List ι)
    (hstep : ∀ (S : Int → Prop) (st : (Int → α) × (Int → α)) (e : ι), e ∈ l →
      PowersStored self S st → (∀ b, K e b → ¬ S b) →
      PowersStored self (fun b => S b ∨ K e b) (f st e))
    (hdisj : l.Pairwise (fun e1 e2 => ∀ b, K e1 b → ¬ K e2 b))
    (S : Int → Prop) (st : (Int → α) × (Int → α)) (h : PowersStored self S st)
    (hS : ∀ e ∈ l, ∀ b, K e b → ¬ S b) :
    PowersStored self (fun b => S b ∨ ∃ e ∈ l, K e b) (l.foldl f st) := by
  induction l generalizing S st with
  | nil => exact PowersStored_mono self S _ st (fun b hb => by simpa using hb) h
  | cons e l ih =>
    rw [List.foldl_cons]
    obtain ⟨hd1, hd2⟩ := List.pairwise_cons.1 hdisj
    have h1 := hstep S st e (List.mem_cons_self _ _) h (hS e (List.mem_cons_self _ _))
    have h2 := ih (fun S st e1 he1 => hstep S st e1 (List.mem_cons_of_mem _ he1)) hd2
      (fun b => S b ∨ K e b) (f st e) h1
      (fun e1 he1 b hb hSb => by
        rcases hSb with hSb | hKb
        · exact hS e1 (List.mem_cons_of_mem _ he1) b hb hSb
        · exact hd1 e1 he1 b hKb hb)
    refine PowersStored_mono self _ _ _ (fun b hb => ?_) h2
    rcases hb with hb | ⟨e1, he1, hb⟩
    · exact Or.inl (Or.inl hb)
    · rcases List.mem_cons.1 he1 with rfl | he1
      · exact Or.inl (Or.inr hb)
      · exact Or.inr ⟨e1, he1, hb⟩

/-- The centre written by `DMPlexComputeCellGeometryFVM` for cell `i` touches only the
coordinates of cell `i`. -/
theorem PowersStored_centre (self : RBF α) (S : Int → Prop) (i : Int) (g : Int → α)
    (xp : Int → α) (l : List Int) (x : Int → α)
    (hS : ∀ d ∈ l, ¬ S (i * self.dim + d)) (h : PowersStored self S (x, xp)) :
    PowersStored self S (l.foldl (fun x d => setI x (i * self.dim + d) (g d)) x, xp) := by
  induction l generalizing x with
  | nil => exact h
  | cons d l ih =>
    rw [List.foldl_cons]
    exact ih _ (fun d1 hd1 => hS d1 (List.mem_cons_of_mem _ hd1))
      (PowersStored_setI self S (x, xp) _ _ (hS d (List.mem_cons_self _ _)) h)

/-- One pass of the loop over the cells stores the powers of the `dim` coordinates of cell
`i`. -/
theorem Matrix_powers_cell_stored (self : RBF α) (c : Int) (list : Int → Int) (i : Int)
    (S : Int → Prop) (st : (Int → α) × (Int → α)) (hp : 0 ≤ self.p)
    (hS : ∀ b, (∃ d, 0 ≤ d ∧ d < self.dim ∧ b = i * self.dim + d) → ¬ S b)
    (h : PowersStored self S st) :
    PowersStored self (fun b => S b ∨ ∃ d, 0 ≤ d ∧ d < self.dim ∧ b = i * self.dim + d)
      (Matrix_powers_cell self c list st i) := by
  unfold Matrix_powers_cell
  have h1 := PowersStored_centre self S i (fun d => self.dm.centroid (list i) d.toNat) st.2
    (loopRange self.dim) st.1
    (fun d hd => hS _ ⟨d, ((mem_loopRange _ _).1 hd).1, ((mem_loopRange _ _).1 hd).2, rfl⟩) h
  have h2 := PowersStored_foldl self (Matrix_powers_coord self (self.dm.centroid c) i)
    (fun d b => b = i * self.dim + d) (loopRange self.dim)
    (fun S1 st1 d _ hst hK => Matrix_powers_coord_stored self _ i d S1 st1 hp (hK _ rfl) hst)
    ((nodup_loopRange self.dim).imp (fun hne b hb hb2 => hne (by omega)))
    S _ h1
    (fun d hd b hb => hS b ⟨d, ((mem_loopRange _ _).1 hd).1, ((mem_loopRange _ _).1 hd).2, hb⟩)
  refine PowersStored_mono self _ _ _ (fun b hb => ?_) h2
  rcases hb with hb | ⟨d, hd0, hd1, hb⟩
  · exact Or.inl hb
  · exact Or.inr ⟨d, (mem_loopRange _ _).2 ⟨hd0, hd1⟩, hb⟩

/-- After the first loop nest of `RBF::Matrix`, `xp[(i*dim+d)*p1 + px] = x[i*dim+d]^px` for
every cell `i` of the list, every coordinate `d` and every `px = 0 .. p`. -/
theorem Matrix_powers_stored (self : RBF α) (c nCells : Int) (list : Int → Int)
    (x xp : Int → α) (hp : 0 ≤ self.p) (i d : Int) (hi0 : 0 ≤ i) (hi : i < nCells)
    (hd0 : 0 ≤ d) (hd : d < self.dim) (px : Nat) (hpx : (px : Int) ≤ self.p) :
    (Matrix_powers self c nCells list x xp).2 ((i * self.dim + d) * (self.p + 1) + px) =
      (Matrix_powers self c nCells list x xp).1 (i * self.dim + d) ^ px := by
  have h := PowersStored_foldl self (Matrix_powers_cell self c list)
    (fun i b => ∃ d, 0 ≤ d ∧ d < self.dim ∧ b = i * self.dim + d) (loopRange nCells)
    (fun S1 st1 i1 _ hst hK => Matrix_powers_cell_stored self c list i1 S1 st1 hp hK hst)
    ((nodup_loopRange nCells).imp (fun {i1 i2} hne b hb hb2 => by
      obtain ⟨d1, hd10, hd11, rfl⟩ := hb
      obtain ⟨d2, hd20, hd21, hb2⟩ := hb2
      exact hne (flat_index_inj self.dim d1 d2 i1 i2 hd10 hd11 hd20 hd21 hb2).1))
    (fun _ => False) (x, xp) (fun b hb => False.elim hb) (fun _ _ _ _ hf => hf)
  exact h (i * self.dim + d)
    (Or.inr ⟨i, (mem_loopRange _ _).2 ⟨hi0, hi⟩, d, hd0, hd, rfl⟩) px hpx

/-! ### The polynomial columns of `Matrix` and the polynomial rows of the right-hand side -/

theorem withCounter_of_getElem {β : Type} (start : Int) (l : List β) (k : Nat) (e : β)
    (hk : l[k]? = some e) : (start + k, e) ∈ withCounter start l :=
  (mem_withCounter start l _ e).2 ⟨k, rfl, hk⟩

theorem withCounter_snd_of_fst {β : Type} (start : Int) (l : List β) (k : Nat) (e : β)
    (hk : l[k]? = some e) (je : Int × β) (hje : je ∈ withCounter start l)
    (h : je.1 = start + k) : je.2 = e := by
  obtain ⟨k1, hk1, hget⟩ := (mem_withCounter start l je.1 je.2).1 hje
  have : k1 = k := by omega
  subst this
  rw [hk] at hget
  exact (Option.some.inj hget).symm

theorem getElem_lt_length {β : Type} (l : List β) (k : Nat) (e : β) (hk : l[k]? = some e) :
    k < l.length := by
  by_contra hge
  rw [List.getElem?_eq_none (not_lt.1 hge)] at hk
  exact Option.noConfusion hk

/-- The entry of column `nCells + k` in row `i`, and its mirror image, after the writes of the
cell block `ws0` followed by those of the augmented polynomials. -/
theorem polyWrites_entry {β : Type} (exps : List β) (v : Int → β → α) (nCells m : Int)
    (hm : m = nCells + exps.length) (ws0 : List (Int × α))
    (hws0 : ∀ w ∈ ws0, ∃ r s, 0 ≤ r ∧ r < nCells ∧ 0 ≤ s ∧ s < nCells ∧ w.1 = r * m + s)
    (i : Int) (hi0 : 0 ≤ i) (hi : i < nCells) (k : Nat) (e : β) (hk : exps[k]? = some e)
    (a : Int → α) :
    applyWrites (ws0 ++ (loopRange nCells).flatMap fun i =>
        (withCounter nCells exps).flatMap fun je =>
          [(je.1 * m + i, v i je.2), (i * m + je.1, v i je.2)]) a (i * m + (nCells + k)) =
        v i e ∧
    applyWrites (ws0 ++ (loopRange nCells).flatMap fun i =>
        (withCounter nCells exps).flatMap fun je =>
          [(je.1 * m + i, v i je.2), (i * m + je.1, v i je.2)]) a ((nCells + k) * m + i) =
        v i e := by
  have hklt := getElem_lt_length exps k e hk
  have hmem := withCounter_of_getElem nCells exps k e hk
  have hkm : nCells + (k : Int) < m := by omega
  constructor
  · apply applyWrites_of_consistent
    · refine ⟨(i * m + (nCells + k), v i e), List.mem_append_right _ ?_, rfl⟩
      simp only [List.mem_flatMap, mem_loopRange]
      exact ⟨i, ⟨hi0, hi⟩, (nCells + k, e), hmem, by simp⟩
    · intro w hw hidx
      rcases List.mem_append.1 hw with hw | hw
      · obtain ⟨r, s, hr0, hr, hs0, hs, hw1⟩ := hws0 w hw
        rw [hw1] at hidx
        have := (flat_index_inj m s (nCells + k) r i hs0 (by omega) (by omega) hkm hidx).2
        omega
      · simp only [List.mem_flatMap, mem_loopRange, List.mem_cons, List.mem_singleton,
          List.not_mem_nil, or_false] at hw
        obtain ⟨i1, ⟨hi10, hi11⟩, je, hje, rfl | rfl⟩ := hw
        · have hr := withCounter_fst_range nCells exps je hje
          have := (flat_index_inj m i1 (nCells + k) je.1 i hi10 (by omega) (by omega) hkm
            hidx).2
          omega
        · have hr := withCounter_fst_range nCells exps je hje
          obtain ⟨h1, h2⟩ := flat_index_inj m je.1 (nCells + k) i1 i (by omega) (by omega)
            (by omega) hkm hidx
          show v i1 je.2 = v i e
          rw [h1, withCounter_snd_of_fst nCells exps k e hk je hje h2]
  · apply applyWrites_of_consistent
    · refine ⟨((nCells + k) * m + i, v i e), List.mem_append_right _ ?_, rfl⟩
      simp only [List.mem_flatMap, mem_loopRange]
      exact ⟨i, ⟨hi0, hi⟩, (nCells + k, e), hmem, by simp⟩
    · intro w hw hidx
      rcases List.mem_append.1 hw with hw | hw
      · obtain ⟨r, s, hr0, hr, hs0, hs, hw1⟩ := hws0 w hw
        rw [hw1] at hidx
        have := (flat_index_inj m s i r (nCells + k) hs0 (by omega) hi0 (by omega) hidx).1
        omega
      · simp only [List.mem_flatMap, mem_loopRange, List.mem_cons, List.mem_singleton,
          List.not_mem_nil, or_false] at hw
        obtain ⟨i1, ⟨hi10, hi11⟩, je, hje, rfl | rfl⟩ := hw
        · have hr := withCounter_fst_range nCells exps je hje
          obtain ⟨h1, h2⟩ := flat_index_inj m i1 i je.1 (nCells + k) hi10 (by omega) hi0
            (by omega) hidx
          show v i1 je.2 = v i e
          rw [h2, withCounter_snd_of_fst nCells exps k e hk je hje h1]
        · have hr := withCounter_fst_range nCells exps je hje
          have := (flat_index_inj m je.1 i i1 (nCells + k) (by omega) (by omega) hi0
            (by omega) hidx).1
          omega

/-- The entry of row `nCells + k` in column `j0` of the right-hand side, after the writes of
the cell rows `ws0` followed by those of the polynomial rows. -/
theorem rhsWrites_entry {β : Type} (exps : List β) (cond : Int → β → Bool) (v : β → α)
    (nCells m nDer : Int) (hm : m = nCells + exps.length) (h0 : 0 ≤ nCells)
    (ws0 : List (Int × α))
    (hws0 : ∀ w ∈ ws0, ∃ i j, 0 ≤ i ∧ i < nCells ∧ w.1 = i + j * m)
    (j0 : Int) (hj0 : 0 ≤ j0) (hj : j0 < nDer) (k : Nat) (e : β) (hk : exps[k]? = some e)
    (a : Int → α) :
    applyWrites (ws0 ++ (loopRange nDer).flatMap fun j =>
        ((withCounter nCells exps).filter fun ie => cond j ie.2).map fun ie =>
          (ie.1 + j * m, v ie.2)) a ((nCells + k) + j0 * m) =
      if cond j0 e then v e else a ((nCells + k) + j0 * m) := by
  have hklt := getElem_lt_length exps k e hk
  have hmem := withCounter_of_getElem nCells exps k e hk
  have hkm : nCells + (k : Int) < m := by omega
  have key : ∀ w ∈ (ws0 ++ (loopRange nDer).flatMap fun j =>
        ((withCounter nCells exps).filter fun ie => cond j ie.2).map fun ie =>
          (ie.1 + j * m, v ie.2)), w.1 = (nCells + k) + j0 * m → cond j0 e = true ∧ w.2 = v e := by
    intro w hw hidx
    rcases List.mem_append.1 hw with hw | hw
    · obtain ⟨i, j, hi0, hi, hw1⟩ := hws0 w hw
      rw [hw1, add_comm i, add_comm (nCells + (k : Int))] at hidx
      have := (flat_index_inj m i (nCells + k) j j0 hi0 (by omega) (by omega) hkm hidx).2
      omega
    · simp only [List.mem_flatMap, mem_loopRange, List.mem_map, List.mem_filter] at hw
      obtain ⟨j, -, ie, ⟨hie, hcond⟩, rfl⟩ := hw
      have hr := withCounter_fst_range nCells exps ie hie
      simp only at hidx
      rw [add_comm ie.1, add_comm (nCells + (k : Int))] at hidx
      obtain ⟨h1, h2⟩ := flat_index_inj m ie.1 (nCells + k) j j0 (by omega) (by omega)
        (by omega) hkm hidx
      have he := withCounter_snd_of_fst nCells exps k e hk ie hie h2
      subst h1
      rw [he] at hcond
      exact ⟨hcond, by rw [he]⟩
  by_cases hcond : cond j0 e = true
  · rw [if_pos hcond]
    apply applyWrites_of_consistent
    · refine ⟨((nCells + k) + j0 * m, v e), List.mem_append_right _ ?_, rfl⟩
      simp only [List.mem_flatMap, mem_loopRange, List.mem_map, List.mem_filter]
      exact ⟨j0, ⟨hj0, hj⟩, (nCells + k, e), ⟨hmem, hcond⟩, rfl⟩
    · intro w hw hidx
      exact (key w hw hidx).2
  · rw [if_neg hcond]
    apply applyWrites_of_forall_ne
    intro w hw hidx
    exact hcond (key w hw hidx).1

theorem Matrix_rbfWrites_index (self : RBF α) (nCells m : Int) (x : Int → α) (w : Int × α)
    (hw : w ∈ Matrix_rbfWrites self nCells m x) :
    ∃ r s, 0 ≤ r ∧ r < nCells ∧ 0 ≤ s ∧ s < nCells ∧ w.1 = r * m + s := by
  unfold Matrix_rbfWrites at hw
  simp only [List.mem_flatMap, mem_loopRange, List.mem_cons, List.mem_singleton,
    List.not_mem_nil, or_false] at hw
  obtain ⟨i, ⟨hi0, hi⟩, k, ⟨hk0, hk⟩, rfl | rfl⟩ := hw
  · exact ⟨i + k, i, by omega, by omega, hi0, hi, rfl⟩
  · exact ⟨i, i + k, hi0, hi, by omega, by omega, rfl⟩

/-- For `dim == 2`, `RBF::Matrix` places the monomial with the `k`-th exponent pair `(px, py)`
of the polynomial loops in column `nCells + k` (and, the matrix being symmetric, in row
`nCells + k`): the entry for cell `i` is `xp[(i*dim+0)*p1 + px] * xp[(i*dim+1)*p1 + py]`. -/
theorem Matrix_writes_entry2D (self : RBF α) (nCells : Int) (x xp : Int → α)
    (hc : self.Consistent) (hd : self.dim = 2) (i : Int) (hi0 : 0 ≤ i)
    (hi : i < nCells) (k : Nat) (px py : Int)
    (hk : (polyExponents2D (self.p + 1))[k]? = some (px, py)) (a : Int → α) :
    applyWrites (Matrix_writes self nCells (nCells + self.nPoly) x xp) a
        (i * (nCells + self.nPoly) + (nCells + k)) =
      xp ((i * self.dim + 0) * (self.p + 1) + px) * xp ((i * self.dim + 1) * (self.p + 1) + py) ∧
    applyWrites (Matrix_writes self nCells (nCells + self.nPoly) x xp) a
        ((nCells + k) * (nCells + self.nPoly) + i) =
      xp ((i * self.dim + 0) * (self.p + 1) + px) * xp ((i * self.dim + 1) * (self.p + 1) + py) := by
  unfold Matrix_writes Matrix_polyWrites2D
  rw [if_pos hd]
  exact polyWrites_entry (polyExponents2D (self.p + 1))
    (fun i e => xp ((i * self.dim + 0) * (self.p + 1) + e.1) *
      xp ((i * self.dim + 1) * (self.p + 1) + e.2))
    nCells (nCells + self.nPoly) (by rw [hc.2.2.1 hd]) _
    (Matrix_rbfWrites_index self nCells _ x) i hi0 hi k (px, py) hk a

/-- For `dim != 2`, `RBF::Matrix` places the monomial with the `k`-th exponent triple
`(px, py, pz)` of the polynomial loops in column `nCells + k`. -/
theorem Matrix_writes_entry3D (self : RBF α) (nCells : Int) (x xp : Int → α)
    (hc : self.Consistent) (hd : self.dim ≠ 2) (i : Int) (hi0 : 0 ≤ i)
    (hi : i < nCells) (k : Nat) (px py pz : Int)
    (hk : (polyExponents3D (self.p + 1))[k]? = some (px, py, pz)) (a : Int → α) :
    applyWrites (Matrix_writes self nCells (nCells + self.nPoly) x xp) a
        (i * (nCells + self.nPoly) + (nCells + k)) =
      xp ((i * self.dim + 0) * (self.p + 1) + px) * xp ((i * self.dim + 1) * (self.p + 1) + py) *
        xp ((i * self.dim + 2) * (self.p + 1) + pz) ∧
    applyWrites (Matrix_writes self nCells (nCells + self.nPoly) x xp) a
        ((nCells + k) * (nCells + self.nPoly) + i) =
      xp ((i * self.dim + 0) * (self.p + 1) + px) * xp ((i * self.dim + 1) * (self.p + 1) + py) *
        xp ((i * self.dim + 2) * (self.p + 1) + pz) := by
  unfold Matrix_writes Matrix_polyWrites3D
  rw [if_neg hd]
  exact polyWrites_entry (polyExponents3D (self.p + 1))
    (fun i e => xp ((i * self.dim + 0) * (self.p + 1) + e.1) *
      xp ((i * self.dim + 1) * (self.p + 1) + e.2.1) *
      xp ((i * self.dim + 2) * (self.p + 1) + e.2.2))
    nCells (nCells + self.nPoly) (by rw [hc.2.2.2 hd]) _
    (Matrix_rbfWrites_index self nCells _ x) i hi0 hi k (px, py, pz) hk a

/-- For `dim == 2`, the entry of the right-hand side in row `nCells + k` and column `j`, as
`RBF::Weights` assembles it. -/
theorem Weights_rhsWrites_entry2D (self : RBF α) (facMem : Int → Int) (nCells nDer : Int)
    (dxyz : Int → Int) (x : Int → α) (hc : self.Consistent) (hd : self.dim = 2)
    (h0 : 0 ≤ nCells) (j : Int) (hj0 : 0 ≤ j) (hj : j < nDer) (k : Nat) (px py : Int)
    (hk : (polyExponents2D (self.p + 1))[k]? = some (px, py)) :
    applyWrites (Weights_rhsWrites self facMem nCells (nCells + self.nPoly) nDer dxyz x)
        (fun _ => 0) ((nCells + k) + j * (nCells + self.nPoly)) =
      if dxyz (j * 3 + 0) = px ∧ dxyz (j * 3 + 1) = py then
        ((fac facMem px * fac facMem py : Int) : α) else 0 := by
  unfold Weights_rhsWrites
  simp only [if_pos hd]
  have h := rhsWrites_entry (polyExponents2D (self.p + 1))
    (fun j e => decide (dxyz (j * 3 + 0) = e.1 ∧ dxyz (j * 3 + 1) = e.2))
    (fun e => ((fac facMem e.1 * fac facMem e.2 : Int) : α))
    nCells (nCells + self.nPoly) nDer (by rw [hc.2.2.1 hd]) h0
    ((loopRange nCells).flatMap fun i => (loopRange nDer).map fun j =>
      (i + j * (nCells + self.nPoly),
        self.RBFDer (fun d => x (i * self.dim + d)) (dxyz (j * 3 + 0)) (dxyz (j * 3 + 1))
          (dxyz (j * 3 + 2))))
    (fun w hw => by
      simp only [List.mem_flatMap, mem_loopRange, List.mem_map] at hw
      obtain ⟨i, ⟨hi0, hi⟩, j1, -, rfl⟩ := hw
      exact ⟨i, j1, hi0, hi, rfl⟩)
    j hj0 hj k (px, py) hk (fun _ => 0)
  simp only [decide_eq_true_eq] at h
  exact h

/-- For `dim != 2`, the entry of the right-hand side in row `nCells + k` and column `j`, as
`RBF::Weights` assembles it. -/
theorem Weights_rhsWrites_entry3D (self : RBF α) (facMem : Int → Int) (nCells nDer : Int)
    (dxyz : Int → Int) (x : Int → α) (hc : self.Consistent) (hd : self.dim ≠ 2)
    (h0 : 0 ≤ nCells) (j : Int) (hj0 : 0 ≤ j) (hj : j < nDer) (k : Nat) (px py pz : Int)
    (hk : (polyExponents3D (self.p + 1))[k]? = some (px, py, pz)) :
    applyWrites (Weights_rhsWrites self facMem nCells (nCells + self.nPoly) nDer dxyz x)
        (fun _ => 0) ((nCells + k) + j * (nCells + self.nPoly)) =
      if dxyz (j * 3 + 0) = px ∧ dxyz (j * 3 + 1) = py ∧ dxyz (j * 3 + 2) = pz then
        ((fac facMem px * fac facMem py * fac facMem pz : Int) : α) else 0 := by
  unfold Weights_rhsWrites
  simp only [if_neg hd]
  have h := rhsWrites_entry (polyExponents3D (self.p + 1))
    (fun j e => decide (dxyz (j * 3 + 0) = e.1 ∧ dxyz (j * 3 + 1) = e.2.1 ∧
      dxyz (j * 3 + 2) = e.2.2))
    (fun e => ((fac facMem e.1 * fac facMem e.2.1 * fac facMem e.2.2 : Int) : α))
    nCells (nCells + self.nPoly) nDer (by rw [hc.2.2.2 hd]) h0
    ((loopRange nCells).flatMap fun i => (loopRange nDer).map fun j =>
      (i + j * (nCells + self.nPoly),
        self.RBFDer (fun d => x (i * self.dim + d)) (dxyz (j * 3 + 0)) (dxyz (j * 3 + 1))
          (dxyz (j * 3 + 2))))
    (fun w hw => by
      simp only [List.mem_flatMap, mem_loopRange, List.mem_map] at hw
      obtain ⟨i, ⟨hi0, hi⟩, j1, -, rfl⟩ := hw
      exact ⟨i, j1, hi0, hi, rfl⟩)
    j hj0 hj k (px, py, pz) hk (fun _ => 0)
  simp only [decide_eq_true_eq] at h
  exact h

/-! ### Derivatives of monomials at the origin -/

theorem iterate_pderiv_monomial {σ : Type} [DecidableEq σ] (i : σ) (d : Nat)
    (s : σ →₀ Nat) (a : α) :
    (MvPolynomial.pderiv i)^[d] (MvPolynomial.monomial s a) =
      MvPolynomial.monomial (s - Finsupp.single i d) (a * ((s i).descFactorial d : α)) := by
  induction d with
  | zero => simp
  | succ d ih =>
    rw [Function.iterate_succ_apply', ih, MvPolynomial.pderiv_monomial, tsub_tsub,
      ← Finsupp.single_add]
    congr 1
    simp only [Finsupp.coe_tsub, Pi.sub_apply, Finsupp.single_eq_same]
    rw [Nat.descFactorial_succ]
    push_cast
    ring

theorem eval_zero_monomial {σ : Type} [DecidableEq σ] (s : σ →₀ Nat) (a : α) :
    MvPolynomial.eval (fun _ => (0 : α)) (MvPolynomial.monomial s a) =
      if s = 0 then a else 0 := by
  rw [MvPolynomial.eval_monomial]
  by_cases h : s = 0
  · subst h; simp
  · rw [if_neg h]
    obtain ⟨j, hj⟩ : ∃ j, s j ≠ 0 := by
      by_contra hh
      push_neg at hh
      exact h (Finsupp.ext hh)
    have : s.prod (fun _ e => (0 : α) ^ e) = 0 := by
      unfold Finsupp.prod
      apply Finset.prod_eq_zero (Finsupp.mem_support_iff.2 hj)
      exact zero_pow hj
    rw [this, mul_zero]

/-- The partial derivative of order `(dx, dy)` of `x^px y^py` at the origin is `px! py!` when
`(dx, dy) = (px, py)` and `0` otherwise. -/
theorem pderiv_monomial_origin_two (px py dx dy : Nat) :
    MvPolynomial.eval (fun _ => (0 : α)) ((MvPolynomial.pderiv 0)^[dx]
      ((MvPolynomial.pderiv 1)^[dy]
        ((MvPolynomial.X 0) ^ px * (MvPolynomial.X 1) ^ py : MvPolynomial (Fin 2) α))) =
      if dx = px ∧ dy = py then ((px.factorial * py.factorial : Nat) : α) else 0 := by
  rw [MvPolynomial.X_pow_eq_monomial, MvPolynomial.X_pow_eq_monomial, MvPolynomial.monomial_mul,
    iterate_pderiv_monomial, iterate_pderiv_monomial, eval_zero_monomial]
  have hs : (Finsupp.single (0 : Fin 2) px + Finsupp.single 1 py - Finsupp.single 1 dy -
      Finsupp.single 0 dx = 0) ↔ px ≤ dx ∧ py ≤ dy := by
    rw [Finsupp.ext_iff]
    simp [Fin.forall_fin_two]
    omega
  simp only [hs]
  simp
  by_cases h : dx = px ∧ dy = py
  · obtain ⟨rfl, rfl⟩ := h
    simp [Nat.descFactorial_self, mul_comm]
  · rw [if_neg h]
    by_cases h2 : px ≤ dx ∧ py ≤ dy
    · rw [if_pos h2]
      by_cases hx : px < dx
      · rw [Nat.descFactorial_of_lt hx]; simp
      · have hy : py < dy := by omega
        rw [Nat.descFactorial_of_lt hy]; simp
    · rw [if_neg h2]

/-- The partial derivative of order `(dx, dy, dz)` of `x^px y^py z^pz` at the origin is
`px! py! pz!` when `(dx, dy, dz) = (px, py, pz)` and `0` otherwise. -/
theorem pderiv_monomial_origin_three (px py pz dx dy dz : Nat) :
    MvPolynomial.eval (fun _ => (0 : α)) ((MvPolynomial.pderiv 0)^[dx]
      ((MvPolynomial.pderiv 1)^[dy] ((MvPolynomial.pderiv 2)^[dz]
        ((MvPolynomial.X 0) ^ px * (MvPolynomial.X 1) ^ py * (MvPolynomial.X 2) ^ pz :
          MvPolynomial (Fin 3) α)))) =
      if dx = px ∧ dy = py ∧ dz = pz then
        ((px.factorial * py.factorial * pz.factorial : Nat) : α) else 0 := by
  rw [MvPolynomial.X_pow_eq_monomial, MvPolynomial.X_pow_eq_monomial,
    MvPolynomial.X_pow_eq_monomial, MvPolynomial.monomial_mul, MvPolynomial.monomial_mul,
    iterate_pderiv_monomial, iterate_pderiv_monomial, iterate_pderiv_monomial,
    eval_zero_monomial]
  have hs : (Finsupp.single (0 : Fin 3) px + Finsupp.single 1 py + Finsupp.single 2 pz -
      Finsupp.single 2 dz - Finsupp.single 1 dy - Finsupp.single 0 dx = 0) ↔
      px ≤ dx ∧ py ≤ dy ∧ pz ≤ dz := by
    rw [Finsupp.ext_iff]
    simp [Fin.forall_fin_succ]
    omega
  simp only [hs]
  simp
  by_cases h : dx = px ∧ dy = py ∧ dz = pz
  · obtain ⟨rfl, rfl, rfl⟩ := h
    simp [Nat.descFactorial_self]
    ring
  · rw [if_neg h]
    by_cases h2 : px ≤ dx ∧ py ≤ dy ∧ pz ≤ dz
    · rw [if_pos h2]
      by_cases hx : px < dx
      · rw [Nat.descFactorial_of_lt hx]; simp
      · by_cases hy : py < dy
        · rw [Nat.descFactorial_of_lt hy]; simp
        · have hz : pz < dz := by omega
          rw [Nat.descFactorial_of_lt hz]; simp
    · rw [if_neg h2]

/-! ### The table of factorials -/

theorem fac_eq_factorial (mem : Int → Int) (n : Nat) (h : n ≤ 10) :
    fac mem (n : Int) = (n.factorial : Int) := by
  interval_cases n <;> rfl

theorem factorial_le_ten (n : Nat) (h : n ≤ 10) : n.factorial ≤ 3628800 := by
  have := Nat.factorial_le h
  have h10 : Nat.factorial 10 = 3628800 := by decide
  omega

theorem fac_mul_fits (mem : Int → Int) (a b : Int) (ha : 0 ≤ a) (hb : 0 ≤ b)
    (hab : a + b ≤ 10) : petscInt (fac mem a * fac mem b) = some (fac mem a * fac mem b) := by
  obtain ⟨a, rfl⟩ := Int.eq_ofNat_of_zero_le ha
  obtain ⟨b, rfl⟩ := Int.eq_ofNat_of_zero_le hb
  rw [fac_eq_factorial mem a (by omega), fac_eq_factorial mem b (by omega)]
  have h1 := Nat.le_of_dvd (Nat.factorial_pos _) (Nat.factorial_mul_factorial_dvd_factorial_add a b)
  have h2 := factorial_le_ten (a + b) (by omega)
  unfold petscInt PETSC_MAX_INT
  rw [if_pos]
  have h3 : ((a.factorial : Int) * (b.factorial : Int)) = ((a.factorial * b.factorial : Nat) : Int) := by
    push_cast; rfl
  rw [h3]
  omega

theorem fac_mul_mul_fits (mem : Int → Int) (a b c : Int) (ha : 0 ≤ a) (hb : 0 ≤ b)
    (hc : 0 ≤ c) (hab : a + b + c ≤ 10) :
    petscInt (fac mem a * fac mem b * fac mem c) = some (fac mem a * fac mem b * fac mem c) := by
  obtain ⟨a, rfl⟩ := Int.eq_ofNat_of_zero_le ha
  obtain ⟨b, rfl⟩ := Int.eq_ofNat_of_zero_le hb
  obtain ⟨c, rfl⟩ := Int.eq_ofNat_of_zero_le hc
  rw [fac_eq_factorial mem a (by omega), fac_eq_factorial mem b (by omega),
    fac_eq_factorial mem c (by omega)]
  have h1 := Nat.le_of_dvd (Nat.factorial_pos _) (Nat.factorial_mul_factorial_dvd_factorial_add a b)
  have h1b := Nat.le_of_dvd (Nat.factorial_pos _)
    (Nat.factorial_mul_factorial_dvd_factorial_add (a + b) c)
  have h1c : a.factorial * b.factorial * c.factorial ≤ (a + b).factorial * c.factorial :=
    Nat.mul_le_mul_right _ h1
  have h2 := factorial_le_ten (a + b + c) (by omega)
  unfold petscInt PETSC_MAX_INT
  rw [if_pos]
  have h3 : ((a.factorial : Int) * (b.factorial : Int) * (c.factorial : Int)) =
      ((a.factorial * b.factorial * c.factorial : Nat) : Int) := by
    push_cast; rfl
  rw [h3]
  omega

theorem mem_of_mem_withCounter {β : Type} (start : Int) (l : List β) (je : Int × β)
    (h : je ∈ withCounter start l) : je.2 ∈ l := by
  obtain ⟨k, -, hget⟩ := (mem_withCounter start l je.1 je.2).1 h
  exact List.getElem?_mem hget

/-- For `p <= 10` no product of factorials formed by `RBF::Weights` overflows. -/
theorem Weights_facProducts_fit (self : RBF α) (facMem : Int → Int) (nCells nDer : Int)
    (dxyz : Int → Int) (hp10 : self.p ≤ 10) (v : Int)
    (hv : v ∈ Weights_facProducts self facMem nCells nDer dxyz) : petscInt v = some v := by
  unfold Weights_facProducts at hv
  by_cases hd : self.dim = 2
  · simp only [if_pos hd, List.mem_flatMap, List.mem_map, List.mem_filter] at hv
    obtain ⟨j, -, ie, ⟨hie, -⟩, rfl⟩ := hv
    have hmem := mem_of_mem_withCounter _ _ ie hie
    obtain ⟨h1, h2, h3⟩ := (mem_polyExponents2D _ ie.2.1 ie.2.2).1 hmem
    exact fac_mul_fits facMem _ _ h1 h2 (by omega)
  · simp only [if_neg hd, List.mem_flatMap, List.mem_filter, List.mem_cons, List.mem_singleton,
      List.not_mem_nil, or_false] at hv
    obtain ⟨j, -, ie, ⟨hie, -⟩, rfl | rfl⟩ := hv
    · have hmem := mem_of_mem_withCounter _ _ ie hie
      obtain ⟨h1, h2, h3, h4⟩ := (mem_polyExponents3D _ ie.2.1 ie.2.2.1 ie.2.2.2).1 hmem
      exact fac_mul_fits facMem _ _ h1 h2 (by omega)
    · have hmem := mem_of_mem_withCounter _ _ ie hie
      obtain ⟨h1, h2, h3, h4⟩ := (mem_polyExponents3D _ ie.2.1 ie.2.2.1 ie.2.2.2).1 hmem
      exact fac_mul_mul_fits facMem _ _ _ h1 h2 h3 (by omega)

theorem Consistent_nPoly_nonneg (self : RBF α) (hc : self.Consistent) : 0 ≤ self.nPoly := by
  by_cases hd : self.dim = 2
  · rw [hc.2.2.1 hd]; omega
  · rw [hc.2.2.2 hd]; omega

/-- With enough cells and no overflow, the first half of `RBF::Weights` succeeds; the matrix
and the right-hand side it hands to `MatMatSolve`. -/
theorem Weights_rhs_ok (self : RBF α) (mem : Unwritten α) (c nCells : Int) (list : Int → Int)
    (nDer : Int) (dxyz : Int → Int) (hc : self.Consistent) (h : nCells > self.nPoly)
    (hfit : ∀ v ∈ Weights_facProducts self mem.fac nCells nDer dxyz, petscInt v = some v) :
    self.Weights_rhs mem c nCells list nDer dxyz = Except.ok
      ({ x := (Matrix_powers self c nCells list mem.x mem.xp).1
         A := { rows := nCells + self.nPoly
                cols := nCells + self.nPoly
                vals := applyWrites (Matrix_writes self nCells (nCells + self.nPoly)
                  (Matrix_powers self c nCells list mem.x mem.xp).1
                  (Matrix_powers self c nCells list mem.x mem.xp).2) (fun _ => 0) } },
       { rows := nCells + self.nPoly
         cols := nDer
         vals := applyWrites (Weights_rhsWrites self mem.fac nCells (nCells + self.nPoly) nDer
           dxyz (Matrix_powers self c nCells list mem.x mem.xp).1) (fun _ => 0) }) := by
  have h0 : 0 ≤ nCells := by
    have := Consistent_nPoly_nonneg self hc
    omega
  unfold RBF.Weights_rhs
  rw [Matrix_ok self c nCells list mem.x mem.xp hc h]
  simp only []
  rw [if_pos]
  exact ⟨fun w hw => Weights_rhsWrites_range self mem.fac nCells nDer dxyz _ hc h0 w hw, hfit⟩

theorem polyExponents2D_getElem (p1 : Int) (k : Nat) (hk : k < (polyExponents2D p1).length) :
    ∃ px py : Nat, (polyExponents2D p1)[k]? = some ((px : Int), (py : Int)) ∧
      (px : Int) + py < p1 := by
  obtain ⟨e, he⟩ : ∃ e, (polyExponents2D p1)[k]? = some e := ⟨_, List.getElem?_eq_getElem hk⟩
  obtain ⟨a, b⟩ := e
  obtain ⟨h1, h2, h3⟩ := (mem_polyExponents2D p1 a b).1 (List.getElem?_mem he)
  refine ⟨a.toNat, b.toNat, ?_, by omega⟩
  rw [he, Int.toNat_of_nonneg h1, Int.toNat_of_nonneg h2]

theorem polyExponents3D_getElem (p1 : Int) (k : Nat) (hk : k < (polyExponents3D p1).length) :
    ∃ px py pz : Nat,
      (polyExponents3D p1)[k]? = some ((px : Int), (py : Int), (pz : Int)) ∧
      (px : Int) + py + pz < p1 := by
  obtain ⟨e, he⟩ : ∃ e, (polyExponents3D p1)[k]? = some e := ⟨_, List.getElem?_eq_getElem hk⟩
  obtain ⟨a, b, c⟩ := e
  obtain ⟨h1, h2, h3, h4⟩ := (mem_polyExponents3D p1 a b c).1 (List.getElem?_mem he)
  refine ⟨a.toNat, b.toNat, c.toNat, ?_, by omega⟩
  rw [he, Int.toNat_of_nonneg h1, Int.toNat_of_nonneg h2, Int.toNat_of_nonneg h3]

/-- C20 (amended): for an object built by the constructor with polynomial order `0 <= p <= 10`
and a stencil of `nCells > nPoly` cells, the first half of `RBF::Weights` succeeds and, for every
`k < nPoly`, with `(px, py(, pz))` the `k`-th exponent tuple of the polynomial loops:
`RBF::Matrix` places the monomial `x^px y^py (z^pz)` of the shifted centres in column
`nCells + k`, and for every registered derivative `j` the right-hand-side entry in row
`nCells + k` is `px!*py!(*pz!)` when `(dx, dy(, dz)) = (px, py(, pz))` and `0` otherwise, which
is the `(dx, dy(, dz))` partial derivative of that monomial at the origin (for `dim == 2` the
entry `dz` is not consulted).  The table `fac[n]` is `n!` for `n = 0 .. 10`. -/
theorem Weights_rhs_polynomial_rows (dm : DM α) (p : Int)
    (RBFVal : (Int → α) → (Int → α) → α) (RBFDer : (Int → α) → Int → Int → Int → α)
    (self : RBF α) (mem : Unwritten α) (c nCells : Int) (list : Int → Int) (nDer : Int)
    (dxyz : Int → Int) (hp : 0 ≤ p) (hp10 : p ≤ 10)
    (hself : RBF.ctor dm p RBFVal RBFDer = some self) (hn : nCells > self.nPoly) :
    (∀ n : Nat, n ≤ 10 → fac mem.fac (n : Int) = (n.factorial : Int)) ∧
    ∃ m B, self.Weights_rhs mem c nCells list nDer dxyz = Except.ok (m, B) ∧
      (self.dim = 2 → ∀ k : Nat, (k : Int) < self.nPoly → ∃ px py : Nat,
        (polyExponents2D (self.p + 1))[k]? = some ((px : Int), (py : Int)) ∧
        (∀ i, 0 ≤ i → i < nCells →
          m.A.vals (i * (nCells + self.nPoly) + (nCells + k)) =
            m.x (i * self.dim + 0) ^ px * m.x (i * self.dim + 1) ^ py) ∧
        (∀ j, 0 ≤ j → j < nDer →
          B.vals ((nCells + k) + j * (nCells + self.nPoly)) =
            (if dxyz (j * 3 + 0) = px ∧ dxyz (j * 3 + 1) = py then
              ((px.factorial * py.factorial : Nat) : α) else 0) ∧
          ∀ dx dy : Nat, dxyz (j * 3 + 0) = dx → dxyz (j * 3 + 1) = dy →
            B.vals ((nCells + k) + j * (nCells + self.nPoly)) =
              MvPolynomial.eval (fun _ => (0 : α)) ((MvPolynomial.pderiv 0)^[dx]
                ((MvPolynomial.pderiv 1)^[dy]
                  ((MvPolynomial.X 0) ^ px * (MvPolynomial.X 1) ^ py :
                    MvPolynomial (Fin 2) α))))) ∧
      (self.dim = 3 → ∀ k : Nat, (k : Int) < self.nPoly → ∃ px py pz : Nat,
        (polyExponents3D (self.p + 1))[k]? = some ((px : Int), (py : Int), (pz : Int)) ∧
        (∀ i, 0 ≤ i → i < nCells →
          m.A.vals (i * (nCells + self.nPoly) + (nCells + k)) =
            m.x (i * self.dim + 0) ^ px * m.x (i * self.dim + 1) ^ py *
              m.x (i * self.dim + 2) ^ pz) ∧
        (∀ j, 0 ≤ j → j < nDer →
          B.vals ((nCells + k) + j * (nCells + self.nPoly)) =
            (if dxyz (j * 3 + 0) = px ∧ dxyz (j * 3 + 1) = py ∧ dxyz (j * 3 + 2) = pz then
              ((px.factorial * py.factorial * pz.factorial : Nat) : α) else 0) ∧
          ∀ dx dy dz : Nat, dxyz (j * 3 + 0) = dx → dxyz (j * 3 + 1) = dy →
            dxyz (j * 3 + 2) = dz →
            B.vals ((nCells + k) + j * (nCells + self.nPoly)) =
              MvPolynomial.eval (fun _ => (0 : α)) ((MvPolynomial.pderiv 0)^[dx]
                ((MvPolynomial.pderiv 1)^[dy] ((MvPolynomial.pderiv 2)^[dz]
                  ((MvPolynomial.X 0) ^ px * (MvPolynomial.X 1) ^ py * (MvPolynomial.X 2) ^ pz :
                    MvPolynomial (Fin 3) α)))))) := by
  obtain ⟨hc, hpp, -, -, -, -⟩ := Consistent_of_ctor dm p RBFVal RBFDer self hp hself
  have hsp : 0 ≤ self.p := hc.1
  have hsp10 : self.p ≤ 10 := by rw [hpp]; exact hp10
  refine ⟨fun n hn10 => fac_eq_factorial mem.fac n hn10, _, _,
    Weights_rhs_ok self mem c nCells list nDer dxyz hc hn
      (fun v hv => Weights_facProducts_fit self mem.fac nCells nDer dxyz hsp10 v hv), ?_, ?_⟩
  · intro hd k hk
    rw [hc.2.2.1 hd] at hk
    obtain ⟨px, py, hget, hsum⟩ := polyExponents2D_getElem (self.p + 1) k (by omega)
    refine ⟨px, py, hget, ?_, ?_⟩
    · intro i hi0 hi
      show applyWrites _ _ _ = _
      rw [(Matrix_writes_entry2D self nCells _ _ hc hd i hi0 hi k px py hget _).1,
        Matrix_powers_stored self c nCells list mem.x mem.xp hsp i 0 hi0 hi (le_refl _)
          (by omega) px (by omega),
        Matrix_powers_stored self c nCells list mem.x mem.xp hsp i 1 hi0 hi (by omega)
          (by omega) py (by omega)]
    · intro j hj0 hj
      have hentry : applyWrites (Weights_rhsWrites self mem.fac nCells (nCells + self.nPoly)
          nDer dxyz (Matrix_powers self c nCells list mem.x mem.xp).1) (fun _ => 0)
          ((nCells + k) + j * (nCells + self.nPoly)) =
          (if dxyz (j * 3 + 0) = px ∧ dxyz (j * 3 + 1) = py then
            ((px.factorial * py.factorial : Nat) : α) else 0) := by
        rw [Weights_rhsWrites_entry2D self mem.fac nCells nDer dxyz _ hc hd (by
            have := Consistent_nPoly_nonneg self hc
            omega) j hj0 hj k px py hget,
          fac_eq_factorial mem.fac px (by omega), fac_eq_factorial mem.fac py (by omega)]
        push_cast
        rfl
      refine ⟨hentry, fun dx dy hdx hdy => ?_⟩
      show applyWrites _ _ _ = _
      rw [hentry, pderiv_monomial_origin_two, hdx, hdy]
      simp only [Nat.cast_inj]
  · intro hd3 k hk
    have hd : self.dim ≠ 2 := by omega
    rw [hc.2.2.2 hd] at hk
    obtain ⟨px, py, pz, hget, hsum⟩ := polyExponents3D_getElem (self.p + 1) k (by omega)
    refine ⟨px, py, pz, hget, ?_, ?_⟩
    · intro i hi0 hi
      show applyWrites _ _ _ = _
      rw [(Matrix_writes_entry3D self nCells _ _ hc hd i hi0 hi k px py pz hget _).1,
        Matrix_powers_stored self c nCells list mem.x mem.xp hsp i 0 hi0 hi (le_refl _)
          (by omega) px (by omega),
        Matrix_powers_stored self c nCells list mem.x mem.xp hsp i 1 hi0 hi (by omega)
          (by omega) py (by omega),
        Matrix_powers_stored self c nCells list mem.x mem.xp hsp i 2 hi0 hi (by omega)
          (by omega) pz (by omega)]
    · intro j hj0 hj
      have hentry : applyWrites (Weights_rhsWrites self mem.fac nCells (nCells + self.nPoly)
          nDer dxyz (Matrix_powers self c nCells list mem.x mem.xp).1) (fun _ => 0)
          ((nCells + k) + j * (nCells + self.nPoly)) =
          (if dxyz (j * 3 + 0) = px ∧ dxyz (j * 3 + 1) = py ∧ dxyz (j * 3 + 2) = pz then
            ((px.factorial * py.factorial * pz.factorial : Nat) : α) else 0) := by
        rw [Weights_rhsWrites_entry3D self mem.fac nCells nDer dxyz _ hc hd (by
            have := Consistent_nPoly_nonneg self hc
            omega) j hj0 hj k px py pz hget,
          fac_eq_factorial mem.fac px (by omega), fac_eq_factorial mem.fac py (by omega),
          fac_eq_factorial mem.fac pz (by omega)]
        push_cast
        rfl
      refine ⟨hentry, fun dx dy dz hdx hdy hdz => ?_⟩
      show applyWrites _ _ _ = _
      rw [hentry, pderiv_monomial_origin_three, hdx, hdy, hdz]
      simp only [Nat.cast_inj]

/-- Order 1 on the 3 by 3 box mesh with a stencil of five cells and the registered derivative
`(1, 0, 0)`. -/
theorem Weights_rhs_polynomial_rows_witness :
    ∃ self : RBF ℚ,
      RBF.ctor (quadMesh 3 3) 1 (fun _ _ => 1) (fun _ _ _ _ => 0) = some self ∧
      (5 : Int) > self.nPoly ∧
      ∃ m B, self.Weights_rhs ⟨fun _ => 0, fun _ => 0, fun _ => 0, fun _ => 0⟩ 4 5
        (fun i => i) 1 (fun i => if i = 0 then 1 else 0) = Except.ok (m, B) := by
  obtain ⟨self, hself⟩ : ∃ self : RBF ℚ,
      RBF.ctor (quadMesh 3 3) 1 (fun _ _ => 1) (fun _ _ _ _ => 0) = some self :=
    ⟨_, rfl⟩
  have hn : self.nPoly = 3 := by
    have h := (Consistent_of_ctor _ _ _ _ self (by decide) hself).2.2.2.2.1
    have h3 : RBF_nPoly (((quadMesh 3 3).dim : Nat) : Int) 1 = some 3 := by decide
    rw [h3] at h
    exact (Option.some.inj h).symm
  have hlt : (5 : Int) > self.nPoly := by rw [hn]; decide
  obtain ⟨-, m, B, h, -⟩ := Weights_rhs_polynomial_rows (quadMesh 3 3) 1 (fun _ _ => 1)
    (fun _ _ _ _ => 0) self ⟨fun _ => 0, fun _ => 0, fun _ => 0, fun _ => 0⟩ 4 5 (fun i => i) 1
    (fun i => if i = 0 then 1 else 0) (by decide) (by decide) hself hlt
  exact ⟨self, hself, hlt, m, B, h⟩

/-- C20 (refutation): with polynomial order `p = 11` in two dimensions and the registered
derivative `(11, 0, 0)`, the monomial of column `nCells + 11` is `x^11`, whose derivative of
order `(11, 0)` at the origin is `11! = 39916800`; the code forms `fac[11]*fac[0]`, and `fac[11]`
lies behind the table `fac[11]`: with a zero stored there the entry is `0`. -/
theorem Weights_rhs_reads_beyond_fac :
    ∃ self : RBF ℚ,
      RBF.ctor (quadMesh 9 9) 11 (fun _ _ => 1) (fun _ _ _ _ => 0) = some self ∧
      self.dim = 2 ∧ self.nPoly = 78 ∧
      (polyExponents2D (self.p + 1))[11]? = some (11, 0) ∧
      (∃ m B, self.Weights_rhs ⟨fun _ => 0, fun _ => 0, fun _ => 0, fun _ => 0⟩ 40 79
          (fun i => i) 1 (fun i => if i = 0 then 11 else 0) = Except.ok (m, B) ∧
        B.vals ((79 + 11) + 0 * (79 + 78)) = 0) ∧
      MvPolynomial.eval (fun _ => (0 : ℚ)) ((MvPolynomial.pderiv 0)^[11]
        ((MvPolynomial.pderiv 1)^[0]
          ((MvPolynomial.X 0) ^ 11 * (MvPolynomial.X 1) ^ 0 : MvPolynomial (Fin 2) ℚ))) =
        39916800 := by
  obtain ⟨self, hself⟩ : ∃ self : RBF ℚ,
      RBF.ctor (quadMesh 9 9) 11 (fun _ _ => 1) (fun _ _ _ _ => 0) = some self :=
    ⟨_, rfl⟩
  obtain ⟨hc, hpp, hdim, -, hnp, -⟩ := Consistent_of_ctor _ _ _ _ self (by decide) hself
  have hd : self.dim = 2 := by rw [hdim]; rfl
  have hn : self.nPoly = 78 := by
    have h3 : RBF_nPoly (((quadMesh 9 9).dim : Nat) : Int) 11 = some 78 := by decide
    rw [h3] at hnp
    exact (Option.some.inj hnp).symm
  have hget : (polyExponents2D (self.p + 1))[11]? = some (11, 0) := by
    rw [hpp]
    decide
  have hlt : (79 : Int) > self.nPoly := by rw [hn]; decide
  have hfit : ∀ v ∈ Weights_facProducts self (fun _ => 0) 79 1
      (fun i => if i = 0 then 11 else 0), petscInt v = some v := by
    intro v hv
    unfold Weights_facProducts at hv
    simp only [if_pos hd, List.mem_flatMap, List.mem_map, List.mem_filter, mem_loopRange,
      decide_eq_true_eq] at hv
    obtain ⟨j, ⟨hj0, hj1⟩, ie, ⟨-, h1, h2⟩, rfl⟩ := hv
    have hj : j = 0 := by omega
    subst hj
    rw [← h1, ← h2]
    decide
  have hentry := Weights_rhsWrites_entry2D self (fun _ => 0) 79 1
    (fun i => if i = 0 then 11 else 0)
    (Matrix_powers self 40 79 (fun i => i) (fun _ => 0) (fun _ => 0)).1 hc hd (by decide) 0
    (le_refl _) (by decide) 11 11 0 hget
  rw [if_pos (by decide)] at hentry
  have hfac : fac (fun _ => 0) 11 * fac (fun _ => 0) 0 = 0 := by decide
  rw [hfac, hn] at hentry
  have hder := pderiv_monomial_origin_two (α := ℚ) 11 0 11 0
  rw [if_pos ⟨rfl, rfl⟩] at hder
  have hfact : Nat.factorial 11 * Nat.factorial 0 = 39916800 := by decide
  rw [hfact] at hder
  refine ⟨self, hself, hd, hn, hget, ⟨_, _, Weights_rhs_ok self _ 40 79 (fun i => i) 1
    (fun i => if i = 0 then 11 else 0) hc hlt hfit, ?_⟩, hder.trans (by norm_num)⟩
  rw [hn]
  exact hentry.trans (by norm_num)

/-! ### `SetDerivatives` and the search loop of `EvalDer` -/

theorem Consistent_nPoly_ge_three (self : RBF α) (hc : self.Consistent) (hp : 1 ≤ self.p) :
    3 ≤ self.nPoly := by
  obtain ⟨m, hm⟩ : ∃ m : Nat, self.p + 1 = (m : Int) := ⟨(self.p + 1).toNat, by omega⟩
  have hm2 : 2 ≤ m := by omega
  by_cases hd : self.dim = 2
  · rw [hc.2.2.1 hd, hm]
    have h := length_polyExponents2D m
    have h6 : 2 * 3 ≤ m * (m + 1) := Nat.mul_le_mul hm2 (by omega)
    omega
  · rw [hc.2.2.2 hd, hm]
    have h := length_polyExponents3D m
    have h6 : 2 * 3 ≤ m * (m + 1) := Nat.mul_le_mul hm2 (by omega)
    have h24 : (2 * 3) * 4 ≤ m * (m + 1) * (m + 2) := Nat.mul_le_mul h6 (by omega)
    omega

theorem RBF_minNumberCells_gt (nPoly mn : Int) (h : RBF_minNumberCells nPoly = some mn)
    (hn : 2 ≤ nPoly) : mn = Int.tdiv (7 * nPoly) 4 ∧ nPoly < mn := by
  unfold RBF_minNumberCells at h
  obtain ⟨rfl, -, -⟩ := petscInt_eq_some _ _ h
  refine ⟨rfl, ?_⟩
  rw [Int.tdiv_eq_ediv (by omega) (by decide)]
  omega

/-- C21 (evaluation at the failing input): for `p = 0` the constructor sets `nPoly = 1` and
`minNumberCells = (PetscInt)(1.75*1) = 1`, in two and in three dimensions; a stencil of exactly
`minNumberCells` cells then has `nPoly >= nCells` and `RBF::Matrix` raises. -/
theorem minNumberCells_too_small_for_order_zero :
    (∃ self : RBF ℚ,
      RBF.ctor (quadMesh 3 3) 0 (fun _ _ => 1) (fun _ _ _ _ => 0) = some self ∧
      self.nPoly = 1 ∧ self.minNumberCells = 1 ∧
      self.Matrix 4 self.minNumberCells (fun i => i) (fun _ => 0) (fun _ => 0) =
        Except.error RBFError.invalid_argument) ∧
    RBF_nPoly 3 0 = some 1 ∧ RBF_minNumberCells 1 = some 1 := by
  refine ⟨?_, by decide, by decide⟩
  obtain ⟨self, hself⟩ : ∃ self : RBF ℚ,
      RBF.ctor (quadMesh 3 3) 0 (fun _ _ => 1) (fun _ _ _ _ => 0) = some self :=
    ⟨_, rfl⟩
  obtain ⟨-, -, -, -, hnp, hmin⟩ := Consistent_of_ctor _ _ _ _ self (by decide) hself
  have hn : self.nPoly = 1 := by
    have h3 : RBF_nPoly (((quadMesh 3 3).dim : Nat) : Int) 0 = some 1 := by decide
    rw [h3] at hnp
    exact (Option.some.inj hnp).symm
  have hm : self.minNumberCells = 1 := by
    rw [hn] at hmin
    have h3 : RBF_minNumberCells 1 = some 1 := by decide
    rw [h3] at hmin
    exact (Option.some.inj hmin).symm
  refine ⟨self, hself, hn, hm, ?_⟩
  rw [Matrix_invalid_argument_iff, hn, hm]

/-- For every polynomial order `p >= 1` for which the constructor succeeds, the
minimum stencil size `minNumberCells = floor(1.75 * nPoly)` exceeds `nPoly`, so that
`RBF::Matrix` called with a stencil of exactly `minNumberCells` cells does not raise and
assembles a matrix of size `minNumberCells + nPoly`. -/
theorem minNumberCells_exceeds_nPoly (dm : DM α) (p : Int)
    (RBFVal : (Int → α) → (Int → α) → α) (RBFDer : (Int → α) → Int → Int → Int → α)
    (self : RBF α) (c : Int) (list : Int → Int) (x xp : Int → α)
    (hp : 1 ≤ p) (hself : RBF.ctor dm p RBFVal RBFDer = some self) :
    self.minNumberCells = Int.tdiv (7 * self.nPoly) 4 ∧
    self.nPoly < self.minNumberCells ∧
    ∃ m, self.Matrix c self.minNumberCells list x xp = Except.ok m ∧
      m.A.rows = self.minNumberCells + self.nPoly ∧
      m.A.cols = self.minNumberCells + self.nPoly := by
  obtain ⟨hc, hpp, -, -, -, hmin⟩ := Consistent_of_ctor dm p RBFVal RBFDer self (by omega) hself
  have h3 := Consistent_nPoly_ge_three self hc (by rw [hpp]; exact hp)
  obtain ⟨h1, h2⟩ := RBF_minNumberCells_gt self.nPoly self.minNumberCells hmin (by omega)
  exact ⟨h1, h2, _, Matrix_ok self c self.minNumberCells list x xp hc h2, rfl, rfl⟩

/-- Order 1 on the 3 by 3 box mesh: `nPoly = 3` and `minNumberCells = 5`. -/
theorem minNumberCells_exceeds_nPoly_witness :
    ∃ self : RBF ℚ,
      RBF.ctor (quadMesh 3 3) 1 (fun _ _ => 1) (fun _ _ _ _ => 0) = some self ∧
      self.nPoly < self.minNumberCells ∧
      ∃ m, self.Matrix 4 self.minNumberCells (fun i => i) (fun _ => 0) (fun _ => 0) =
        Except.ok m := by
  obtain ⟨self, hself⟩ : ∃ self : RBF ℚ,
      RBF.ctor (quadMesh 3 3) 1 (fun _ _ => 1) (fun _ _ _ _ => 0) = some self :=
    ⟨_, rfl⟩
  obtain ⟨-, h2, m, hm, -⟩ := minNumberCells_exceeds_nPoly (quadMesh 3 3) 1 (fun _ _ => 1)
    (fun _ _ _ _ => 0) self 4 (fun i => i) (fun _ => 0) (fun _ => 0) (by decide) hself
  exact ⟨self, hself, h2, m, hm⟩

end RBFTheorems

section PlaneVectorTheorems

variable {α : Type} [LinearOrderedField α]

/-- Whatever the normal, `segmentB` as left by `DMPlaneVectors_3D_Internal` starts at
`x0 + offset*n` and ends at that point plus the old contents of `segmentB[3..5]`. -/
theorem DMPlaneVectors_3D_Internal_segmentB (x0 n : Nat → α) (offset : α)
    (segmentA segmentB : Nat → α) (i : Nat) (hi : i < 3) :
    (DMPlaneVectors_3D_Internal x0 n offset segmentA segmentB).2 i = x0 i + offset * n i ∧
    (DMPlaneVectors_3D_Internal x0 n offset segmentA segmentB).2 (i + 3) =
      segmentB (i + 3) + x0 i + offset * n i := by
  unfold DMPlaneVectors_3D_Internal
  interval_cases i <;> split_ifs <;> simp [arraySet, arrayAdd]

/-- C22 (behaviour of the code): in 3D the second segment written by `DMPlaneVectors` starts at
`x0 + offset*n`, but its direction (end minus start) is whatever `segmentB[3..5]` held before
the call: the cross product is formed with the start point of `segmentA`, which is zero, and
`segmentB[3..5]` are never assigned.  For `x0 = 0`, `n = (0, 0, 1)`, `offset = 0` the direction
of `segmentA` is `(-1, 0, 0)`, whose cross product with `n` is `(0, -1, 0)`; the direction of
`segmentB` is `(7, 7, 7)` when the array held sevens and `(0, 0, 0)` when it held zeros. -/
theorem DMPlaneVectors_segmentB_not_cross_product :
    (∀ (x0 n : Nat → ℚ) (offset : ℚ) (segmentA segmentB : Nat → ℚ) (i : Nat), i < 3 →
      (DMPlaneVectors boxMesh3D x0 n offset segmentA segmentB).segmentB i =
        x0 i + offset * n i ∧
      (DMPlaneVectors boxMesh3D x0 n offset segmentA segmentB).segmentB (i + 3) -
        (DMPlaneVectors boxMesh3D x0 n offset segmentA segmentB).segmentB i =
          segmentB (i + 3)) ∧
    (List.range 6).map
      (DMPlaneVectors boxMesh3D (arrayOf [0, 0, 0]) (arrayOf [0, 0, 1]) 0
        (arrayOf [0, 0, 0, 0, 0, 0]) (arrayOf [7, 7, 7, 7, 7, 7])).segmentA =
      [0, 0, 0, -1, 0, 0] ∧
    (List.range 6).map
      (DMPlaneVectors boxMesh3D (arrayOf [0, 0, 0]) (arrayOf [0, 0, 1]) 0
        (arrayOf [0, 0, 0, 0, 0, 0]) (arrayOf [7, 7, 7, 7, 7, 7])).segmentB =
      [0, 0, 0, 7, 7, 7] ∧
    (List.range 6).map
      (DMPlaneVectors boxMesh3D (arrayOf [0, 0, 0]) (arrayOf [0, 0, 1]) 0
        (arrayOf [0, 0, 0, 0, 0, 0]) (arrayOf [0, 0, 0, 0, 0, 0])).segmentB =
      [0, 0, 0, 0, 0, 0] := by
  refine ⟨?_, by decide!, by decide!, by decide!⟩
  intro x0 n offset segmentA segmentB i hi
  have h := DMPlaneVectors_3D_Internal_segmentB x0 n offset segmentA segmentB i hi
  have hd : DMPlaneVectors boxMesh3D x0 n offset segmentA segmentB =
      { err := 0
        segmentA := (DMPlaneVectors_3D_Internal x0 n offset segmentA segmentB).1
        segmentB := (DMPlaneVectors_3D_Internal x0 n offset segmentA segmentB).2 } := by
    unfold DMPlaneVectors
    rw [if_neg (by decide), if_neg (by decide)]
  rw [hd]
  constructor
  · exact h.1
  · show (DMPlaneVectors_3D_Internal x0 n offset segmentA segmentB).2 (i + 3) -
      (DMPlaneVectors_3D_Internal x0 n offset segmentA segmentB).2 i = _
    rw [h.1, h.2]
    ring

end PlaneVectorTheorems

section KernelTheorems

theorem DistanceSquared_three {α : Type} [LinearOrderedField α] (x : Int → α) :
    DistanceSquared 3 x = x 0 * x 0 + x 1 * x 1 + x 2 * x 2 := by
  show List.foldl _ 0 [0, 1, 2] = _
  simp

theorem DistanceSquared_two {α : Type} [LinearOrderedField α] (x : Int → α) :
    DistanceSquared 2 x = x 0 * x 0 + x 1 * x 1 := by
  show List.foldl _ 0 [0, 1] = _
  simp

/-- Derivative of `(a + b s) exp(-(s^2 + c) k)` with respect to `s`. -/
theorem hasDerivAt_gauss (a b k c t : ℝ) :
    HasDerivAt (fun s => (a + b * s) * Real.exp (-(s ^ 2 + c) * k))
      ((b - 2 * k * t * (a + b * t)) * Real.exp (-(t ^ 2 + c) * k)) t := by
  have h1 : HasDerivAt (fun s : ℝ => -(s ^ 2 + c) * k) (-(2 * t) * k) t := by
    have := (((hasDerivAt_pow 2 t).add_const c).neg).mul_const k
    simpa using this
  have h2 : HasDerivAt (fun s : ℝ => a + b * s) b t := by
    have := ((hasDerivAt_id t).const_mul b).const_add a
    simpa using this
  have h3 := h2.mul h1.exp
  convert h3 using 1
  ring

theorem deriv_gauss (a b k c t : ℝ) :
    deriv (fun s => (a + b * s) * Real.exp (-(s ^ 2 + c) * k)) t =
      (b - 2 * k * t * (a + b * t)) * Real.exp (-(t ^ 2 + c) * k) :=
  (hasDerivAt_gauss a b k c t).deriv


theorem deriv_gauss_of_eq (F : ℝ → ℝ) (a b k c t : ℝ)
    (h : ∀ s, F s = (a + b * s) * Real.exp (-(s ^ 2 + c) * k)) :
    deriv F t = (b - 2 * k * t * (a + b * t)) * Real.exp (-(t ^ 2 + c) * k) := by
  have : F = fun s => (a + b * s) * Real.exp (-(s ^ 2 + c) * k) := funext h
  rw [this]
  exact deriv_gauss a b k c t

/-- First derivatives of the Gaussian with respect to each of its arguments. -/
theorem deriv_gaussian_x (h y z t : ℝ) :
    deriv (fun s => Real.exp (-(s ^ 2 + y ^ 2 + z ^ 2) / h ^ 2)) t =
      -2 * (1 / (h * h)) * t * Real.exp (-(t ^ 2 + y ^ 2 + z ^ 2) / h ^ 2) := by
  rw [deriv_gauss_of_eq _ 1 0 (1 / (h * h)) (y ^ 2 + z ^ 2) t (fun s => by
    rw [zero_mul, add_zero, one_mul]; congr 1; ring)]
  have : -(t ^ 2 + (y ^ 2 + z ^ 2)) * (1 / (h * h)) = -(t ^ 2 + y ^ 2 + z ^ 2) / h ^ 2 := by ring
  rw [this]
  ring

theorem deriv_gaussian_y (h x z t : ℝ) :
    deriv (fun s => Real.exp (-(x ^ 2 + s ^ 2 + z ^ 2) / h ^ 2)) t =
      -2 * (1 / (h * h)) * t * Real.exp (-(x ^ 2 + t ^ 2 + z ^ 2) / h ^ 2) := by
  rw [deriv_gauss_of_eq _ 1 0 (1 / (h * h)) (x ^ 2 + z ^ 2) t (fun s => by
    rw [zero_mul, add_zero, one_mul]; congr 1; ring)]
  have : -(t ^ 2 + (x ^ 2 + z ^ 2)) * (1 / (h * h)) = -(x ^ 2 + t ^ 2 + z ^ 2) / h ^ 2 := by ring
  rw [this]
  ring

theorem deriv_gaussian_z (h x y t : ℝ) :
    deriv (fun s => Real.exp (-(x ^ 2 + y ^ 2 + s ^ 2) / h ^ 2)) t =
      -2 * (1 / (h * h)) * t * Real.exp (-(x ^ 2 + y ^ 2 + t ^ 2) / h ^ 2) := by
  rw [deriv_gauss_of_eq _ 1 0 (1 / (h * h)) (x ^ 2 + y ^ 2) t (fun s => by
    rw [zero_mul, add_zero, one_mul]; congr 1; ring)]
  have : -(t ^ 2 + (x ^ 2 + y ^ 2)) * (1 / (h * h)) = -(x ^ 2 + y ^ 2 + t ^ 2) / h ^ 2 := by ring
  rw [this]
  ring

/-- Second derivatives of the Gaussian. -/
theorem deriv2_gaussian_xx (h y z t : ℝ) :
    deriv (fun s => deriv (fun u => Real.exp (-(u ^ 2 + y ^ 2 + z ^ 2) / h ^ 2)) s) t =
      2 * (1 / (h * h)) * (2 * (1 / (h * h)) * t * t - 1) *
        Real.exp (-(t ^ 2 + y ^ 2 + z ^ 2) / h ^ 2) := by
  rw [deriv_gauss_of_eq _ 0 (-2 * (1 / (h * h))) (1 / (h * h)) (y ^ 2 + z ^ 2) t (fun s => by
    rw [deriv_gaussian_x]
    have : -(s ^ 2 + (y ^ 2 + z ^ 2)) * (1 / (h * h)) = -(s ^ 2 + y ^ 2 + z ^ 2) / h ^ 2 := by
      ring
    rw [this]; ring)]
  have : -(t ^ 2 + (y ^ 2 + z ^ 2)) * (1 / (h * h)) = -(t ^ 2 + y ^ 2 + z ^ 2) / h ^ 2 := by ring
  rw [this]
  ring

theorem deriv2_gaussian_yy (h x z t : ℝ) :
    deriv (fun s => deriv (fun u => Real.exp (-(x ^ 2 + u ^ 2 + z ^ 2) / h ^ 2)) s) t =
      2 * (1 / (h * h)) * (2 * (1 / (h * h)) * t * t - 1) *
        Real.exp (-(x ^ 2 + t ^ 2 + z ^ 2) / h ^ 2) := by
  rw [deriv_gauss_of_eq _ 0 (-2 * (1 / (h * h))) (1 / (h * h)) (x ^ 2 + z ^ 2) t (fun s => by
    rw [deriv_gaussian_y]
    have : -(s ^ 2 + (x ^ 2 + z ^ 2)) * (1 / (h * h)) = -(x ^ 2 + s ^ 2 + z ^ 2) / h ^ 2 := by
      ring
    rw [this]; ring)]
  have : -(t ^ 2 + (x ^ 2 + z ^ 2)) * (1 / (h * h)) = -(x ^ 2 + t ^ 2 + z ^ 2) / h ^ 2 := by ring
  rw [this]
  ring

theorem deriv2_gaussian_zz (h x y t : ℝ) :
    deriv (fun s => deriv (fun u => Real.exp (-(x ^ 2 + y ^ 2 + u ^ 2) / h ^ 2)) s) t =
      2 * (1 / (h * h)) * (2 * (1 / (h * h)) * t * t - 1) *
        Real.exp (-(x ^ 2 + y ^ 2 + t ^ 2) / h ^ 2) := by
  rw [deriv_gauss_of_eq _ 0 (-2 * (1 / (h * h))) (1 / (h * h)) (x ^ 2 + y ^ 2) t (fun s => by
    rw [deriv_gaussian_z]
    have : -(s ^ 2 + (x ^ 2 + y ^ 2)) * (1 / (h * h)) = -(x ^ 2 + y ^ 2 + s ^ 2) / h ^ 2 := by
      ring
    rw [this]; ring)]
  have : -(t ^ 2 + (x ^ 2 + y ^ 2)) * (1 / (h * h)) = -(x ^ 2 + y ^ 2 + t ^ 2) / h ^ 2 := by ring
  rw [this]
  ring

/-- Mixed second derivatives of the Gaussian. -/
theorem deriv2_gaussian_xy (h x y z : ℝ) :
    deriv (fun s => deriv (fun u => Real.exp (-(s ^ 2 + u ^ 2 + z ^ 2) / h ^ 2)) y) x =
      4 * (1 / (h * h)) * (1 / (h * h)) * x * y *
        Real.exp (-(x ^ 2 + y ^ 2 + z ^ 2) / h ^ 2) := by
  rw [deriv_gauss_of_eq _ (-2 * (1 / (h * h)) * y) 0 (1 / (h * h)) (y ^ 2 + z ^ 2) x
    (fun s => by
      rw [deriv_gaussian_y]
      have : -(s ^ 2 + (y ^ 2 + z ^ 2)) * (1 / (h * h)) = -(s ^ 2 + y ^ 2 + z ^ 2) / h ^ 2 := by
        ring
      rw [this]; ring)]
  have : -(x ^ 2 + (y ^ 2 + z ^ 2)) * (1 / (h * h)) = -(x ^ 2 + y ^ 2 + z ^ 2) / h ^ 2 := by ring
  rw [this]
  ring

theorem deriv2_gaussian_xz (h x y z : ℝ) :
    deriv (fun s => deriv (fun u => Real.exp (-(s ^ 2 + y ^ 2 + u ^ 2) / h ^ 2)) z) x =
      4 * (1 / (h * h)) * (1 / (h * h)) * x * z *
        Real.exp (-(x ^ 2 + y ^ 2 + z ^ 2) / h ^ 2) := by
  rw [deriv_gauss_of_eq _ (-2 * (1 / (h * h)) * z) 0 (1 / (h * h)) (y ^ 2 + z ^ 2) x
    (fun s => by
      rw [deriv_gaussian_z]
      have : -(s ^ 2 + (y ^ 2 + z ^ 2)) * (1 / (h * h)) = -(s ^ 2 + y ^ 2 + z ^ 2) / h ^ 2 := by
        ring
      rw [this]; ring)]
  have : -(x ^ 2 + (y ^ 2 + z ^ 2)) * (1 / (h * h)) = -(x ^ 2 + y ^ 2 + z ^ 2) / h ^ 2 := by ring
  rw [this]
  ring

theorem deriv2_gaussian_yz (h x y z : ℝ) :
    deriv (fun s => deriv (fun u => Real.exp (-(x ^ 2 + s ^ 2 + u ^ 2) / h ^ 2)) z) y =
      4 * (1 / (h * h)) * (1 / (h * h)) * y * z *
        Real.exp (-(x ^ 2 + y ^ 2 + z ^ 2) / h ^ 2) := by
  rw [deriv_gauss_of_eq _ (-2 * (1 / (h * h)) * z) 0 (1 / (h * h)) (x ^ 2 + z ^ 2) y
    (fun s => by
      rw [deriv_gaussian_z]
      have : -(s ^ 2 + (x ^ 2 + z ^ 2)) * (1 / (h * h)) = -(x ^ 2 + s ^ 2 + z ^ 2) / h ^ 2 := by
        ring
      rw [this]; ring)]
  have : -(y ^ 2 + (x ^ 2 + z ^ 2)) * (1 / (h * h)) = -(x ^ 2 + y ^ 2 + z ^ 2) / h ^ 2 := by ring
  rw [this]
  ring

/-- The third mixed derivative of the Gaussian. -/
theorem deriv3_gaussian_xyz (h x y z : ℝ) :
    deriv (fun s => deriv (fun t => deriv (fun u =>
      Real.exp (-(s ^ 2 + t ^ 2 + u ^ 2) / h ^ 2)) z) y) x =
      -8 * (1 / (h * h)) * (1 / (h * h)) * (1 / (h * h)) * x * y * z *
        Real.exp (-(x ^ 2 + y ^ 2 + z ^ 2) / h ^ 2) := by
  rw [deriv_gauss_of_eq _ (4 * (1 / (h * h)) * (1 / (h * h)) * y * z) 0 (1 / (h * h))
    (y ^ 2 + z ^ 2) x (fun s => by
      rw [deriv2_gaussian_yz]
      have : -(s ^ 2 + (y ^ 2 + z ^ 2)) * (1 / (h * h)) = -(s ^ 2 + y ^ 2 + z ^ 2) / h ^ 2 := by
        ring
      rw [this]; ring)]
  have : -(x ^ 2 + (y ^ 2 + z ^ 2)) * (1 / (h * h)) = -(x ^ 2 + y ^ 2 + z ^ 2) / h ^ 2 := by ring
  rw [this]
  ring

theorem GA_exp_arg (h : ℝ) (x : Int → ℝ) :
    Real.exp (-(x 0 * x 0 + x 1 * x 1 + x 2 * x 2) * (1 / (h * h))) =
      Real.exp (-(x 0 ^ 2 + x 1 ^ 2 + x 2 ^ 2) / h ^ 2) := by
  congr 1
  ring


theorem GA_InternalDer_three (h : ℝ) (x : Int → ℝ) (dx dy dz : Int) :
    GA_InternalDer Real.exp 3 h x dx dy dz =
      if dx + 10*dy + 100*dz = 0 then
        some (Real.exp (-(x 0 ^ 2 + x 1 ^ 2 + x 2 ^ 2) / h ^ 2))
      else if dx + 10*dy + 100*dz = 1 then
        some (Real.exp (-(x 0 ^ 2 + x 1 ^ 2 + x 2 ^ 2) / h ^ 2) * (-2 * (1 / (h*h)) * x 0))
      else if dx + 10*dy + 100*dz = 2 then
        some (Real.exp (-(x 0 ^ 2 + x 1 ^ 2 + x 2 ^ 2) / h ^ 2) *
          (2 * (1 / (h*h)) * (2 * (1 / (h*h)) * x 0 * x 0 - 1)))
      else if dx + 10*dy + 100*dz = 10 then
        some (Real.exp (-(x 0 ^ 2 + x 1 ^ 2 + x 2 ^ 2) / h ^ 2) * (-2 * (1 / (h*h)) * x 1))
      else if dx + 10*dy + 100*dz = 20 then
        some (Real.exp (-(x 0 ^ 2 + x 1 ^ 2 + x 2 ^ 2) / h ^ 2) *
          (2 * (1 / (h*h)) * (2 * (1 / (h*h)) * x 1 * x 1 - 1)))
      else if dx + 10*dy + 100*dz = 100 then
        some (Real.exp (-(x 0 ^ 2 + x 1 ^ 2 + x 2 ^ 2) / h ^ 2) * (-2 * (1 / (h*h)) * x 2))
      else if dx + 10*dy + 100*dz = 200 then
        some (Real.exp (-(x 0 ^ 2 + x 1 ^ 2 + x 2 ^ 2) / h ^ 2) *
          (2 * (1 / (h*h)) * (2 * (1 / (h*h)) * x 2 * x 2 - 1)))
      else if dx + 10*dy + 100*dz = 11 then
        some (Real.exp (-(x 0 ^ 2 + x 1 ^ 2 + x 2 ^ 2) / h ^ 2) *
          (4 * (1 / (h*h)) * (1 / (h*h)) * x 0 * x 1))
      else if dx + 10*dy + 100*dz = 101 then
        some (Real.exp (-(x 0 ^ 2 + x 1 ^ 2 + x 2 ^ 2) / h ^ 2) *
          (4 * (1 / (h*h)) * (1 / (h*h)) * x 0 * x 2))
      else if dx + 10*dy + 100*dz = 110 then
        some (Real.exp (-(x 0 ^ 2 + x 1 ^ 2 + x 2 ^ 2) / h ^ 2) *
          (4 * (1 / (h*h)) * (1 / (h*h)) * x 1 * x 2))
      else if dx + 10*dy + 100*dz = 111 then
        some (Real.exp (-(x 0 ^ 2 + x 1 ^ 2 + x 2 ^ 2) / h ^ 2) *
          (8 * (1 / (h*h)) * (1 / (h*h)) * (1 / (h*h)) * x 1 * x 2))
      else none := by
  unfold GA_InternalDer
  simp only [DistanceSquared_three, GA_exp_arg]


/-- C23 (behaviour of the code): for `dim = 3` and every point `x` and scale `h`,
`GA::InternalDer` returns the partial derivative of `g(x) = exp(-(x0^2 + x1^2 + x2^2)/h^2)` at
`x` for the orders `(0,0,0)`, `(1,0,0)`, `(0,1,0)`, `(0,0,1)`, `(2,0,0)`, `(0,2,0)`, `(0,0,2)`,
`(1,1,0)`, `(1,0,1)` and `(0,1,1)`; for the order `(1,1,1)` it returns
`8 g(x) x1 x2 / h^6`, whereas the derivative is `-8 g(x) x0 x1 x2 / h^6`.  At `x = (1,1,1)`,
`h = 1` the returned value is `8 e^{-3}` and the derivative is `-8 e^{-3}`. -/
theorem GA_InternalDer_third_order_wrong :
    (∀ (h : ℝ) (x : Int → ℝ),
      GA_InternalDer Real.exp 3 h x 0 0 0 =
        some (Real.exp (-(x 0 ^ 2 + x 1 ^ 2 + x 2 ^ 2) / h ^ 2)) ∧
      GA_InternalDer Real.exp 3 h x 1 0 0 =
        some (deriv (fun s => Real.exp (-(s ^ 2 + x 1 ^ 2 + x 2 ^ 2) / h ^ 2)) (x 0)) ∧
      GA_InternalDer Real.exp 3 h x 0 1 0 =
        some (deriv (fun s => Real.exp (-(x 0 ^ 2 + s ^ 2 + x 2 ^ 2) / h ^ 2)) (x 1)) ∧
      GA_InternalDer Real.exp 3 h x 0 0 1 =
        some (deriv (fun s => Real.exp (-(x 0 ^ 2 + x 1 ^ 2 + s ^ 2) / h ^ 2)) (x 2)) ∧
      GA_InternalDer Real.exp 3 h x 2 0 0 =
        some (deriv (fun s => deriv (fun u =>
          Real.exp (-(u ^ 2 + x 1 ^ 2 + x 2 ^ 2) / h ^ 2)) s) (x 0)) ∧
      GA_InternalDer Real.exp 3 h x 0 2 0 =
        some (deriv (fun s => deriv (fun u =>
          Real.exp (-(x 0 ^ 2 + u ^ 2 + x 2 ^ 2) / h ^ 2)) s) (x 1)) ∧
      GA_InternalDer Real.exp 3 h x 0 0 2 =
        some (deriv (fun s => deriv (fun u =>
          Real.exp (-(x 0 ^ 2 + x 1 ^ 2 + u ^ 2) / h ^ 2)) s) (x 2)) ∧
      GA_InternalDer Real.exp 3 h x 1 1 0 =
        some (deriv (fun s => deriv (fun u =>
          Real.exp (-(s ^ 2 + u ^ 2 + x 2 ^ 2) / h ^ 2)) (x 1)) (x 0)) ∧
      GA_InternalDer Real.exp 3 h x 1 0 1 =
        some (deriv (fun s => deriv (fun u =>
          Real.exp (-(s ^ 2 + x 1 ^ 2 + u ^ 2) / h ^ 2)) (x 2)) (x 0)) ∧
      GA_InternalDer Real.exp 3 h x 0 1 1 =
        some (deriv (fun s => deriv (fun u =>
          Real.exp (-(x 0 ^ 2 + s ^ 2 + u ^ 2) / h ^ 2)) (x 2)) (x 1)) ∧
      GA_InternalDer Real.exp 3 h x 1 1 1 =
        some (8 * (1 / (h * h)) * (1 / (h * h)) * (1 / (h * h)) * x 1 * x 2 *
          Real.exp (-(x 0 ^ 2 + x 1 ^ 2 + x 2 ^ 2) / h ^ 2)) ∧
      deriv (fun s => deriv (fun t => deriv (fun u =>
        Real.exp (-(s ^ 2 + t ^ 2 + u ^ 2) / h ^ 2)) (x 2)) (x 1)) (x 0) =
        -8 * (1 / (h * h)) * (1 / (h * h)) * (1 / (h * h)) * x 0 * x 1 * x 2 *
          Real.exp (-(x 0 ^ 2 + x 1 ^ 2 + x 2 ^ 2) / h ^ 2)) ∧
    GA_InternalDer Real.exp 3 1 (fun _ => 1) 1 1 1 = some (8 * Real.exp (-3)) ∧
    deriv (fun s => deriv (fun t => deriv (fun u =>
      Real.exp (-(s ^ 2 + t ^ 2 + u ^ 2) / (1 : ℝ) ^ 2)) 1) 1) 1 = -8 * Real.exp (-3) ∧
    (8 * Real.exp (-3) : ℝ) ≠ -8 * Real.exp (-3) := by
  refine ⟨fun h x => ⟨?_, ?_, ?_, ?_, ?_, ?_, ?_, ?_, ?_, ?_, ?_, ?_⟩, ?_, ?_, ?_⟩
  · rw [GA_InternalDer_three, if_pos (by decide)]
  · rw [GA_InternalDer_three, deriv_gaussian_x]
    simp only [show ((1 : Int) + 10 * 0 + 100 * 0 = 1) from by decide]
    norm_num
    ring
  · rw [GA_InternalDer_three, deriv_gaussian_y]
    simp only [show ((0 : Int) + 10 * 1 + 100 * 0 = 10) from by decide]
    norm_num
    ring
  · rw [GA_InternalDer_three, deriv_gaussian_z]
    simp only [show ((0 : Int) + 10 * 0 + 100 * 1 = 100) from by decide]
    norm_num
    ring
  · rw [GA_InternalDer_three, deriv2_gaussian_xx]
    simp only [show ((2 : Int) + 10 * 0 + 100 * 0 = 2) from by decide]
    norm_num
    ring
  · rw [GA_InternalDer_three, deriv2_gaussian_yy]
    simp only [show ((0 : Int) + 10 * 2 + 100 * 0 = 20) from by decide]
    norm_num
    ring
  · rw [GA_InternalDer_three, deriv2_gaussian_zz]
    simp only [show ((0 : Int) + 10 * 0 + 100 * 2 = 200) from by decide]
    norm_num
    ring
  · rw [GA_InternalDer_three, deriv2_gaussian_xy]
    simp only [show ((1 : Int) + 10 * 1 + 100 * 0 = 11) from by decide]
    norm_num
    ring
  · rw [GA_InternalDer_three, deriv2_gaussian_xz]
    simp only [show ((1 : Int) + 10 * 0 + 100 * 1 = 101) from by decide]
    norm_num
    ring
  · rw [GA_InternalDer_three, deriv2_gaussian_yz]
    simp only [show ((0 : Int) + 10 * 1 + 100 * 1 = 110) from by decide]
    norm_num
    ring
  · rw [GA_InternalDer_three]
    simp only [show ((1 : Int) + 10 * 1 + 100 * 1 = 111) from by decide]
    norm_num
    ring
  · exact deriv3_gaussian_xyz h (x 0) (x 1) (x 2)
  · rw [GA_InternalDer_three]
    simp only [show ((1 : Int) + 10 * 1 + 100 * 1 = 111) from by decide]
    norm_num
    ring
  · rw [deriv3_gaussian_xyz]
    norm_num
  · have := Real.exp_pos (-3)
    intro h
    linarith


theorem MQ_InternalDer_two_xx (sqrt : ℝ → ℝ) (pow : ℝ → ℝ → ℝ) (scale : ℝ) (x : Int → ℝ) :
    MQ_InternalDer sqrt pow 2 scale x 2 0 0 =
      some ((1 / scale) * (1 / scale) *
        (1 + (1 / scale) * (1 / scale) * (x 1 * x 1 + x 2 * x 2)) /
          pow (sqrt (1 + (1 / scale) * (1 / scale) * (x 0 * x 0 + x 1 * x 1))) 3) := by
  unfold MQ_InternalDer
  simp only [DistanceSquared_two]
  rw [if_neg (by decide), if_neg (by decide), if_pos (by decide)]

theorem MQ_InternalDer_two_yy (sqrt : ℝ → ℝ) (pow : ℝ → ℝ → ℝ) (scale : ℝ) (x : Int → ℝ) :
    MQ_InternalDer sqrt pow 2 scale x 0 2 0 =
      some ((1 / scale) * (1 / scale) *
        (1 + (1 / scale) * (1 / scale) * (x 0 * x 0 + x 2 * x 2)) /
          pow (sqrt (1 + (1 / scale) * (1 / scale) * (x 0 * x 0 + x 1 * x 1))) 3) := by
  unfold MQ_InternalDer
  simp only [DistanceSquared_two]
  rw [if_neg (by decide), if_neg (by decide), if_neg (by decide), if_neg (by decide),
    if_pos (by decide)]

theorem IMQ_InternalDer_two_xx (sqrt : ℝ → ℝ) (pow : ℝ → ℝ → ℝ) (scale : ℝ) (x : Int → ℝ) :
    IMQ_InternalDer sqrt pow 2 scale x 2 0 0 =
      some (-(1 / scale) * (1 / scale) *
        (1 + (1 / scale) * (1 / scale) * (-2 * x 0 * x 0 + x 1 * x 1 + x 2 * x 2)) /
          pow (sqrt (1 + (1 / scale) * (1 / scale) * (x 0 * x 0 + x 1 * x 1))) 5) := by
  unfold IMQ_InternalDer
  simp only [DistanceSquared_two]
  rw [if_neg (by decide), if_neg (by decide), if_pos (by decide)]

theorem IMQ_InternalDer_two_yy (sqrt : ℝ → ℝ) (pow : ℝ → ℝ → ℝ) (scale : ℝ) (x : Int → ℝ) :
    IMQ_InternalDer sqrt pow 2 scale x 0 2 0 =
      some (-(1 / scale) * (1 / scale) *
        (1 + (1 / scale) * (1 / scale) * (x 0 * x 0 - 2 * x 1 * x 1 + x 2 * x 2)) /
          pow (sqrt (1 + (1 / scale) * (1 / scale) * (x 0 * x 0 + x 1 * x 1))) 5) := by
  unfold IMQ_InternalDer
  simp only [DistanceSquared_two]
  rw [if_neg (by decide), if_neg (by decide), if_neg (by decide), if_neg (by decide),
    if_pos (by decide)]

/-- C24 (behaviour of the code): for `dim = 2` the second derivatives of the multiquadric and
of the inverse multiquadric kernel read index 2 of the point they are given.  With the stencil
array `x = {0, 0, x2, 0}` (the points `(0,0)` and `(x2, 0)`), scale 1 and the first point passed
as `&x[0*dim]`, `MQ::InternalDer` for order `(2,0,0)` returns `1 + x2^2`: `2` for `x2 = 1` and
`26` for `x2 = 5`, whereas `e^2 (1 + e^2 x1^2) / (1 + e^2 (x0^2 + x1^2))^(3/2)` is `1` at the
point `(0,0)`.  `IMQ::InternalDer` returns `-2` for `x2 = 1`. -/
theorem MQ_InternalDer_reads_next_point :
    (∀ (sqrt : ℝ → ℝ) (pow : ℝ → ℝ → ℝ) (scale : ℝ) (x : Int → ℝ),
      MQ_InternalDer sqrt pow 2 scale x 2 0 0 =
        some ((1 / scale) * (1 / scale) *
          (1 + (1 / scale) * (1 / scale) * (x 1 * x 1 + x 2 * x 2)) /
            pow (sqrt (1 + (1 / scale) * (1 / scale) * (x 0 * x 0 + x 1 * x 1))) 3) ∧
      MQ_InternalDer sqrt pow 2 scale x 0 2 0 =
        some ((1 / scale) * (1 / scale) *
          (1 + (1 / scale) * (1 / scale) * (x 0 * x 0 + x 2 * x 2)) /
            pow (sqrt (1 + (1 / scale) * (1 / scale) * (x 0 * x 0 + x 1 * x 1))) 3) ∧
      IMQ_InternalDer sqrt pow 2 scale x 2 0 0 =
        some (-(1 / scale) * (1 / scale) *
          (1 + (1 / scale) * (1 / scale) * (-2 * x 0 * x 0 + x 1 * x 1 + x 2 * x 2)) /
            pow (sqrt (1 + (1 / scale) * (1 / scale) * (x 0 * x 0 + x 1 * x 1))) 5) ∧
      IMQ_InternalDer sqrt pow 2 scale x 0 2 0 =
        some (-(1 / scale) * (1 / scale) *
          (1 + (1 / scale) * (1 / scale) * (x 0 * x 0 - 2 * x 1 * x 1 + x 2 * x 2)) /
            pow (sqrt (1 + (1 / scale) * (1 / scale) * (x 0 * x 0 + x 1 * x 1))) 5)) ∧
    MQ_InternalDer Real.sqrt (fun a b => a ^ b) 2 1
      (fun d => (fun i : Int => if i = 2 then (1 : ℝ) else 0) (0 * 2 + d)) 2 0 0 = some 2 ∧
    MQ_InternalDer Real.sqrt (fun a b => a ^ b) 2 1
      (fun d => (fun i : Int => if i = 2 then (5 : ℝ) else 0) (0 * 2 + d)) 2 0 0 = some 26 ∧
    ((1 / 1 : ℝ) * (1 / 1) * (1 + (1 / 1) * (1 / 1) * (0 : ℝ) ^ 2) /
      (1 + (1 / 1) * (1 / 1) * ((0 : ℝ) ^ 2 + (0 : ℝ) ^ 2)) ^ ((3 : ℝ) / 2) = 1) ∧
    IMQ_InternalDer Real.sqrt (fun a b => a ^ b) 2 1
      (fun d => (fun i : Int => if i = 2 then (1 : ℝ) else 0) (0 * 2 + d)) 2 0 0 =
        some (-2) := by
  refine ⟨fun sqrt pow scale x => ⟨MQ_InternalDer_two_xx sqrt pow scale x,
    MQ_InternalDer_two_yy sqrt pow scale x, IMQ_InternalDer_two_xx sqrt pow scale x,
    IMQ_InternalDer_two_yy sqrt pow scale x⟩, ?_, ?_, ?_, ?_⟩
  · rw [MQ_InternalDer_two_xx]
    norm_num
  · rw [MQ_InternalDer_two_xx]
    norm_num
  · norm_num
  · rw [IMQ_InternalDer_two_xx]
    norm_num

end KernelTheorems

section IntegratorTheorems

theorem integrateRay_cons {α : Type} [LinearOrderedField α] (exp : α → α) (s : ChainLink α)
    (chain : List (ChainLink α)) (boundary : α) :
    integrateRay exp (s :: chain) boundary =
      segmentStep exp s (integrateRay exp chain boundary) := rfl

/-- With uniform `Krad` and `Ij` the composed intensity is the single-segment solution over the
total path length. -/
theorem integrateRay_uniform_closed_form (K Ij : ℝ) (hs : List ℝ) (boundary : ℝ) :
    integrateRay Real.exp (hs.map fun h => ⟨⟨Ij, K⟩, h⟩) boundary =
      Ij + (boundary - Ij) * Real.exp (-(K * hs.sum)) := by
  induction hs with
  | nil => simp [integrateRay]
  | cons h hs ih =>
    rw [List.map_cons, integrateRay_cons, ih, List.sum_cons]
    unfold segmentStep
    have hexp : Real.exp (-(K * (h + hs.sum))) =
        Real.exp (-(K * hs.sum)) * Real.exp (-(K * h)) := by
      rw [← Real.exp_add]
      congr 1
      ring
    rw [hexp]
    ring

/-- C17: the integrator returns the `I_0` obtained from `I_k = boundary` by applying
`I_i = I_{i+1}*exp(-Krad_i*h_i) + Ij_i*(1 - exp(-Krad_i*h_i))` for `i = k-1` down to `0`; for
uniform `Krad` and `Ij` this is the closed-form single-segment solution applied `k` times, which
amounts to the single-segment solution over the total path length; and for one segment with
`Krad = 1`, `h = 1`, `Ij = 2` and boundary intensity `0` it is `2(1 - e^{-1})`. -/
theorem integrateRay_recurrence_and_closed_form :
    (∀ (chain : List (ChainLink ℝ)) (boundary : ℝ),
      integrateRay Real.exp (chain.drop chain.length) boundary = boundary ∧
      (∀ (i : Nat) (hi : i < chain.length),
        integrateRay Real.exp (chain.drop i) boundary =
          integrateRay Real.exp (chain.drop (i + 1)) boundary *
              Real.exp (-((chain.get ⟨i, hi⟩).carrier.Krad * (chain.get ⟨i, hi⟩).h)) +
            (chain.get ⟨i, hi⟩).carrier.Ij *
              (1 - Real.exp (-((chain.get ⟨i, hi⟩).carrier.Krad * (chain.get ⟨i, hi⟩).h)))) ∧
      integrateRay Real.exp (chain.drop 0) boundary = integrateRay Real.exp chain boundary) ∧
    (∀ (K Ij : ℝ) (hs : List ℝ) (boundary : ℝ),
      integrateRay Real.exp (hs.map fun h => ⟨⟨Ij, K⟩, h⟩) boundary =
        hs.foldr (fun h I => I * Real.exp (-(K * h)) + Ij * (1 - Real.exp (-(K * h))))
          boundary ∧
      integrateRay Real.exp (hs.map fun h => ⟨⟨Ij, K⟩, h⟩) boundary =
        Ij + (boundary - Ij) * Real.exp (-(K * hs.sum))) ∧
    integrateRay Real.exp [⟨⟨2, 1⟩, 1⟩] 0 = 2 * (1 - Real.exp (-1)) := by
  refine ⟨fun chain boundary => ⟨?_, ?_, ?_⟩, fun K Ij hs boundary => ⟨?_, ?_⟩, ?_⟩
  · rw [List.drop_length]
    rfl
  · intro i hi
    rw [List.drop_eq_getElem_cons hi, integrateRay_cons]
    rfl
  · rw [List.drop_zero]
  · unfold integrateRay
    rw [List.foldr_map]
    rfl
  · exact integrateRay_uniform_closed_form K Ij hs boundary
  · simp [integrateRay, segmentStep]

end IntegratorTheorems

end Chrest
